import Mathlib

/-!
# AtomEngineServer: order / trade coordination engine

A shallow embedding of `src/atomengineserver.cpp` (namespace `AtomEngine`).

* `std::map` is a key-sorted association list (`StdMap`) with `find`, `assign`
  (the effect of `m[k] = v`) and `erase`.
* `long long` identifiers are `Int`; the counters are never close to `2^63`
  in any execution considered here, so `++cur` is `cur + 1`.
* `QString` is `String`, `QByteArray` is a list of bytes.
* A parsed JSON document is a `QJsonValue`; JSON numbers are integral. The
  parser `QJsonDocument::fromJson` is a parameter `fromJson` of the slots.
* The log file `info.dat` is the list of the documents whose compact text its
  lines are; `saveCommand` takes the outcome of `open(QIODevice::Append)` as
  an argument, and `load` reads a line back through `QJsonValue.viaLatin1`
  (`saveCommand` writes the text through `QLatin1String`, `load` parses
  `toUtf8()` of the line).
* Reply frames are values of `Reply`, one constructor per string template.
  Socket writes and log appends are returned as a list of `Effect`s in
  program order.
* `OrderInfo` and `TradeInfo` (header `info.h`) are modelled from the spec.

Definitions come first, theorems after the heading "Theorems".
-/

namespace AtomEngine

/-! ## JSON values (QJsonValue / QJsonObject / QJsonDocument) -/

/-- A parsed JSON value. `null` also stands for Qt's `Undefined` (the value of
a missing key) and for an invalid document: all accessors used by the engine
treat them alike. -/
inductive QJsonValue where
  | null : QJsonValue
  | bool (b : Bool) : QJsonValue
  | double (n : Int) : QJsonValue
  | string (s : String) : QJsonValue
  | array (items : List QJsonValue) : QJsonValue
  | object (members : List (String × QJsonValue)) : QJsonValue

/-- A JSON object: its members, looked up by key. -/
abbrev QJsonObject := List (String × QJsonValue)

/-- The `obj[key]` lookup: the value stored under `key`, `null` when absent. -/
def QJsonObject.get : QJsonObject → String → QJsonValue
  | [], _ => QJsonValue.null
  | (k, v) :: rest, key => if k = key then v else QJsonObject.get rest key

/-- The `QJsonDocument::isObject` test. -/
def QJsonValue.isObject : QJsonValue → Bool
  | QJsonValue.object _ => true
  | _ => false

/-- Model of `QJsonValue::toObject` and `QJsonDocument::object`: the empty object
unless the value is an object. -/
def QJsonValue.toObject : QJsonValue → QJsonObject
  | QJsonValue.object o => o
  | _ => []

/-- Model of `QJsonValue::toArray`: the empty array unless the value is an array. -/
def QJsonValue.toArray : QJsonValue → List QJsonValue
  | QJsonValue.array a => a
  | _ => []

/-- Model of `QJsonValue::toString`: the empty string unless the value is a string. -/
def QJsonValue.toQString : QJsonValue → String
  | QJsonValue.string s => s
  | _ => ""

/-- Model of `QJsonValue::toBool`: false unless the value is a boolean. -/
def QJsonValue.toBool : QJsonValue → Bool
  | QJsonValue.bool b => b
  | _ => false

/-- Model of `QJsonValue::toVariant().toLongLong()`: a number gives its value, a
boolean gives 0 or 1, a string is read as `QString::toLongLong` does (a
decimal integer, 0 when it is not one), anything else gives 0. -/
def QJsonValue.toLongLong : QJsonValue → Int
  | QJsonValue.double n => n
  | QJsonValue.bool b => if b then 1 else 0
  | QJsonValue.string s => (s.toInt?).getD 0
  | _ => 0

/-! ## std::map -/

/-- A `std::map<K, V>`: entries kept in increasing key order. -/
abbrev StdMap (K : Type) (V : Type) := List (K × V)

/-- Model of `m.find(k)`: the value under `k`, `none` for `m.end()`. -/
def StdMap.find {K V : Type} [DecidableEq K] : StdMap K V → K → Option V
  | [], _ => none
  | (k, v) :: rest, key => if k = key then some v else StdMap.find rest key

/-- Model of `m[k] = v`: replaces the value under `k`, or inserts the entry at its
place in key order. -/
def StdMap.assign {K V : Type} [LinearOrder K] : StdMap K V → K → V → StdMap K V
  | [], key, val => [(key, val)]
  | (k, v) :: rest, key, val =>
    if key < k then (key, val) :: (k, v) :: rest
    else if key = k then (key, val) :: rest
    else (k, v) :: StdMap.assign rest key val

/-- Model of `m[k] = v` on a map that is never iterated for output (`addrs_`, whose
type is declared in the absent header): replaces the value under `k`, or adds
the entry. -/
def StdMap.put {K V : Type} [DecidableEq K] : StdMap K V → K → V → StdMap K V
  | [], key, val => [(key, val)]
  | (k, v) :: rest, key, val =>
    if k = key then (key, val) :: rest else (k, v) :: StdMap.put rest key val

/-- Model of `m.erase(m.find(k))` for a key that may be absent: the entry under `k`
is dropped. -/
def StdMap.erase {K V : Type} [DecidableEq K] : StdMap K V → K → StdMap K V
  | [], _ => []
  | (k, v) :: rest, key =>
    if k = key then StdMap.erase rest key else (k, v) :: StdMap.erase rest key

/-- The loop `while (it != m.end()) if (it->second == val) it = m.erase(it);
else ++it;`: every entry whose value is `val` is dropped. -/
def StdMap.eraseValue {K V : Type} [DecidableEq V] : StdMap K V → V → StdMap K V
  | [], _ => []
  | (k, v) :: rest, val =>
    if v = val then StdMap.eraseValue rest val else (k, v) :: StdMap.eraseValue rest val

/-- The keys of a map, in iteration order. -/
def StdMap.keys {K V : Type} (m : StdMap K V) : List K := m.map Prod.fst

/-- The values of a map, in iteration order. -/
def StdMap.values {K V : Type} (m : StdMap K V) : List V := m.map Prod.snd

/-- Well-formedness of a `std::map`: keys strictly increasing. -/
def StdMap.WF {K V : Type} [LinearOrder K] (m : StdMap K V) : Prop :=
  (StdMap.keys m).Pairwise (fun a b => a < b)

/-! ## Orders and trades (info.h) -/

/-- Modelled from the spec: `OrderInfo` is declared in `info.h`, which is not
among the sources. An order has a server-assigned id, an owner address (the
`getAddress_` member of the payload) and the payload itself, kept verbatim. -/
structure OrderInfo where
  id_ : Int
  getAddress_ : String
  json_ : QJsonObject

/-- Modelled from the spec: the constructor `OrderInfo(id, orderJson)` of
`info.h`; the owner address is the payload field `getAddress_`. -/
def OrderInfo.make (id : Int) (orderJson : QJsonObject) : OrderInfo :=
  { id_ := id
    getAddress_ := (QJsonObject.get orderJson "getAddress_").toQString
    json_ := orderJson }

/-- Modelled from the spec: `TradeInfo` is declared in `info.h`, which is not
among the sources. The field names are those used by `updateTrade` and by the
dispatcher. -/
structure TradeInfo where
  id_ : Int
  order_ : OrderInfo
  initiatorAddress_ : String
  secretHash_ : String
  contractInitiator_ : String
  contractParticipant_ : String
  initiatorContractTransaction_ : String
  participantContractTransaction_ : String
  initiatorRedemptionTransaction_ : String
  participantRedemptionTransaction_ : String
  initiatorCommissionPaid_ : Bool
  participantCommissionPaid_ : Bool

/-- Modelled from the spec: the constructor `TradeInfo(id, order,
initiatorAddress)` of `info.h`; the string slots start empty and the
commission flags start false. -/
def TradeInfo.make (id : Int) (order : OrderInfo) (initiatorAddress : String) : TradeInfo :=
  { id_ := id
    order_ := order
    initiatorAddress_ := initiatorAddress
    secretHash_ := ""
    contractInitiator_ := ""
    contractParticipant_ := ""
    initiatorContractTransaction_ := ""
    participantContractTransaction_ := ""
    initiatorRedemptionTransaction_ := ""
    participantRedemptionTransaction_ := ""
    initiatorCommissionPaid_ := false
    participantCommissionPaid_ := false }

/-! ## The log file as text -/

/-- The UTF-8 bytes of a string, each byte taken as one Latin-1 character:
the string `QLatin1String(s.toUtf8())`. Characters below U+0080 are unchanged. -/
def latin1OfUtf8 (s : String) : String :=
  String.mk (s.data.flatMap (fun c => (String.utf8EncodeChar c).map (fun b => Char.ofNat b.toNat)))

mutual
/-- The document that `load` parses from the line `saveCommand` wrote for
`doc`. `saveCommand` writes `QLatin1String(doc.toJson(Compact))`, that is the
UTF-8 bytes of the compact JSON text, each byte as one character; `load` reads
the line back and parses `command.toUtf8()`. The JSON structure, the numbers
and every character below U+0080 come back as they were; every string comes
back as `latin1OfUtf8` of itself. -/
def QJsonValue.viaLatin1 : QJsonValue → QJsonValue
  | QJsonValue.null => QJsonValue.null
  | QJsonValue.bool b => QJsonValue.bool b
  | QJsonValue.double n => QJsonValue.double n
  | QJsonValue.string s => QJsonValue.string (latin1OfUtf8 s)
  | QJsonValue.array items => QJsonValue.array (viaLatin1Items items)
  | QJsonValue.object members => QJsonValue.object (viaLatin1Members members)
/-- The map `QJsonValue.viaLatin1` on the items of an array. -/
def viaLatin1Items : List QJsonValue → List QJsonValue
  | [] => []
  | v :: rest => QJsonValue.viaLatin1 v :: viaLatin1Items rest
/-- The map `QJsonValue.viaLatin1` on the members of an object, keys included. -/
def viaLatin1Members : List (String × QJsonValue) → List (String × QJsonValue)
  | [] => []
  | (k, v) :: rest => (latin1OfUtf8 k, QJsonValue.viaLatin1 v) :: viaLatin1Members rest
end

/-! ## Sockets, reply frames, effects -/

/-- A `QByteArray`. -/
abbrev QByteArray := List UInt8

/-- A client socket (`QTcpSocket*`), identified by its descriptor. -/
structure QTcpSocket where
  socketDescriptor : Int
deriving DecidableEq

/-- The frames the server writes. Each constructor is one of the string
templates of `onReadyRead`; the entity it carries is the one whose `getJson()`
is spliced into the template. -/
inductive Reply where
  | init_success (orders : List OrderInfo) (trades : List TradeInfo) : Reply
  | request_swap_commission_success : Reply
  | create_order_success (order : OrderInfo) : Reply
  | create_order (order : OrderInfo) : Reply
  | delete_order_success (id : Int) : Reply
  | delete_order (id : Int) : Reply
  | create_trade_success (trade : TradeInfo) : Reply
  | create_trade (trade : TradeInfo) : Reply
  | create_trade_failed : Reply
  | update_trade_success : Reply
  | update_trade (trade : TradeInfo) : Reply

/-- The text of a frame, given the `getJson()` of orders and of trades
(declared in `info.h`). -/
def Reply.text (orderJson : OrderInfo → String) (tradeJson : TradeInfo → String) : Reply → String
  | Reply.init_success orders trades =>
    "\x7b\"reply\": \"init_success\", \"isActual\": true, \"orders\": ["
      ++ ", ".intercalate (orders.map orderJson) ++ "], \"trades\": ["
      ++ ", ".intercalate (trades.map tradeJson) ++ "], \"commissions\": []\x7d\n"
  | Reply.request_swap_commission_success =>
    "\x7b\"reply\": \"request_swap_commission_success\", \"commissions\": []\x7d\n"
  | Reply.create_order_success order =>
    "\x7b\"reply\": \"create_order_success\", \"order\": " ++ orderJson order ++ "\x7d\n"
  | Reply.create_order order =>
    "\x7b\"reply\": \"create_order\", \"order\": " ++ orderJson order ++ "\x7d\n"
  | Reply.delete_order_success id =>
    "\x7b\"reply\": \"delete_order_success\", \"id\": " ++ toString id ++ "\x7d\n"
  | Reply.delete_order id =>
    "\x7b\"reply\": \"delete_order\", \"id\": " ++ toString id ++ "\x7d\n"
  | Reply.create_trade_success trade =>
    "\x7b\"reply\": \"create_trade_success\", \"trade\": " ++ tradeJson trade ++ "\x7d\n"
  | Reply.create_trade trade =>
    "\x7b\"reply\": \"create_trade\", \"trade\": " ++ tradeJson trade ++ "\x7d\n"
  | Reply.create_trade_failed =>
    "\x7b\"reply\": \"create_trade_failed\", \"reasone\": \"order out of date\"\x7d\n"
  | Reply.update_trade_success =>
    "\x7b\"reply\": \"update_trade_success\"\x7d\n"
  | Reply.update_trade trade =>
    "\x7b\"reply\": \"update_trade\", \"trade\": " ++ tradeJson trade ++ "\x7d\n"

/-- What a command does to the outside, in program order. -/
inductive Effect where
  | write (socket : QTcpSocket) (rep : Reply) : Effect
  | append (line : QJsonValue) : Effect

/-- The frames written to `socket` by a list of effects, in order. -/
def received (socket : QTcpSocket) : List Effect → List Reply
  | [] => []
  | Effect.write s rep :: rest =>
    if s = socket then rep :: received socket rest else received socket rest
  | Effect.append _ :: rest => received socket rest

/-- The lines appended to the log by a list of effects, in order. -/
def appended : List Effect → List QJsonValue
  | [] => []
  | Effect.write _ _ :: rest => appended rest
  | Effect.append line :: rest => line :: appended rest

/-! ## The engine -/

/-- The state of `AtomEngineServer`. `backupFile_` is the content of
`info.dat`, one entry per line: the document whose compact text the line is. -/
structure AtomEngineServer where
  curOrderId_ : Int
  curTradeId_ : Int
  orders_ : StdMap Int OrderInfo
  trades_ : StdMap Int TradeInfo
  connections_ : StdMap Int QTcpSocket
  buffers_ : StdMap Int QByteArray
  addrs_ : StdMap String Int
  backupFile_ : List QJsonValue

/-- The constructor: counters 0, empty tables; `file` is what `info.dat`
holds when the process starts. -/
def AtomEngineServer.new (file : List QJsonValue) : AtomEngineServer :=
  { curOrderId_ := 0
    curTradeId_ := 0
    orders_ := []
    trades_ := []
    connections_ := []
    buffers_ := []
    addrs_ := []
    backupFile_ := file }

/-- Model of `AtomEngineServer::createOrder`. -/
def AtomEngineServer.createOrder (s : AtomEngineServer) (orderJson : QJsonObject) :
    OrderInfo × AtomEngineServer :=
  let cur := s.curOrderId_ + 1
  let order := OrderInfo.make cur orderJson
  (order, { s with curOrderId_ := cur, orders_ := StdMap.assign s.orders_ cur order })

/-- Model of `AtomEngineServer::deleteOrder`. -/
def AtomEngineServer.deleteOrder (s : AtomEngineServer) (id : Int) : Bool × AtomEngineServer :=
  match StdMap.find s.orders_ id with
  | some _ => (true, { s with orders_ := StdMap.erase s.orders_ id })
  | none => (false, s)

/-- Model of `AtomEngineServer::createTrade`. -/
def AtomEngineServer.createTrade (s : AtomEngineServer) (orderId : Int)
    (initiatorAddress : String) : Option TradeInfo × AtomEngineServer :=
  match StdMap.find s.orders_ orderId with
  | some order =>
    let cur := s.curTradeId_ + 1
    let trade := TradeInfo.make cur order initiatorAddress
    (some trade,
      { s with orders_ := StdMap.erase s.orders_ orderId
               curTradeId_ := cur
               trades_ := StdMap.assign s.trades_ cur trade })
  | none => (none, s)

/-- The assignments `updateTrade` makes to the trade it found. -/
def TradeInfo.update (trade : TradeInfo) (tradeJson : QJsonObject) : TradeInfo :=
  { trade with
    secretHash_ := (QJsonObject.get tradeJson "secretHash").toQString
    contractInitiator_ := (QJsonObject.get tradeJson "contractInitiator").toQString
    contractParticipant_ := (QJsonObject.get tradeJson "contractParticipant").toQString
    initiatorContractTransaction_ :=
      (QJsonObject.get tradeJson "initiatorContractTransaction").toQString
    participantContractTransaction_ :=
      (QJsonObject.get tradeJson "participantContractTransaction").toQString
    initiatorRedemptionTransaction_ :=
      (QJsonObject.get tradeJson "initiatorRedemptionTransaction").toQString
    participantRedemptionTransaction_ :=
      (QJsonObject.get tradeJson "participantRedemptionTransaction").toQString
    initiatorCommissionPaid_ :=
      if !trade.initiatorCommissionPaid_ then
        (QJsonObject.get tradeJson "commissionInitiatorPaid").toBool
      else trade.initiatorCommissionPaid_
    participantCommissionPaid_ :=
      if !trade.participantCommissionPaid_ then
        (QJsonObject.get tradeJson "commissionParticipantPaid").toBool
      else trade.participantCommissionPaid_ }

/-- Model of `AtomEngineServer::updateTrade`. The trade is held by pointer in
`trades_`, so the assignments change the stored trade. -/
def AtomEngineServer.updateTrade (s : AtomEngineServer) (tradeJson : QJsonObject) :
    Option TradeInfo × AtomEngineServer :=
  let id := (QJsonObject.get tradeJson "id").toLongLong
  match StdMap.find s.trades_ id with
  | some trade =>
    let updated := TradeInfo.update trade tradeJson
    (some updated, { s with trades_ := StdMap.assign s.trades_ id updated })
  | none => (none, s)

/-- Model of `AtomEngineServer::saveCommand`. `opens` tells whether
`backupFile_.open(QIODevice::Append)` succeeds; when it does not, nothing is
written (the failure only goes to the logger). -/
def AtomEngineServer.saveCommand (s : AtomEngineServer) (doc : QJsonValue) (opens : Bool) :
    AtomEngineServer × List Effect :=
  if opens then ({ s with backupFile_ := s.backupFile_ ++ [doc] }, [Effect.append doc])
  else (s, [])

/-! ## The dispatcher -/

/-- The addresses the nested loops over `req["curs"][i]["addrs"][j]` visit,
in order. -/
def listedAddrs (req : QJsonObject) : List String :=
  (QJsonObject.get req "curs").toArray.flatMap
    (fun curInfo => (QJsonObject.get curInfo.toObject "addrs").toArray.map QJsonValue.toQString)

/-- The loop body `addrs_[addr] = clientSocket->socketDescriptor()` run over
a list of addresses. -/
def claimAddrs (addrs : StdMap String Int) (descr : Int) : List String → StdMap String Int
  | [] => addrs
  | addr :: rest => claimAddrs (StdMap.put addrs addr descr) descr rest

/-- The loop `for (it in connections_) if (keep(it->first)) it->second->write(rep)`. -/
def writeToAll (connections : StdMap Int QTcpSocket) (keep : Int → Bool) (rep : Reply) :
    List Effect :=
  (connections.filter (fun e => keep e.1)).map (fun e => Effect.write e.2 rep)

/-- The block `if (command == "init")`. -/
def initBlock (s : AtomEngineServer) (clientSocket : QTcpSocket) (req : QJsonObject) :
    AtomEngineServer × List Effect :=
  let activeAddrs := listedAddrs req
  let s1 := { s with addrs_ := claimAddrs s.addrs_ clientSocket.socketDescriptor activeAddrs }
  let trades := (StdMap.values s1.trades_).filter
    (fun t => decide (t.order_.getAddress_ ∈ activeAddrs) || decide (t.initiatorAddress_ ∈ activeAddrs))
  (s1, [Effect.write clientSocket (Reply.init_success (StdMap.values s1.orders_) trades)])

/-- The block `if (command == "request_swap_commission")`. -/
def requestSwapCommissionBlock (s : AtomEngineServer) (clientSocket : QTcpSocket)
    (req : QJsonObject) : AtomEngineServer × List Effect :=
  let s1 := { s with addrs_ := claimAddrs s.addrs_ clientSocket.socketDescriptor (listedAddrs req) }
  (s1, [Effect.write clientSocket Reply.request_swap_commission_success])

/-- The block `if (command == "create_order")`. `createOrder` never returns a
null pointer, so the inner `if (newOrder)` is always taken. -/
def createOrderBlock (s : AtomEngineServer) (clientSocket : QTcpSocket) (doc : QJsonValue)
    (req : QJsonObject) (opens : Bool) : AtomEngineServer × List Effect :=
  let orderJson := (QJsonObject.get req "order").toObject
  let (newOrder, s1) := s.createOrder orderJson
  let (s2, saved) := s1.saveCommand doc opens
  let descr := clientSocket.socketDescriptor
  let s3 := { s2 with addrs_ := StdMap.put s2.addrs_ newOrder.getAddress_ descr }
  (s3, saved ++ [Effect.write clientSocket (Reply.create_order_success newOrder)]
    ++ writeToAll s2.connections_ (fun k => decide (k ≠ descr)) (Reply.create_order newOrder))

/-- The block `if (command == "delete_order")`. -/
def deleteOrderBlock (s : AtomEngineServer) (clientSocket : QTcpSocket) (doc : QJsonValue)
    (req : QJsonObject) (opens : Bool) : AtomEngineServer × List Effect :=
  let id := (QJsonObject.get req "id").toLongLong
  let (deleted, s1) := s.deleteOrder id
  let rep1 := [Effect.write clientSocket (Reply.delete_order_success id)]
  if deleted then
    let (s2, saved) := s1.saveCommand doc opens
    (s2, rep1 ++ saved
      ++ writeToAll s2.connections_ (fun k => decide (k ≠ clientSocket.socketDescriptor))
          (Reply.delete_order id))
  else (s1, rep1)

/-- The maker lookup of the `create_trade` block: `secondSocketDescr` (-1
when the maker address is unmapped or its connection is gone) and the write
of `rep2` to the maker when it is not the sender. -/
def makerDelivery (s : AtomEngineServer) (firstSocketDescr : Int) (trade : TradeInfo) :
    Int × List Effect :=
  match StdMap.find s.addrs_ trade.order_.getAddress_ with
  | some descr =>
    match StdMap.find s.connections_ descr with
    | some socket =>
      (descr, if descr ≠ firstSocketDescr then [Effect.write socket (Reply.create_trade trade)]
              else [])
    | none => (-1, [])
  | none => (-1, [])

/-- The block `if (command == "create_trade")`. -/
def createTradeBlock (s : AtomEngineServer) (clientSocket : QTcpSocket) (doc : QJsonValue)
    (req : QJsonObject) (opens : Bool) : AtomEngineServer × List Effect :=
  let orderId := (QJsonObject.get req "orderId").toLongLong
  let initiatorAddr := (QJsonObject.get req "address").toQString
  let s1 := { s with addrs_ := StdMap.put s.addrs_ initiatorAddr clientSocket.socketDescriptor }
  match s1.createTrade orderId initiatorAddr with
  | (some trade, s2) =>
    let (s3, saved) := s2.saveCommand doc opens
    let firstSocketDescr := clientSocket.socketDescriptor
    let (secondSocketDescr, toMaker) := makerDelivery s3 firstSocketDescr trade
    (s3, saved ++ [Effect.write clientSocket (Reply.create_trade_success trade)] ++ toMaker
      ++ writeToAll s3.connections_
          (fun k => decide (k ≠ firstSocketDescr) && decide (k ≠ secondSocketDescr))
          (Reply.delete_order orderId))
  | (none, s2) => (s2, [Effect.write clientSocket Reply.create_trade_failed])

/-- The choice of `anotherConnectionDescr` in the `update_trade` block. -/
def anotherConnectionDescr (s : AtomEngineServer) (descr : Int) (trade : TradeInfo) : Int :=
  match StdMap.find s.addrs_ trade.order_.getAddress_,
        StdMap.find s.addrs_ trade.initiatorAddress_ with
  | some first, some second => if first = descr then second else first
  | _, _ => -1

/-- The block `if (command == "update_trade")`. -/
def updateTradeBlock (s : AtomEngineServer) (clientSocket : QTcpSocket) (doc : QJsonValue)
    (req : QJsonObject) (opens : Bool) : AtomEngineServer × List Effect :=
  let tradeJson := (QJsonObject.get req "trade").toObject
  let rep1 := [Effect.write clientSocket Reply.update_trade_success]
  match s.updateTrade tradeJson with
  | (some trade, s1) =>
    let (s2, saved) := s1.saveCommand doc opens
    let another := anotherConnectionDescr s2 clientSocket.socketDescriptor trade
    let toOther :=
      if another ≠ -1 then
        match StdMap.find s2.connections_ another with
        | some socket => [Effect.write socket (Reply.update_trade trade)]
        | none => []
      else []
    (s2, rep1 ++ saved ++ toOther)
  | (none, s1) => (s1, rep1)

/-- One pass of the loop body of `onReadyRead` on a parsed line: the six
`if (command == ...)` blocks in source order, each run on the state the
previous ones left. `opens` tells whether the log file opens for append. -/
def processCommand (s : AtomEngineServer) (clientSocket : QTcpSocket) (doc : QJsonValue)
    (opens : Bool) : AtomEngineServer × List Effect :=
  if doc.isObject then
    let req := doc.toObject
    let command := (QJsonObject.get req "command").toQString
    let r0 : AtomEngineServer × List Effect := (s, [])
    let r1 := if command = "init" then
      let r := initBlock r0.1 clientSocket req; (r.1, r0.2 ++ r.2) else r0
    let r2 := if command = "request_swap_commission" then
      let r := requestSwapCommissionBlock r1.1 clientSocket req; (r.1, r1.2 ++ r.2) else r1
    let r3 := if command = "create_order" then
      let r := createOrderBlock r2.1 clientSocket doc req opens; (r.1, r2.2 ++ r.2) else r2
    let r4 := if command = "delete_order" then
      let r := deleteOrderBlock r3.1 clientSocket doc req opens; (r.1, r3.2 ++ r.2) else r3
    let r5 := if command = "create_trade" then
      let r := createTradeBlock r4.1 clientSocket doc req opens; (r.1, r4.2 ++ r.2) else r4
    let r6 := if command = "update_trade" then
      let r := updateTradeBlock r5.1 clientSocket doc req opens; (r.1, r5.2 ++ r.2) else r5
    r6
  else (s, [])

/-! ## Framing and the socket slots -/

/-- The line feed byte. -/
def LF : UInt8 := 10

/-- Model of `buffer.lastIndexOf("\n")`: the position of the last line feed, -1 when
there is none. -/
def lastIndexOf : QByteArray → Int
  | [] => -1
  | c :: rest =>
    let r := lastIndexOf rest
    if 0 ≤ r then r + 1 else if c = LF then 0 else -1

/-- Model of `buffer.left(len)`. -/
def left (buffer : QByteArray) (len : Int) : QByteArray := buffer.take len.toNat

/-- Model of `buffer.right(len)`. -/
def right (buffer : QByteArray) (len : Int) : QByteArray :=
  buffer.drop (buffer.length - len.toNat)

/-- Model of `bytes.split('\n')`: the pieces between line feeds; one more piece than
there are line feeds. -/
def split : QByteArray → List QByteArray
  | [] => [[]]
  | c :: rest =>
    if c = LF then [] :: split rest
    else match split rest with
      | [] => [[c]]
      | piece :: pieces => (c :: piece) :: pieces

/-- The framing part of `onReadyRead` on the buffer after `append`: `none`
when there is no line feed (early return, buffer kept), otherwise the list
`commands` and the new buffer. -/
def frame (buffer : QByteArray) : Option (List QByteArray × QByteArray) :=
  let pos := lastIndexOf buffer
  if pos < 0 then none
  else
    let commands := split (left buffer pos)
    let rightCount : Int := buffer.length - pos - 1
    some (commands, if rightCount > 0 then right buffer rightCount else [])

/-- The loop `for (i = 0; i < commands.size(); ++i)` of `onReadyRead` from
index `i` on: empty lines are skipped, every other line is parsed with
`fromJson` (`QJsonDocument::fromJson`) and dispatched. `opens i` tells whether
the log file opens for append while line `i` is processed. -/
def processLines (fromJson : QByteArray → QJsonValue) (clientSocket : QTcpSocket)
    (opens : Nat → Bool) : AtomEngineServer → Nat → List QByteArray →
    AtomEngineServer × List Effect
  | s, _, [] => (s, [])
  | s, i, commandStr :: rest =>
    if commandStr.length = 0 then processLines fromJson clientSocket opens s (i + 1) rest
    else
      let r := processCommand s clientSocket (fromJson commandStr) (opens i)
      let r2 := processLines fromJson clientSocket opens r.1 (i + 1) rest
      (r2.1, r.2 ++ r2.2)

/-- Model of `AtomEngineServer::onReadyRead` for `clientSocket`, whose `readAll()`
returns `answer`. -/
def AtomEngineServer.onReadyRead (fromJson : QByteArray → QJsonValue) (s : AtomEngineServer)
    (clientSocket : QTcpSocket) (answer : QByteArray) (opens : Nat → Bool) :
    AtomEngineServer × List Effect :=
  let descr := clientSocket.socketDescriptor
  let buffer := ((StdMap.find s.buffers_ descr).getD []) ++ answer
  match frame buffer with
  | none => ({ s with buffers_ := StdMap.assign s.buffers_ descr buffer }, [])
  | some (commands, remainder) =>
    processLines fromJson clientSocket opens
      { s with buffers_ := StdMap.assign s.buffers_ descr remainder } 0 commands

/-- Model of `AtomEngineServer::onNewConnection` for the accepted socket. -/
def AtomEngineServer.onNewConnection (s : AtomEngineServer) (clientSocket : QTcpSocket) :
    AtomEngineServer :=
  { s with connections_ := StdMap.assign s.connections_ clientSocket.socketDescriptor clientSocket }

/-- The body of the `while` loop of `onClientDisconnected` at the entry
`(descr, socket)` of `connections_`. -/
def dropConnection (clientSocket : QTcpSocket) (s : AtomEngineServer) (e : Int × QTcpSocket) :
    AtomEngineServer :=
  if e.2 = clientSocket then
    { s with addrs_ := StdMap.eraseValue s.addrs_ e.1
             buffers_ := StdMap.erase s.buffers_ e.1
             connections_ := StdMap.erase s.connections_ e.1 }
  else s

/-- Model of `AtomEngineServer::onClientDisconnected` for `clientSocket`. -/
def AtomEngineServer.onClientDisconnected (s : AtomEngineServer) (clientSocket : QTcpSocket) :
    AtomEngineServer :=
  s.connections_.foldl (dropConnection clientSocket) s

/-! ## Recovery -/

/-- The body of the `while` loop of `load` on a parsed line. -/
def replayLine (s : AtomEngineServer) (doc : QJsonValue) : AtomEngineServer :=
  if doc.isObject then
    let req := doc.toObject
    let commandName := (QJsonObject.get req "command").toQString
    let s1 := if commandName = "create_order" then
      (s.createOrder (QJsonObject.get req "order").toObject).2 else s
    let s2 := if commandName = "delete_order" then
      (s1.deleteOrder (QJsonObject.get req "id").toLongLong).2 else s1
    let s3 := if commandName = "create_trade" then
      (s2.createTrade (QJsonObject.get req "orderId").toLongLong
        (QJsonObject.get req "address").toQString).2 else s2
    let s4 := if commandName = "update_trade" then
      (s3.updateTrade (QJsonObject.get req "trade").toObject).2 else s3
    s4
  else s

/-- Model of `AtomEngineServer::load`: every line of the file is read back
(`QJsonValue.viaLatin1`) and replayed. `opens` tells whether the file opens
for reading; when it does not, nothing is replayed and the result is false. -/
def AtomEngineServer.load (s : AtomEngineServer) (opens : Bool) : Bool × AtomEngineServer :=
  if opens then
    (true, s.backupFile_.foldl (fun acc line => replayLine acc (QJsonValue.viaLatin1 line)) s)
  else (false, s)

/-! ## Executions -/

/-- What can happen to a running server. -/
inductive Event where
  | newConnection (clientSocket : QTcpSocket) : Event
  | readyRead (clientSocket : QTcpSocket) (answer : QByteArray) (opens : Nat → Bool) : Event
  | disconnected (clientSocket : QTcpSocket) : Event

/-- The slot that serves an event. -/
def handle (fromJson : QByteArray → QJsonValue) (s : AtomEngineServer) :
    Event → AtomEngineServer × List Effect
  | Event.newConnection clientSocket => (s.onNewConnection clientSocket, [])
  | Event.readyRead clientSocket answer opens => s.onReadyRead fromJson clientSocket answer opens
  | Event.disconnected clientSocket => (s.onClientDisconnected clientSocket, [])

/-- What the transport guarantees when a slot runs. An accepted socket has a
valid descriptor, which is not negative (`socketDescriptor()` is -1 only for a
socket that is not connected). Bytes only arrive on an open connection:
`readyRead` comes from a socket that `connections_` holds under its
descriptor. -/
def Event.enabled (s : AtomEngineServer) : Event → Prop
  | Event.newConnection clientSocket => 0 ≤ clientSocket.socketDescriptor
  | Event.readyRead clientSocket _ _ =>
    StdMap.find s.connections_ clientSocket.socketDescriptor = some clientSocket
  | Event.disconnected _ => True

/-- The state after a list of events. -/
def runEvents (fromJson : QByteArray → QJsonValue) : AtomEngineServer → List Event →
    AtomEngineServer
  | s, [] => s
  | s, e :: es => runEvents fromJson (handle fromJson s e).1 es

/-- Every event of the list is enabled when it happens. -/
def allEnabled (fromJson : QByteArray → QJsonValue) : AtomEngineServer → List Event → Prop
  | _, [] => True
  | s, e :: es => e.enabled s ∧ allEnabled fromJson (handle fromJson s e).1 es

/-- The states a server can be in between two events: `run()` builds the
engine and replays the log file, then events are served one at a time. -/
inductive Reachable (fromJson : QByteArray → QJsonValue) : AtomEngineServer → Prop where
  | run (file : List QJsonValue) (opens : Bool) :
    Reachable fromJson ((AtomEngineServer.new file).load opens).2
  | step (s : AtomEngineServer) (e : Event) :
    Reachable fromJson s → e.enabled s → Reachable fromJson (handle fromJson s e).1

/-! ## Framing seen from one connection -/

/-- The last of the pieces of a buffer: the bytes after its last line feed
(the whole buffer when it has none). -/
def lastPiece : List QByteArray → QByteArray
  | [] => []
  | [p] => p
  | _ :: q :: r => lastPiece (q :: r)

/-- What one arrival does on a connection whose buffer is `buffer`: the
non-empty lines that `onReadyRead` hands to the parser, in order, and the
buffer it leaves. -/
def arrive (buffer answer : QByteArray) : List QByteArray × QByteArray :=
  match frame (buffer ++ answer) with
  | none => ([], buffer ++ answer)
  | some (commands, remainder) => (commands.filter (fun c => decide (c.length ≠ 0)), remainder)

/-- Successive arrivals on one connection: all lines handed to the parser,
in order, and the buffer left at the end. -/
def arriveAll : QByteArray → List QByteArray → List QByteArray × QByteArray
  | buffer, [] => ([], buffer)
  | buffer, answer :: rest =>
    let r := arrive buffer answer
    let r2 := arriveAll r.2 rest
    (r.1 ++ r2.1, r2.2)

/-! ## Sequences of Entity Store operations -/

/-- A call of one of the four Entity Store primitives. -/
inductive StoreOp where
  | createOrder (orderJson : QJsonObject) : StoreOp
  | deleteOrder (id : Int) : StoreOp
  | createTrade (orderId : Int) (initiatorAddress : String) : StoreOp
  | updateTrade (tradeJson : QJsonObject) : StoreOp

/-- The state after one primitive call. -/
def StoreOp.run (s : AtomEngineServer) : StoreOp → AtomEngineServer
  | StoreOp.createOrder orderJson => (s.createOrder orderJson).2
  | StoreOp.deleteOrder id => (s.deleteOrder id).2
  | StoreOp.createTrade orderId initiatorAddress => (s.createTrade orderId initiatorAddress).2
  | StoreOp.updateTrade tradeJson => (s.updateTrade tradeJson).2

/-- The id of the order a call creates: the `id_` of the order `createOrder`
returns; `none` for the other primitives. -/
def StoreOp.orderIdIssued (s : AtomEngineServer) : StoreOp → Option Int
  | StoreOp.createOrder orderJson => some (s.createOrder orderJson).1.id_
  | _ => none

/-- The id of the trade a call creates: the `id_` of the trade `createTrade`
returns, `none` when it returns no trade and for the other primitives. -/
def StoreOp.tradeIdIssued (s : AtomEngineServer) : StoreOp → Option Int
  | StoreOp.createTrade orderId initiatorAddress =>
    (s.createTrade orderId initiatorAddress).1.map (fun t => t.id_)
  | _ => none

/-- The state after a sequence of primitive calls. -/
def runOps : AtomEngineServer → List StoreOp → AtomEngineServer
  | s, [] => s
  | s, op :: ops => runOps (op.run s) ops

/-- The order ids issued by a sequence of primitive calls, in order of issue. -/
def orderIdsIssued : AtomEngineServer → List StoreOp → List Int
  | _, [] => []
  | s, op :: ops => (op.orderIdIssued s).toList ++ orderIdsIssued (op.run s) ops

/-- The trade ids issued by a sequence of primitive calls, in order of issue. -/
def tradeIdsIssued : AtomEngineServer → List StoreOp → List Int
  | _, [] => []
  | s, op :: ops => (op.tradeIdIssued s).toList ++ tradeIdsIssued (op.run s) ops

/-! ## Invariants of the Entity Store -/

/-- Two states hold the same Entity Store: counters, order table, trade table. -/
def sameStore (a b : AtomEngineServer) : Prop :=
  a.curOrderId_ = b.curOrderId_ ∧ a.curTradeId_ = b.curTradeId_
    ∧ a.orders_ = b.orders_ ∧ a.trades_ = b.trades_

/-- The primitive calls that the dispatcher and `load` make for a parsed
line: at most one, chosen by the `command` member. -/
def storeOps (doc : QJsonValue) : List StoreOp :=
  if doc.isObject then
    let req := doc.toObject
    let command := (QJsonObject.get req "command").toQString
    if command = "create_order" then
      [StoreOp.createOrder (QJsonObject.get req "order").toObject]
    else if command = "delete_order" then
      [StoreOp.deleteOrder (QJsonObject.get req "id").toLongLong]
    else if command = "create_trade" then
      [StoreOp.createTrade (QJsonObject.get req "orderId").toLongLong
        (QJsonObject.get req "address").toQString]
    else if command = "update_trade" then
      [StoreOp.updateTrade (QJsonObject.get req "trade").toObject]
    else []
  else []

/-- Keys and counters agree: the counters are not negative, every key of the
order table lies in 1..curOrderId_ and holds an order with that id, every key
of the trade table lies in 1..curTradeId_ and holds a trade with that id. -/
def StoreInv (s : AtomEngineServer) : Prop :=
  0 ≤ s.curOrderId_ ∧ 0 ≤ s.curTradeId_
    ∧ (∀ k o, StdMap.find s.orders_ k = some o → 1 ≤ k ∧ k ≤ s.curOrderId_ ∧ o.id_ = k)
    ∧ (∀ k t, StdMap.find s.trades_ k = some t → 1 ≤ k ∧ k ≤ s.curTradeId_ ∧ t.id_ = k)

/-- What never goes back between an earlier state `s` and a later state `n`:
the counters do not decrease, an order id that was issued and is gone stays
gone, and every trade stays in the table under its id with the same order and
initiator address and with each commission flag still true if it was true. -/
def Evolves (s n : AtomEngineServer) : Prop :=
  s.curOrderId_ ≤ n.curOrderId_ ∧ s.curTradeId_ ≤ n.curTradeId_
    ∧ (∀ k, k ≤ s.curOrderId_ → StdMap.find s.orders_ k = none →
        StdMap.find n.orders_ k = none)
    ∧ (∀ k t, StdMap.find s.trades_ k = some t →
        ∃ u, StdMap.find n.trades_ k = some u
          ∧ u.id_ = t.id_ ∧ u.order_ = t.order_ ∧ u.initiatorAddress_ = t.initiatorAddress_
          ∧ (t.initiatorCommissionPaid_ = true → u.initiatorCommissionPaid_ = true)
          ∧ (t.participantCommissionPaid_ = true → u.participantCommissionPaid_ = true))

/-- The session registry is consistent: `connections_` is a well-formed map
that holds every socket under its own descriptor. -/
def RegistryOK (s : AtomEngineServer) : Prop :=
  StdMap.WF s.connections_ ∧ ∀ e ∈ s.connections_, e.2.socketDescriptor = e.1

/-- Every entry of `addrs_` refers to a key of `connections_`. -/
def AddrsOK (s : AtomEngineServer) : Prop :=
  ∀ e ∈ s.addrs_, ∃ socket, StdMap.find s.connections_ e.2 = some socket

/-- Both tables are well-formed maps. -/
def StoreWF (s : AtomEngineServer) : Prop :=
  StdMap.WF s.orders_ ∧ StdMap.WF s.trades_

/-- Orders and trades do not overlap: the order a trade embeds has an id that
was issued and is not a key of the order table, and two trades stored under
different ids embed orders with different ids. -/
def TradeInv (s : AtomEngineServer) : Prop :=
  (∀ j t, StdMap.find s.trades_ j = some t →
      t.order_.id_ ≤ s.curOrderId_ ∧ StdMap.find s.orders_ t.order_.id_ = none)
    ∧ (∀ j1 j2 t1 t2, StdMap.find s.trades_ j1 = some t1 → StdMap.find s.trades_ j2 = some t2 →
        t1.order_.id_ = t2.order_.id_ → j1 = j2)

/-- The trade table has no gap: every id from 1 to curTradeId_ is a key. -/
def TradesFull (s : AtomEngineServer) : Prop :=
  ∀ k, 1 ≤ k → k ≤ s.curTradeId_ → ∃ t, StdMap.find s.trades_ k = some t

/-- The invariants of the Entity Store together. -/
def StoreOK (s : AtomEngineServer) : Prop :=
  StoreInv s ∧ StoreWF s ∧ TradeInv s ∧ TradesFull s

/-- Order id `k` was issued, is not in the order table and is embedded by no
trade. -/
def Unembedded (k : Int) (s : AtomEngineServer) : Prop :=
  k ≤ s.curOrderId_ ∧ StdMap.find s.orders_ k = none
    ∧ ∀ j t, StdMap.find s.trades_ j = some t → t.order_.id_ ≠ k

/-- Every key of `connections_` is a valid descriptor: not negative. -/
def DescrOK (s : AtomEngineServer) : Prop :=
  ∀ e ∈ s.connections_, 0 ≤ e.1

/-- No receive buffer holds a line feed: what is kept between arrivals is the
unterminated tail. -/
def BuffersOK (s : AtomEngineServer) : Prop :=
  ∀ e ∈ s.buffers_, LF ∉ e.2

/-- The document is an update_trade command whose payload id is `k`. -/
def updatesTrade (k : Int) (doc : QJsonValue) : Prop :=
  doc.isObject = true
    ∧ (QJsonObject.get doc.toObject "command").toQString = "update_trade"
    ∧ (QJsonObject.get (QJsonObject.get doc.toObject "trade").toObject "id").toLongLong = k

/-- The command is one that the dispatcher logs in state `s`: a create_order,
a delete_order whose id is in the order table, a create_trade whose order id
is in the order table, or an update_trade whose trade id is in the trade
table. -/
def mutates (s : AtomEngineServer) (doc : QJsonValue) : Prop :=
  doc.isObject = true
    ∧ ((QJsonObject.get doc.toObject "command").toQString = "create_order"
      ∨ ((QJsonObject.get doc.toObject "command").toQString = "delete_order"
          ∧ (StdMap.find s.orders_ (QJsonObject.get doc.toObject "id").toLongLong).isSome = true)
      ∨ ((QJsonObject.get doc.toObject "command").toQString = "create_trade"
          ∧ (StdMap.find s.orders_
              (QJsonObject.get doc.toObject "orderId").toLongLong).isSome = true)
      ∨ ((QJsonObject.get doc.toObject "command").toQString = "update_trade"
          ∧ (StdMap.find s.trades_ (QJsonObject.get
              (QJsonObject.get doc.toObject "trade").toObject "id").toLongLong).isSome = true))

/-! ## Sample inputs -/

/-- The bytes of an ASCII text. -/
def bytesOf (text : String) : QByteArray := text.data.map (fun c => UInt8.ofNat c.toNat)

/-- Sample command: an order published from address `addrA`. -/
def sampleCreateOrder : QJsonValue :=
  QJsonValue.object [("command", QJsonValue.string "create_order"),
    ("order", QJsonValue.object [("getAddress_", QJsonValue.string "addrA"),
      ("amt", QJsonValue.double 10)])]

/-- Sample command: `delete_order` for id 1. -/
def sampleDeleteOrder : QJsonValue :=
  QJsonValue.object [("command", QJsonValue.string "delete_order"), ("id", QJsonValue.double 1)]

/-- Sample command: order 1 accepted from address `addrB`. -/
def sampleCreateTrade : QJsonValue :=
  QJsonValue.object [("command", QJsonValue.string "create_trade"),
    ("orderId", QJsonValue.double 1), ("address", QJsonValue.string "addrB")]

/-- Sample command: trade 1 updated, initiator commission reported paid. -/
def sampleUpdateTradePaid : QJsonValue :=
  QJsonValue.object [("command", QJsonValue.string "update_trade"),
    ("trade", QJsonValue.object [("id", QJsonValue.double 1),
      ("secretHash", QJsonValue.string "h"),
      ("commissionInitiatorPaid", QJsonValue.bool true)])]

/-- Sample command: trade 1 updated with the initiator flag false and no
other member. -/
def sampleUpdateTradeUnpaid : QJsonValue :=
  QJsonValue.object [("command", QJsonValue.string "update_trade"),
    ("trade", QJsonValue.object [("id", QJsonValue.double 1),
      ("commissionInitiatorPaid", QJsonValue.bool false)])]

/-- Sample command: `init` announcing address `addrC`. -/
def sampleInit : QJsonValue :=
  QJsonValue.object [("command", QJsonValue.string "init"),
    ("curs", QJsonValue.array [QJsonValue.object
      [("addrs", QJsonValue.array [QJsonValue.string "addrC"])]])]

/-- Sample command: an order published from the address "é" (U+00E9). -/
def sampleCreateOrderAccent : QJsonValue :=
  QJsonValue.object [("command", QJsonValue.string "create_order"),
    ("order", QJsonValue.object [("getAddress_", QJsonValue.string "é")])]

/-- The UTF-8 text of `sampleCreateOrderAccent`; "é" is the two bytes C3 A9. -/
def sampleAccentLine : QByteArray :=
  bytesOf "\x7b\"command\":\"create_order\",\"order\":\x7b\"getAddress_\":\""
    ++ [195, 169] ++ bytesOf "\"\x7d\x7d"

/-- Sample command: `init` announcing address `addrA`. -/
def sampleInitA : QJsonValue :=
  QJsonValue.object [("command", QJsonValue.string "init"),
    ("curs", QJsonValue.array [QJsonValue.object
      [("addrs", QJsonValue.array [QJsonValue.string "addrA"])]])]

/-- Sample command: `init` announcing address `addrB`. -/
def sampleInitB : QJsonValue :=
  QJsonValue.object [("command", QJsonValue.string "init"),
    ("curs", QJsonValue.array [QJsonValue.object
      [("addrs", QJsonValue.array [QJsonValue.string "addrB"])]])]

/-- What `QJsonDocument::fromJson` returns on the sample lines; any other
line is taken as invalid. -/
def sampleFromJson (line : QByteArray) : QJsonValue :=
  if line = bytesOf "\x7b\"command\":\"create_order\",\"order\":\x7b\"getAddress_\":\"addrA\",\"amt\":10\x7d\x7d" then
    sampleCreateOrder
  else if line = bytesOf "\x7b\"command\":\"delete_order\",\"id\":1\x7d" then sampleDeleteOrder
  else if line = bytesOf "\x7b\"command\":\"create_trade\",\"orderId\":1,\"address\":\"addrB\"\x7d" then
    sampleCreateTrade
  else if line = bytesOf "\x7b\"command\":\"update_trade\",\"trade\":\x7b\"id\":1,\"commissionInitiatorPaid\":false\x7d\x7d" then
    sampleUpdateTradeUnpaid
  else if line = bytesOf "\x7b\"command\":\"init\",\"curs\":[\x7b\"addrs\":[\"addrC\"]\x7d]\x7d" then sampleInit
  else if line = sampleAccentLine then sampleCreateOrderAccent
  else if line = bytesOf "\x7b\"command\":\"init\",\"curs\":[\x7b\"addrs\":[\"addrA\"]\x7d]\x7d" then sampleInitA
  else if line = bytesOf "\x7b\"command\":\"init\",\"curs\":[\x7b\"addrs\":[\"addrB\"]\x7d]\x7d" then sampleInitB
  else QJsonValue.null

/-- Sample execution: the server starts on an empty log, client 7 connects
and publishes an order from `addrA`; client 8 connects. -/
def sampleSession : AtomEngineServer :=
  (handle sampleFromJson
    (handle sampleFromJson
      (handle sampleFromJson ((AtomEngineServer.new []).load true).2 (Event.newConnection ⟨7⟩)).1
      (Event.readyRead ⟨7⟩
        (bytesOf "\x7b\"command\":\"create_order\",\"order\":\x7b\"getAddress_\":\"addrA\",\"amt\":10\x7d\x7d\n")
        (fun _ => true))).1
    (Event.newConnection ⟨8⟩)).1

/-- Sample command: order 1 accepted by a taker who names the maker's own
address `addrA`. -/
def sampleCreateTradeMakerAddr : QJsonValue :=
  QJsonValue.object [("command", QJsonValue.string "create_trade"),
    ("orderId", QJsonValue.double 1), ("address", QJsonValue.string "addrA")]

/-- Sample execution: `sampleSession`, then a third client, 9, connects. -/
def sampleSession3 : AtomEngineServer :=
  (handle sampleFromJson sampleSession (Event.newConnection ⟨9⟩)).1

/-- Sample state: the server has started on a log that holds an order, its
trade and an update of the trade (no order left, trade 1 in the table). -/
def sampleLoaded : AtomEngineServer :=
  ((AtomEngineServer.new [sampleCreateOrder, sampleCreateTrade, sampleUpdateTradePaid]).load
    true).2

/-- Sample command: a trade asked on order 2, which does not exist, by a
taker who names the address `addrA`. -/
def sampleCreateTradeStale : QJsonValue :=
  QJsonValue.object [("command", QJsonValue.string "create_trade"),
    ("orderId", QJsonValue.double 2), ("address", QJsonValue.string "addrA")]

/-- Sample state: after a restart on a log with order 1 (maker `addrA`) and
its trade (initiator `addrB`), client 7 connects and announces `addrA` in an
init command, client 8 connects and announces `addrB`, client 9 connects. -/
def sampleTrading : AtomEngineServer :=
  runEvents sampleFromJson sampleLoaded
    [Event.newConnection ⟨7⟩,
     Event.readyRead ⟨7⟩
       (bytesOf "\x7b\"command\":\"init\",\"curs\":[\x7b\"addrs\":[\"addrA\"]\x7d]\x7d\n")
       (fun _ => true),
     Event.newConnection ⟨8⟩,
     Event.readyRead ⟨8⟩
       (bytesOf "\x7b\"command\":\"init\",\"curs\":[\x7b\"addrs\":[\"addrB\"]\x7d]\x7d\n")
       (fun _ => true),
     Event.newConnection ⟨9⟩]

/-! ## Recovery of a live execution -/

/-- Every log append of the execution succeeds: the log file opens whenever
a line is processed. -/
def appendsSucceed : List Event → Prop
  | [] => True
  | Event.readyRead _ _ opens :: es => (∀ i, opens i = true) ∧ appendsSucceed es
  | _ :: es => appendsSucceed es

/-- The Entity Store that `load` builds from the lines of a log, on a fresh
engine. -/
def replayStore (lines : List QJsonValue) : AtomEngineServer :=
  runOps (AtomEngineServer.new [])
    (lines.flatMap (fun line => storeOps (QJsonValue.viaLatin1 line)))

/-- Sample execution on an empty log: client 7 connects and publishes an
order from the address "é". -/
def sampleAccentSession : AtomEngineServer :=
  runEvents sampleFromJson (AtomEngineServer.new [])
    [Event.newConnection ⟨7⟩, Event.readyRead ⟨7⟩ (sampleAccentLine ++ [LF]) (fun _ => true)]

/-! # Theorems -/

/-! ## std::map -/

theorem StdMap.find_assign_self {K V : Type} [LinearOrder K] (m : StdMap K V) (k : K) (v : V) :
    StdMap.find (StdMap.assign m k v) k = some v := by
  induction m with
  | nil => simp [StdMap.assign, StdMap.find]
  | cons e rest ih =>
    obtain ⟨k0, v0⟩ := e
    unfold StdMap.assign
    split_ifs with h1 h2
    · simp [StdMap.find]
    · simp [StdMap.find]
    · have h3 : ¬ k0 = k := fun h => h2 h.symm
      simp [StdMap.find, h3, ih]

theorem StdMap.find_assign_ne {K V : Type} [LinearOrder K] (m : StdMap K V) (k k2 : K) (v : V)
    (hne : k2 ≠ k) : StdMap.find (StdMap.assign m k v) k2 = StdMap.find m k2 := by
  have hne2 : ¬ k = k2 := fun h => hne h.symm
  induction m with
  | nil => simp [StdMap.assign, StdMap.find, hne2]
  | cons e rest ih =>
    obtain ⟨k0, v0⟩ := e
    unfold StdMap.assign
    split_ifs with h1 h2
    · simp [StdMap.find, hne2]
    · have h3 : ¬ k0 = k2 := fun h => hne2 (h2.trans h)
      simp [StdMap.find, hne2, h3]
    · by_cases h3 : k0 = k2
      · simp [StdMap.find, h3]
      · simp [StdMap.find, h3, ih]

theorem StdMap.find_put_self {K V : Type} [DecidableEq K] (m : StdMap K V) (k : K) (v : V) :
    StdMap.find (StdMap.put m k v) k = some v := by
  induction m with
  | nil => simp [StdMap.put, StdMap.find]
  | cons e rest ih =>
    obtain ⟨k0, v0⟩ := e
    unfold StdMap.put
    split_ifs with h
    · simp [StdMap.find]
    · simp [StdMap.find, h, ih]

theorem StdMap.find_put_ne {K V : Type} [DecidableEq K] (m : StdMap K V) (k k2 : K) (v : V)
    (hne : k2 ≠ k) : StdMap.find (StdMap.put m k v) k2 = StdMap.find m k2 := by
  have hne2 : ¬ k = k2 := fun h => hne h.symm
  induction m with
  | nil => simp [StdMap.put, StdMap.find, hne2]
  | cons e rest ih =>
    obtain ⟨k0, v0⟩ := e
    unfold StdMap.put
    split_ifs with h
    · have h3 : ¬ k0 = k2 := fun h4 => hne2 (h.symm.trans h4)
      simp [StdMap.find, hne2, h3]
    · by_cases h3 : k0 = k2
      · simp [StdMap.find, h3]
      · simp [StdMap.find, h3, ih]

theorem StdMap.find_erase_self {K V : Type} [DecidableEq K] (m : StdMap K V) (k : K) :
    StdMap.find (StdMap.erase m k) k = none := by
  induction m with
  | nil => simp [StdMap.erase, StdMap.find]
  | cons e rest ih =>
    obtain ⟨k0, v0⟩ := e
    unfold StdMap.erase
    split_ifs with h
    · exact ih
    · simp [StdMap.find, h, ih]

theorem StdMap.find_erase_ne {K V : Type} [DecidableEq K] (m : StdMap K V) (k k2 : K)
    (hne : k2 ≠ k) : StdMap.find (StdMap.erase m k) k2 = StdMap.find m k2 := by
  induction m with
  | nil => simp [StdMap.erase, StdMap.find]
  | cons e rest ih =>
    obtain ⟨k0, v0⟩ := e
    unfold StdMap.erase
    split_ifs with h
    · have h3 : ¬ k0 = k2 := fun h4 => hne (h4.symm.trans h)
      simp [StdMap.find, h3, ih]
    · by_cases h3 : k0 = k2
      · simp [StdMap.find, h3]
      · simp [StdMap.find, h3, ih]

/-! ## Counters under the Entity Store primitives -/

theorem createOrder_counters (s : AtomEngineServer) (orderJson : QJsonObject) :
    (s.createOrder orderJson).2.curOrderId_ = s.curOrderId_ + 1
    ∧ (s.createOrder orderJson).2.curTradeId_ = s.curTradeId_
    ∧ (s.createOrder orderJson).1.id_ = s.curOrderId_ + 1 := by
  simp [AtomEngineServer.createOrder, OrderInfo.make]

theorem deleteOrder_counters (s : AtomEngineServer) (id : Int) :
    (s.deleteOrder id).2.curOrderId_ = s.curOrderId_
    ∧ (s.deleteOrder id).2.curTradeId_ = s.curTradeId_ := by
  unfold AtomEngineServer.deleteOrder
  cases StdMap.find s.orders_ id <;> simp

theorem createTrade_counters (s : AtomEngineServer) (orderId : Int) (addr : String) :
    (s.createTrade orderId addr).2.curOrderId_ = s.curOrderId_
    ∧ ((s.createTrade orderId addr).1 = none
        ∧ (s.createTrade orderId addr).2.curTradeId_ = s.curTradeId_
      ∨ (s.createTrade orderId addr).1.map (fun t => t.id_) = some (s.curTradeId_ + 1)
        ∧ (s.createTrade orderId addr).2.curTradeId_ = s.curTradeId_ + 1) := by
  unfold AtomEngineServer.createTrade
  cases StdMap.find s.orders_ orderId <;> simp [TradeInfo.make]

theorem updateTrade_counters (s : AtomEngineServer) (tradeJson : QJsonObject) :
    (s.updateTrade tradeJson).2.curOrderId_ = s.curOrderId_
    ∧ (s.updateTrade tradeJson).2.curTradeId_ = s.curTradeId_ := by
  unfold AtomEngineServer.updateTrade
  simp only []
  split <;> simp

/-- The ids `c + 1, c + 2, ..., c + n`. -/
theorem idsFrom_succ (c : Int) (n : Nat) :
    (c + 1) :: (List.range n).map (fun (i : Nat) => c + 1 + 1 + (i : Int))
      = (List.range (n + 1)).map (fun (i : Nat) => c + 1 + (i : Int)) := by
  rw [List.range_succ_eq_map]
  simp only [List.map_cons, List.map_map, Nat.cast_zero, add_zero]
  congr 1
  apply List.map_congr_left
  intro i _
  simp only [Function.comp_apply, Nat.succ_eq_add_one]
  push_cast
  ring

theorem orderIdsIssued_eq (s : AtomEngineServer) (ops : List StoreOp) :
    orderIdsIssued s ops
      = (List.range (orderIdsIssued s ops).length).map (fun (i : Nat) => s.curOrderId_ + 1 + (i : Int)) := by
  induction ops generalizing s with
  | nil => simp [orderIdsIssued]
  | cons op ops ih =>
    cases op with
    | createOrder orderJson =>
      have hc := createOrder_counters s orderJson
      have h := ih (StoreOp.run s (StoreOp.createOrder orderJson))
      simp only [StoreOp.run, hc.1] at h
      simp only [orderIdsIssued, StoreOp.orderIdIssued, StoreOp.run, hc.2.2, Option.toList,
        List.singleton_append, List.length_cons]
      rw [← idsFrom_succ]
      congr 1
    | deleteOrder id =>
      have hc := deleteOrder_counters s id
      have h := ih (StoreOp.run s (StoreOp.deleteOrder id))
      simp only [StoreOp.run, hc.1] at h
      simpa [orderIdsIssued, StoreOp.orderIdIssued, StoreOp.run] using h
    | createTrade orderId addr =>
      have hc := createTrade_counters s orderId addr
      have h := ih (StoreOp.run s (StoreOp.createTrade orderId addr))
      simp only [StoreOp.run, hc.1] at h
      simpa [orderIdsIssued, StoreOp.orderIdIssued, StoreOp.run] using h
    | updateTrade tradeJson =>
      have hc := updateTrade_counters s tradeJson
      have h := ih (StoreOp.run s (StoreOp.updateTrade tradeJson))
      simp only [StoreOp.run, hc.1] at h
      simpa [orderIdsIssued, StoreOp.orderIdIssued, StoreOp.run] using h

theorem tradeIdsIssued_eq (s : AtomEngineServer) (ops : List StoreOp) :
    tradeIdsIssued s ops
      = (List.range (tradeIdsIssued s ops).length).map (fun (i : Nat) => s.curTradeId_ + 1 + (i : Int)) := by
  induction ops generalizing s with
  | nil => simp [tradeIdsIssued]
  | cons op ops ih =>
    cases op with
    | createOrder orderJson =>
      have hc := createOrder_counters s orderJson
      have h := ih (StoreOp.run s (StoreOp.createOrder orderJson))
      simp only [StoreOp.run, hc.2.1] at h
      simpa [tradeIdsIssued, StoreOp.tradeIdIssued, StoreOp.run] using h
    | deleteOrder id =>
      have hc := deleteOrder_counters s id
      have h := ih (StoreOp.run s (StoreOp.deleteOrder id))
      simp only [StoreOp.run, hc.2] at h
      simpa [tradeIdsIssued, StoreOp.tradeIdIssued, StoreOp.run] using h
    | createTrade orderId addr =>
      have h := ih (StoreOp.run s (StoreOp.createTrade orderId addr))
      rcases (createTrade_counters s orderId addr).2 with ⟨h1, h2⟩ | ⟨h1, h2⟩
      · simp only [StoreOp.run, h2] at h
        simpa [tradeIdsIssued, StoreOp.tradeIdIssued, StoreOp.run, h1] using h
      · simp only [StoreOp.run, h2] at h
        simp only [tradeIdsIssued, StoreOp.tradeIdIssued, StoreOp.run, h1, Option.toList,
          List.singleton_append, List.length_cons]
        rw [← idsFrom_succ]
        congr 1
    | updateTrade tradeJson =>
      have hc := updateTrade_counters s tradeJson
      have h := ih (StoreOp.run s (StoreOp.updateTrade tradeJson))
      simp only [StoreOp.run, hc.2] at h
      simpa [tradeIdsIssued, StoreOp.tradeIdIssued, StoreOp.run] using h

theorem idsFrom_pairwise (c : Int) (n : Nat) :
    ((List.range n).map (fun (i : Nat) => c + 1 + (i : Int))).Pairwise (fun a b => a < b) := by
  refine List.Pairwise.map _ (fun a b hab => ?_) (List.pairwise_lt_range n)
  show c + 1 + (a : Int) < c + 1 + (b : Int)
  omega

/-- C2. Ids are issued in strictly increasing order starting from 1: for any
sequence of Entity Store calls on a fresh engine, the ids given to orders by
createOrder are 1, 2, 3, ... in order of creation, and so are the ids given to
trades by createTrade; hence each list is strictly increasing, starts at 1 and
has no repetition, whatever deleteOrder / createTrade / updateTrade calls are
interleaved. -/
theorem C2_ids_strictly_increasing (file : List QJsonValue) (ops : List StoreOp) :
    (orderIdsIssued (AtomEngineServer.new file) ops
        = (List.range (orderIdsIssued (AtomEngineServer.new file) ops).length).map
            (fun (i : Nat) => (i : Int) + 1)
      ∧ (orderIdsIssued (AtomEngineServer.new file) ops).Pairwise (fun a b => a < b)
      ∧ (orderIdsIssued (AtomEngineServer.new file) ops).head? ∈ [none, some 1]
      ∧ (orderIdsIssued (AtomEngineServer.new file) ops).Nodup)
    ∧ (tradeIdsIssued (AtomEngineServer.new file) ops
        = (List.range (tradeIdsIssued (AtomEngineServer.new file) ops).length).map
            (fun (i : Nat) => (i : Int) + 1)
      ∧ (tradeIdsIssued (AtomEngineServer.new file) ops).Pairwise (fun a b => a < b)
      ∧ (tradeIdsIssued (AtomEngineServer.new file) ops).head? ∈ [none, some 1]
      ∧ (tradeIdsIssued (AtomEngineServer.new file) ops).Nodup) := by
  have ho := orderIdsIssued_eq (AtomEngineServer.new file) ops
  have ht := tradeIdsIssued_eq (AtomEngineServer.new file) ops
  have key : ∀ (l : List Int), l = (List.range l.length).map (fun (i : Nat) => (0 : Int) + 1 + (i : Int)) →
      l = (List.range l.length).map (fun (i : Nat) => (i : Int) + 1)
        ∧ l.Pairwise (fun a b => a < b) ∧ l.head? ∈ [none, some 1] ∧ l.Nodup := by
    intro l hl
    have hp : l.Pairwise (fun a b => a < b) := by
      rw [hl]; exact idsFrom_pairwise 0 _
    refine ⟨?_, hp, ?_, hp.imp (fun {a b} hab => ne_of_lt hab)⟩
    · conv_lhs => rw [hl]
      apply List.map_congr_left
      intro i _
      ring
    · cases hn : l.length with
      | zero =>
        have : l = [] := List.length_eq_zero.mp hn
        simp [this]
      | succ n =>
        rw [hl, hn, List.range_succ_eq_map]
        simp
  exact ⟨key _ ho, key _ ht⟩

/-! ## Postconditions of createTrade and updateTrade -/

/-- C3. Postcondition of createTrade(orderId, initiatorAddr). When orderId is
a key of the order table with order o: the result is the trade with id
curTradeId_ + 1 that embeds o and initiatorAddr (empty slots, flags false);
afterwards orderId is no longer a key, every other key of the order table
holds what it held, curTradeId_ has grown by one, curOrderId_ is unchanged and
the trade table holds the returned trade under the new id (other trade keys
unchanged). When orderId is not a key: the result is none and the state is
unchanged. -/
theorem C3_createTrade_postcondition (s : AtomEngineServer) (orderId : Int)
    (initiatorAddr : String) :
    (∀ o, StdMap.find s.orders_ orderId = some o →
      ∃ t, (s.createTrade orderId initiatorAddr).1 = some t
        ∧ t.id_ = s.curTradeId_ + 1 ∧ t.order_ = o ∧ t.initiatorAddress_ = initiatorAddr
        ∧ t = TradeInfo.make (s.curTradeId_ + 1) o initiatorAddr
        ∧ StdMap.find (s.createTrade orderId initiatorAddr).2.orders_ orderId = none
        ∧ (∀ k, k ≠ orderId →
            StdMap.find (s.createTrade orderId initiatorAddr).2.orders_ k
              = StdMap.find s.orders_ k)
        ∧ (s.createTrade orderId initiatorAddr).2.curTradeId_ = s.curTradeId_ + 1
        ∧ (s.createTrade orderId initiatorAddr).2.curOrderId_ = s.curOrderId_
        ∧ StdMap.find (s.createTrade orderId initiatorAddr).2.trades_ (s.curTradeId_ + 1)
            = some t
        ∧ (∀ k, k ≠ s.curTradeId_ + 1 →
            StdMap.find (s.createTrade orderId initiatorAddr).2.trades_ k
              = StdMap.find s.trades_ k))
    ∧ (StdMap.find s.orders_ orderId = none →
        s.createTrade orderId initiatorAddr = (none, s)) := by
  constructor
  · intro o ho
    refine ⟨TradeInfo.make (s.curTradeId_ + 1) o initiatorAddr, ?_⟩
    simp only [AtomEngineServer.createTrade, ho]
    refine ⟨?_, ?_, ?_, ?_, ?_, ?_, ?_, ?_, ?_, ?_, ?_⟩
    all_goals first
      | trivial
      | exact StdMap.find_erase_self _ _
      | exact StdMap.find_assign_self _ _ _
      | (intro k hk; first
          | exact StdMap.find_erase_ne _ _ _ hk
          | exact StdMap.find_assign_ne _ _ _ _ hk)
  · intro hn
    simp only [AtomEngineServer.createTrade, hn]

/-- C5. Postcondition of updateTrade(json), with id the integer read from
json["id"]. When id is a key of the trade table with trade t: the result u is
stored under id; each of the seven string slots of u is the string the payload
holds under that key (the empty string when the key is absent or holds no
string); each commission flag of u is the old flag OR the payload boolean
(commissionInitiatorPaid for the initiator flag, commissionParticipantPaid for
the participant flag); id_, order_ and initiatorAddress_ are those of t; every
other trade, the order table, both counters and the log are unchanged. When
id is not a key: the result is none and the state is unchanged. -/
theorem C5_updateTrade_postcondition (s : AtomEngineServer) (json : QJsonObject) :
    (∀ t, StdMap.find s.trades_ (QJsonObject.get json "id").toLongLong = some t →
      ∃ u, (s.updateTrade json).1 = some u
        ∧ StdMap.find (s.updateTrade json).2.trades_ (QJsonObject.get json "id").toLongLong
            = some u
        ∧ u.secretHash_ = (QJsonObject.get json "secretHash").toQString
        ∧ u.contractInitiator_ = (QJsonObject.get json "contractInitiator").toQString
        ∧ u.contractParticipant_ = (QJsonObject.get json "contractParticipant").toQString
        ∧ u.initiatorContractTransaction_
            = (QJsonObject.get json "initiatorContractTransaction").toQString
        ∧ u.participantContractTransaction_
            = (QJsonObject.get json "participantContractTransaction").toQString
        ∧ u.initiatorRedemptionTransaction_
            = (QJsonObject.get json "initiatorRedemptionTransaction").toQString
        ∧ u.participantRedemptionTransaction_
            = (QJsonObject.get json "participantRedemptionTransaction").toQString
        ∧ u.initiatorCommissionPaid_
            = (t.initiatorCommissionPaid_
                || (QJsonObject.get json "commissionInitiatorPaid").toBool)
        ∧ u.participantCommissionPaid_
            = (t.participantCommissionPaid_
                || (QJsonObject.get json "commissionParticipantPaid").toBool)
        ∧ u.id_ = t.id_ ∧ u.order_ = t.order_ ∧ u.initiatorAddress_ = t.initiatorAddress_
        ∧ (∀ k, k ≠ (QJsonObject.get json "id").toLongLong →
            StdMap.find (s.updateTrade json).2.trades_ k = StdMap.find s.trades_ k)
        ∧ (s.updateTrade json).2.orders_ = s.orders_
        ∧ (s.updateTrade json).2.curOrderId_ = s.curOrderId_
        ∧ (s.updateTrade json).2.curTradeId_ = s.curTradeId_
        ∧ (s.updateTrade json).2.backupFile_ = s.backupFile_)
    ∧ (StdMap.find s.trades_ (QJsonObject.get json "id").toLongLong = none →
        s.updateTrade json = (none, s)) := by
  constructor
  · intro t ht
    refine ⟨TradeInfo.update t json, ?_⟩
    simp only [AtomEngineServer.updateTrade, ht]
    refine ⟨?_, ?_, ?_, ?_, ?_, ?_, ?_, ?_, ?_, ?_, ?_, ?_, ?_, ?_, ?_, ?_, ?_, ?_, ?_⟩
    all_goals first
      | trivial
      | exact StdMap.find_assign_self _ _ _
      | (intro k hk; exact StdMap.find_assign_ne _ _ _ _ hk)
      | (cases h : t.initiatorCommissionPaid_ <;> cases h2 : t.participantCommissionPaid_ <;>
          simp [TradeInfo.update, h, h2])
  · intro hn
    simp only [AtomEngineServer.updateTrade, hn]

/-- The defaults of the payload accessors: an absent key or a value of
another kind reads as the empty string, or as false. -/
theorem updateTrade_payload_defaults :
    (QJsonObject.get [] "secretHash").toQString = ""
    ∧ (QJsonObject.get [("secretHash", QJsonValue.double 3)] "secretHash").toQString = ""
    ∧ (QJsonObject.get [] "commissionInitiatorPaid").toBool = false := by
  refine ⟨rfl, rfl, rfl⟩

/-! ## The Entity Store primitives keep the invariants -/

theorem sameStore_refl (s : AtomEngineServer) : sameStore s s := ⟨rfl, rfl, rfl, rfl⟩

theorem sameStore_symm {a b : AtomEngineServer} (h : sameStore a b) : sameStore b a :=
  ⟨h.1.symm, h.2.1.symm, h.2.2.1.symm, h.2.2.2.symm⟩

theorem sameStore_trans {a b c : AtomEngineServer} (h : sameStore a b) (h2 : sameStore b c) :
    sameStore a c :=
  ⟨h.1.trans h2.1, h.2.1.trans h2.2.1, h.2.2.1.trans h2.2.2.1, h.2.2.2.trans h2.2.2.2⟩

theorem StoreOp.run_sameStore {a b : AtomEngineServer} (h : sameStore a b) (op : StoreOp) :
    sameStore (op.run a) (op.run b) := by
  obtain ⟨h1, h2, h3, h4⟩ := h
  cases op with
  | createOrder orderJson =>
    simp [StoreOp.run, AtomEngineServer.createOrder, sameStore, h1, h2, h3, h4]
  | deleteOrder id =>
    simp only [StoreOp.run, AtomEngineServer.deleteOrder, h3]
    cases StdMap.find b.orders_ id <;> simp [sameStore, h1, h2, h3, h4]
  | createTrade orderId addr =>
    simp only [StoreOp.run, AtomEngineServer.createTrade, h3]
    cases StdMap.find b.orders_ orderId <;> simp [sameStore, h1, h2, h3, h4]
  | updateTrade tradeJson =>
    simp only [StoreOp.run, AtomEngineServer.updateTrade, h4]
    cases StdMap.find b.trades_ (QJsonObject.get tradeJson "id").toLongLong <;>
      simp [sameStore, h1, h2, h3, h4]

theorem runOps_sameStore {a b : AtomEngineServer} (h : sameStore a b) (ops : List StoreOp) :
    sameStore (runOps a ops) (runOps b ops) := by
  induction ops generalizing a b with
  | nil => exact h
  | cons op ops ih => exact ih (StoreOp.run_sameStore h op)

theorem runOps_append (s : AtomEngineServer) (ops ops2 : List StoreOp) :
    runOps s (ops ++ ops2) = runOps (runOps s ops) ops2 := by
  induction ops generalizing s with
  | nil => rfl
  | cons op ops ih => exact ih (op.run s)

theorem StoreInv_congr {a b : AtomEngineServer} (h : sameStore a b) (hi : StoreInv a) :
    StoreInv b := by
  obtain ⟨h1, h2, h3, h4⟩ := h
  unfold StoreInv at *
  rw [← h1, ← h2, ← h3, ← h4]
  exact hi

theorem Evolves_congr {a b c d : AtomEngineServer} (h : sameStore a b) (h2 : sameStore c d)
    (he : Evolves a c) : Evolves b d := by
  obtain ⟨h1, h2a, h3, h4⟩ := h
  obtain ⟨g1, g2, g3, g4⟩ := h2
  unfold Evolves at *
  rw [← h1, ← h2a, ← h3, ← h4, ← g1, ← g2, ← g3, ← g4]
  exact he

theorem Evolves_refl (s : AtomEngineServer) : Evolves s s :=
  ⟨le_refl _, le_refl _, fun _ _ h => h, fun _ t h => ⟨t, h, rfl, rfl, rfl, id, id⟩⟩

theorem Evolves_trans {a b c : AtomEngineServer} (h : Evolves a b) (h2 : Evolves b c) :
    Evolves a c := by
  obtain ⟨h1, h2a, h3, h4⟩ := h
  obtain ⟨g1, g2, g3, g4⟩ := h2
  refine ⟨le_trans h1 g1, le_trans h2a g2, ?_, ?_⟩
  · intro k hk hn
    exact g3 k (le_trans hk h1) (h3 k hk hn)
  · intro k t ht
    obtain ⟨u, hu, e1, e2, e3, e4, e5⟩ := h4 k t ht
    obtain ⟨w, hw, f1, f2, f3, f4, f5⟩ := g4 k u hu
    exact ⟨w, hw, f1.trans e1, f2.trans e2, f3.trans e3, fun x => f4 (e4 x), fun x => f5 (e5 x)⟩

theorem StoreOp.run_inv (s : AtomEngineServer) (op : StoreOp) (hi : StoreInv s) :
    StoreInv (op.run s) ∧ Evolves s (op.run s) := by
  obtain ⟨c1, c2, ho, ht⟩ := hi
  cases op with
  | createOrder orderJson =>
    simp only [StoreOp.run, AtomEngineServer.createOrder]
    refine ⟨⟨by simp only; omega, c2, ?_, ht⟩, ⟨by simp only; omega, le_refl _, ?_, ?_⟩⟩
    · intro k o hk
      by_cases hkc : k = s.curOrderId_ + 1
      · subst hkc
        rw [StdMap.find_assign_self] at hk
        cases hk
        exact ⟨by omega, le_refl _, rfl⟩
      · rw [StdMap.find_assign_ne _ _ _ _ hkc] at hk
        have := ho k o hk
        exact ⟨this.1, by simp only; omega, this.2.2⟩
    · intro k hk hn
      have hkc : k ≠ s.curOrderId_ + 1 := by omega
      simp only
      rw [StdMap.find_assign_ne _ _ _ _ hkc]
      exact hn
    · intro k t h
      exact ⟨t, h, rfl, rfl, rfl, id, id⟩
  | deleteOrder oid =>
    simp only [StoreOp.run, AtomEngineServer.deleteOrder]
    cases hf : StdMap.find s.orders_ oid with
    | none => exact ⟨⟨c1, c2, ho, ht⟩, Evolves_refl s⟩
    | some o0 =>
      refine ⟨⟨c1, c2, ?_, ht⟩, ⟨le_refl _, le_refl _, ?_, ?_⟩⟩
      · intro k o hk
        by_cases hkc : k = oid
        · subst hkc
          simp only [StdMap.find_erase_self] at hk
          cases hk
        · simp only [StdMap.find_erase_ne _ _ _ hkc] at hk
          exact ho k o hk
      · intro k hk hn
        by_cases hkc : k = oid
        · subst hkc
          exact StdMap.find_erase_self _ _
        · simp only [StdMap.find_erase_ne _ _ _ hkc]
          exact hn
      · intro k t h
        exact ⟨t, h, rfl, rfl, rfl, fun x => x, fun x => x⟩
  | createTrade orderId addr =>
    simp only [StoreOp.run, AtomEngineServer.createTrade]
    cases hf : StdMap.find s.orders_ orderId with
    | none => exact ⟨⟨c1, c2, ho, ht⟩, Evolves_refl s⟩
    | some o0 =>
      refine ⟨⟨c1, by simp only; omega, ?_, ?_⟩, ⟨le_refl _, by simp only; omega, ?_, ?_⟩⟩
      · intro k o hk
        by_cases hkc : k = orderId
        · subst hkc
          simp only [StdMap.find_erase_self] at hk
          cases hk
        · simp only [StdMap.find_erase_ne _ _ _ hkc] at hk
          exact ho k o hk
      · intro k t hk
        by_cases hkc : k = s.curTradeId_ + 1
        · subst hkc
          simp only [StdMap.find_assign_self] at hk
          cases hk
          exact ⟨by omega, le_refl _, rfl⟩
        · simp only [StdMap.find_assign_ne _ _ _ _ hkc] at hk
          have := ht k t hk
          exact ⟨this.1, by simp only; omega, this.2.2⟩
      · intro k hk hn
        by_cases hkc : k = orderId
        · subst hkc
          exact StdMap.find_erase_self _ _
        · simp only [StdMap.find_erase_ne _ _ _ hkc]
          exact hn
      · intro k t h
        have hkc : k ≠ s.curTradeId_ + 1 := by
          have := (ht k t h).2.1
          omega
        refine ⟨t, ?_, rfl, rfl, rfl, id, id⟩
        simp only [StdMap.find_assign_ne _ _ _ _ hkc]
        exact h
  | updateTrade tradeJson =>
    simp only [StoreOp.run, AtomEngineServer.updateTrade]
    cases hf : StdMap.find s.trades_ (QJsonObject.get tradeJson "id").toLongLong with
    | none => exact ⟨⟨c1, c2, ho, ht⟩, Evolves_refl s⟩
    | some t0 =>
      refine ⟨⟨c1, c2, ho, ?_⟩, ⟨le_refl _, le_refl _, fun _ _ h => h, ?_⟩⟩
      · intro k t hk
        by_cases hkc : k = (QJsonObject.get tradeJson "id").toLongLong
        · subst hkc
          simp only [StdMap.find_assign_self] at hk
          cases hk
          have := ht _ t0 hf
          exact ⟨this.1, this.2.1, this.2.2⟩
        · simp only [StdMap.find_assign_ne _ _ _ _ hkc] at hk
          exact ht k t hk
      · intro k t h
        by_cases hkc : k = (QJsonObject.get tradeJson "id").toLongLong
        · subst hkc
          rw [hf] at h
          cases h
          refine ⟨TradeInfo.update t0 tradeJson, StdMap.find_assign_self _ _ _, rfl, rfl, rfl,
            ?_, ?_⟩
          · intro hx
            simp [TradeInfo.update, hx]
          · intro hx
            simp [TradeInfo.update, hx]
        · refine ⟨t, ?_, rfl, rfl, rfl, id, id⟩
          simp only [StdMap.find_assign_ne _ _ _ _ hkc]
          exact h

theorem runOps_inv (s : AtomEngineServer) (ops : List StoreOp) (hi : StoreInv s) :
    StoreInv (runOps s ops) ∧ Evolves s (runOps s ops) := by
  induction ops generalizing s with
  | nil => exact ⟨hi, Evolves_refl s⟩
  | cons op ops ih =>
    have h1 := StoreOp.run_inv s op hi
    have h2 := ih (op.run s) h1.1
    exact ⟨h2.1, Evolves_trans h1.2 h2.2⟩

/-! ## The dispatcher, block by block -/

theorem processCommand_not_object (s : AtomEngineServer) (sock : QTcpSocket) (doc : QJsonValue)
    (opens : Bool) (h : doc.isObject = false) : processCommand s sock doc opens = (s, []) := by
  simp [processCommand, h]

theorem processCommand_init (s : AtomEngineServer) (sock : QTcpSocket) (doc : QJsonValue)
    (opens : Bool) (h : doc.isObject = true)
    (hc : (QJsonObject.get doc.toObject "command").toQString = "init") :
    processCommand s sock doc opens = initBlock s sock doc.toObject := by
  simp [processCommand, h, hc]

theorem processCommand_request_swap_commission (s : AtomEngineServer) (sock : QTcpSocket)
    (doc : QJsonValue) (opens : Bool) (h : doc.isObject = true)
    (hc : (QJsonObject.get doc.toObject "command").toQString = "request_swap_commission") :
    processCommand s sock doc opens = requestSwapCommissionBlock s sock doc.toObject := by
  simp [processCommand, h, hc]

theorem processCommand_create_order (s : AtomEngineServer) (sock : QTcpSocket) (doc : QJsonValue)
    (opens : Bool) (h : doc.isObject = true)
    (hc : (QJsonObject.get doc.toObject "command").toQString = "create_order") :
    processCommand s sock doc opens = createOrderBlock s sock doc doc.toObject opens := by
  simp [processCommand, h, hc]

theorem processCommand_delete_order (s : AtomEngineServer) (sock : QTcpSocket) (doc : QJsonValue)
    (opens : Bool) (h : doc.isObject = true)
    (hc : (QJsonObject.get doc.toObject "command").toQString = "delete_order") :
    processCommand s sock doc opens = deleteOrderBlock s sock doc doc.toObject opens := by
  simp [processCommand, h, hc]

theorem processCommand_create_trade (s : AtomEngineServer) (sock : QTcpSocket) (doc : QJsonValue)
    (opens : Bool) (h : doc.isObject = true)
    (hc : (QJsonObject.get doc.toObject "command").toQString = "create_trade") :
    processCommand s sock doc opens = createTradeBlock s sock doc doc.toObject opens := by
  simp [processCommand, h, hc]

theorem processCommand_update_trade (s : AtomEngineServer) (sock : QTcpSocket) (doc : QJsonValue)
    (opens : Bool) (h : doc.isObject = true)
    (hc : (QJsonObject.get doc.toObject "command").toQString = "update_trade") :
    processCommand s sock doc opens = updateTradeBlock s sock doc doc.toObject opens := by
  simp [processCommand, h, hc]

theorem processCommand_other (s : AtomEngineServer) (sock : QTcpSocket) (doc : QJsonValue)
    (opens : Bool)
    (h1 : (QJsonObject.get doc.toObject "command").toQString ≠ "init")
    (h2 : (QJsonObject.get doc.toObject "command").toQString ≠ "request_swap_commission")
    (h3 : (QJsonObject.get doc.toObject "command").toQString ≠ "create_order")
    (h4 : (QJsonObject.get doc.toObject "command").toQString ≠ "delete_order")
    (h5 : (QJsonObject.get doc.toObject "command").toQString ≠ "create_trade")
    (h6 : (QJsonObject.get doc.toObject "command").toQString ≠ "update_trade") :
    processCommand s sock doc opens = (s, []) := by
  simp [processCommand, h1, h2, h3, h4, h5, h6]

theorem appended_append (a b : List Effect) : appended (a ++ b) = appended a ++ appended b := by
  induction a with
  | nil => rfl
  | cons e rest ih => cases e <;> simp [appended, ih]

theorem received_append (sock : QTcpSocket) (a b : List Effect) :
    received sock (a ++ b) = received sock a ++ received sock b := by
  induction a with
  | nil => rfl
  | cons e rest ih =>
    cases e with
    | write s2 rep => by_cases h : s2 = sock <;> simp [received, h, ih]
    | append line => simp [received, ih]

theorem appended_writeToAll (conns : StdMap Int QTcpSocket) (keep : Int → Bool) (rep : Reply) :
    appended (writeToAll conns keep rep) = [] := by
  unfold writeToAll
  induction conns with
  | nil => rfl
  | cons e rest ih =>
    by_cases h : keep e.1 = true
    · simpa [List.filter, h, appended] using ih
    · simpa [List.filter, h, appended] using ih

theorem appended_makerDelivery (s : AtomEngineServer) (d : Int) (t : TradeInfo) :
    appended (makerDelivery s d t).2 = [] := by
  unfold makerDelivery
  split
  · split
    · split_ifs <;> rfl
    · rfl
  · rfl

theorem saveCommand_spec (s : AtomEngineServer) (doc : QJsonValue) (opens : Bool) :
    (s.saveCommand doc opens).1 = { s with backupFile_ := s.backupFile_ ++ appended (s.saveCommand doc opens).2 }
    ∧ (s.saveCommand doc opens).2 = (if opens then [Effect.append doc] else []) := by
  cases opens <;> simp [AtomEngineServer.saveCommand, appended]

/-- The dispatcher never touches `connections_` or `buffers_`, the log grows
by exactly the lines it appends, and the Entity Store changes as by the
primitive calls of `storeOps`. -/
theorem processCommand_frame (s : AtomEngineServer) (sock : QTcpSocket) (doc : QJsonValue)
    (opens : Bool) :
    (processCommand s sock doc opens).1.connections_ = s.connections_
    ∧ (processCommand s sock doc opens).1.buffers_ = s.buffers_
    ∧ (processCommand s sock doc opens).1.backupFile_
        = s.backupFile_ ++ appended (processCommand s sock doc opens).2
    ∧ sameStore (processCommand s sock doc opens).1 (runOps s (storeOps doc)) := by
  by_cases h : doc.isObject = true
  swap
  · have h2 : doc.isObject = false := by simpa using h
    rw [processCommand_not_object s sock doc opens h2]
    simp [appended, storeOps, h2, runOps, sameStore_refl]
  by_cases h1 : (QJsonObject.get doc.toObject "command").toQString = "init"
  · rw [processCommand_init s sock doc opens h h1]
    simp [initBlock, appended, storeOps, h, h1, runOps, sameStore]
  by_cases h2 : (QJsonObject.get doc.toObject "command").toQString = "request_swap_commission"
  · rw [processCommand_request_swap_commission s sock doc opens h h2]
    simp [requestSwapCommissionBlock, appended, storeOps, h, h2, runOps, sameStore]
  by_cases h3 : (QJsonObject.get doc.toObject "command").toQString = "create_order"
  · rw [processCommand_create_order s sock doc opens h h3]
    cases opens <;>
      simp [createOrderBlock, AtomEngineServer.saveCommand, AtomEngineServer.createOrder,
        appended, appended_append, appended_writeToAll, storeOps, h, h3, runOps, StoreOp.run,
        sameStore]
  by_cases h4 : (QJsonObject.get doc.toObject "command").toQString = "delete_order"
  · rw [processCommand_delete_order s sock doc opens h h4]
    cases hf : StdMap.find s.orders_ (QJsonObject.get doc.toObject "id").toLongLong <;>
    cases opens <;>
      simp [deleteOrderBlock, AtomEngineServer.saveCommand, AtomEngineServer.deleteOrder, hf,
        appended, appended_append, appended_writeToAll, storeOps, h, h4, runOps, StoreOp.run,
        sameStore]
  by_cases h5 : (QJsonObject.get doc.toObject "command").toQString = "create_trade"
  · rw [processCommand_create_trade s sock doc opens h h5]
    cases hf : StdMap.find s.orders_ (QJsonObject.get doc.toObject "orderId").toLongLong <;>
    cases opens <;>
      simp [createTradeBlock, AtomEngineServer.saveCommand, AtomEngineServer.createTrade, hf,
        appended, appended_append, appended_writeToAll, appended_makerDelivery, storeOps, h, h5,
        runOps, StoreOp.run, sameStore]
  by_cases h6 : (QJsonObject.get doc.toObject "command").toQString = "update_trade"
  · rw [processCommand_update_trade s sock doc opens h h6]
    cases hf : StdMap.find s.trades_
        (QJsonObject.get (QJsonObject.get doc.toObject "trade").toObject "id").toLongLong <;>
    cases opens <;>
      (simp [updateTradeBlock, AtomEngineServer.saveCommand, AtomEngineServer.updateTrade, hf,
        appended, appended_append, appended_writeToAll, storeOps, h, h6, runOps, StoreOp.run,
        sameStore]
       try (split_ifs <;> first | rfl | (split <;> rfl)))
  · rw [processCommand_other s sock doc opens h1 h2 h3 h4 h5 h6]
    simp [appended, storeOps, h, h1, h2, h3, h4, h5, h6, runOps, sameStore_refl]

/-! ## From one command to whole executions -/

theorem processLines_frame (fromJson : QByteArray → QJsonValue) (sock : QTcpSocket)
    (opens : Nat → Bool) (s : AtomEngineServer) (i : Nat) (commands : List QByteArray) :
    (processLines fromJson sock opens s i commands).1.connections_ = s.connections_
    ∧ (processLines fromJson sock opens s i commands).1.buffers_ = s.buffers_
    ∧ (processLines fromJson sock opens s i commands).1.backupFile_
        = s.backupFile_ ++ appended (processLines fromJson sock opens s i commands).2
    ∧ ∃ ops, sameStore (processLines fromJson sock opens s i commands).1 (runOps s ops) := by
  induction commands generalizing s i with
  | nil => exact ⟨rfl, rfl, by simp [processLines, appended], [], sameStore_refl s⟩
  | cons c rest ih =>
    unfold processLines
    by_cases hc : c.length = 0
    · simp only [hc, if_true]
      exact ih s (i + 1)
    · simp only [hc, if_false]
      obtain ⟨p1, p2, p3, p4⟩ := processCommand_frame s sock (fromJson c) (opens i)
      obtain ⟨q1, q2, q3, ops, q4⟩ :=
        ih (processCommand s sock (fromJson c) (opens i)).1 (i + 1)
      refine ⟨q1.trans p1, q2.trans p2, ?_, storeOps (fromJson c) ++ ops, ?_⟩
      · rw [q3, p3, appended_append, List.append_assoc]
      · rw [runOps_append]
        exact sameStore_trans q4 (runOps_sameStore p4 ops)

theorem onReadyRead_frame (fromJson : QByteArray → QJsonValue) (s : AtomEngineServer)
    (sock : QTcpSocket) (answer : QByteArray) (opens : Nat → Bool) :
    (s.onReadyRead fromJson sock answer opens).1.connections_ = s.connections_
    ∧ (s.onReadyRead fromJson sock answer opens).1.backupFile_
        = s.backupFile_ ++ appended (s.onReadyRead fromJson sock answer opens).2
    ∧ ∃ ops, sameStore (s.onReadyRead fromJson sock answer opens).1 (runOps s ops) := by
  unfold AtomEngineServer.onReadyRead
  simp only []
  split
  · exact ⟨rfl, by simp [appended], [], sameStore_refl s⟩
  · rename_i commands remainder _
    obtain ⟨q1, _, q3, ops, q4⟩ := processLines_frame fromJson sock opens
      { s with buffers_ := StdMap.assign s.buffers_ sock.socketDescriptor remainder } 0 commands
    have hs : sameStore
        { s with buffers_ := StdMap.assign s.buffers_ sock.socketDescriptor remainder } s :=
      ⟨rfl, rfl, rfl, rfl⟩
    exact ⟨q1, q3, ops, sameStore_trans q4 (runOps_sameStore hs ops)⟩

theorem dropConnection_store (sock : QTcpSocket) (s : AtomEngineServer) (e : Int × QTcpSocket) :
    sameStore (dropConnection sock s e) s
    ∧ (dropConnection sock s e).backupFile_ = s.backupFile_ := by
  unfold dropConnection
  split_ifs <;> exact ⟨⟨rfl, rfl, rfl, rfl⟩, rfl⟩

theorem foldl_dropConnection_store (sock : QTcpSocket) (conns : List (Int × QTcpSocket))
    (s : AtomEngineServer) :
    sameStore (conns.foldl (dropConnection sock) s) s
    ∧ (conns.foldl (dropConnection sock) s).backupFile_ = s.backupFile_ := by
  induction conns generalizing s with
  | nil => exact ⟨sameStore_refl s, rfl⟩
  | cons e rest ih =>
    have h1 := ih (dropConnection sock s e)
    have h2 := dropConnection_store sock s e
    exact ⟨sameStore_trans h1.1 h2.1, h1.2.trans h2.2⟩

/-- Serving an event changes the Entity Store as by a list of primitive calls
and appends to the log exactly the lines of its effects. -/
theorem handle_frame (fromJson : QByteArray → QJsonValue) (s : AtomEngineServer) (e : Event) :
    (handle fromJson s e).1.backupFile_ = s.backupFile_ ++ appended (handle fromJson s e).2
    ∧ ∃ ops, sameStore (handle fromJson s e).1 (runOps s ops) := by
  cases e with
  | newConnection sock =>
    exact ⟨by simp [handle, AtomEngineServer.onNewConnection, appended], [], ⟨rfl, rfl, rfl, rfl⟩⟩
  | readyRead sock answer opens =>
    have h := onReadyRead_frame fromJson s sock answer opens
    exact ⟨h.2.1, h.2.2⟩
  | disconnected sock =>
    have h := foldl_dropConnection_store sock s.connections_ s
    exact ⟨by simpa [handle, AtomEngineServer.onClientDisconnected, appended] using h.2,
      [], h.1⟩

theorem runEvents_store (fromJson : QByteArray → QJsonValue) (s : AtomEngineServer)
    (es : List Event) : ∃ ops, sameStore (runEvents fromJson s es) (runOps s ops) := by
  induction es generalizing s with
  | nil => exact ⟨[], sameStore_refl s⟩
  | cons e es ih =>
    obtain ⟨ops, h⟩ := (handle_frame fromJson s e).2
    obtain ⟨ops2, h2⟩ := ih (handle fromJson s e).1
    refine ⟨ops ++ ops2, ?_⟩
    rw [runOps_append]
    exact sameStore_trans h2 (runOps_sameStore h ops2)

/-- The loop body of `load` makes exactly the primitive calls of `storeOps`. -/
theorem replayLine_eq (s : AtomEngineServer) (doc : QJsonValue) :
    replayLine s doc = runOps s (storeOps doc) := by
  unfold replayLine storeOps
  by_cases h : doc.isObject = true
  swap
  · simp [h, runOps]
  simp only [h, if_true]
  by_cases h3 : (QJsonObject.get doc.toObject "command").toQString = "create_order"
  · simp [h3, runOps, StoreOp.run]
  by_cases h4 : (QJsonObject.get doc.toObject "command").toQString = "delete_order"
  · simp [h4, runOps, StoreOp.run]
  by_cases h5 : (QJsonObject.get doc.toObject "command").toQString = "create_trade"
  · simp [h5, runOps, StoreOp.run]
  by_cases h6 : (QJsonObject.get doc.toObject "command").toQString = "update_trade"
  · simp [h6, runOps, StoreOp.run]
  · simp [h3, h4, h5, h6, runOps]

theorem foldl_replay_eq (lines : List QJsonValue) (s : AtomEngineServer) :
    lines.foldl (fun acc line => replayLine acc (QJsonValue.viaLatin1 line)) s
      = runOps s (lines.flatMap (fun line => storeOps (QJsonValue.viaLatin1 line))) := by
  induction lines generalizing s with
  | nil => rfl
  | cons line rest ih =>
    simp only [List.foldl_cons, List.flatMap_cons, runOps_append]
    rw [ih, replayLine_eq]

theorem load_store (s : AtomEngineServer) (opens : Bool) :
    ∃ ops, (s.load opens).2 = runOps s ops := by
  cases opens with
  | false => exact ⟨[], rfl⟩
  | true => exact ⟨_, foldl_replay_eq s.backupFile_ s⟩

theorem StoreInv_new (file : List QJsonValue) : StoreInv (AtomEngineServer.new file) := by
  refine ⟨le_refl _, le_refl _, ?_, ?_⟩ <;>
    (intro k o h; simp [AtomEngineServer.new, StdMap.find] at h)

/-- In every reachable state the keys of both tables agree with the counters. -/
theorem Reachable.storeInv {fromJson : QByteArray → QJsonValue} {s : AtomEngineServer}
    (h : Reachable fromJson s) : StoreInv s := by
  induction h with
  | run file opens =>
    obtain ⟨ops, h⟩ := load_store (AtomEngineServer.new file) opens
    rw [h]
    exact (runOps_inv _ ops (StoreInv_new file)).1
  | step s e _ _ ih =>
    obtain ⟨ops, h⟩ := (handle_frame fromJson s e).2
    exact StoreInv_congr (sameStore_symm h) (runOps_inv s ops ih).1

/-- Between a state with consistent keys and any later state of the same
execution, nothing of `Evolves` goes back. -/
theorem runEvents_evolves (fromJson : QByteArray → QJsonValue) (s : AtomEngineServer)
    (es : List Event) (hi : StoreInv s) :
    StoreInv (runEvents fromJson s es) ∧ Evolves s (runEvents fromJson s es) := by
  obtain ⟨ops, h⟩ := runEvents_store fromJson s es
  have h2 := runOps_inv s ops hi
  exact ⟨StoreInv_congr (sameStore_symm h) h2.1,
    Evolves_congr (sameStore_refl s) (sameStore_symm h) h2.2⟩

theorem Reachable.runEvents {fromJson : QByteArray → QJsonValue} {s : AtomEngineServer}
    (h : Reachable fromJson s) (es : List Event) (he : allEnabled fromJson s es) :
    Reachable fromJson (runEvents fromJson s es) := by
  induction es generalizing s with
  | nil => exact h
  | cons e es ih => exact ih (Reachable.step s e h he.1) he.2

/-! ## Whole-execution properties of the Entity Store -/

set_option maxRecDepth 100000

/-- C4. Commission flags never go back: in every reachable state, for every
trade t stored under id k and every later sequence of events (connections
opening and closing, bytes arriving with any commands, update_trade payloads
carrying false or no flag included), the trade table still holds a trade
under k, and each commission flag that was true in t is true in it. -/
theorem C4_commission_flags_monotonic (fromJson : QByteArray → QJsonValue)
    (s : AtomEngineServer) (es : List Event) (k : Int) (t : TradeInfo)
    (hr : Reachable fromJson s) (ht : StdMap.find s.trades_ k = some t) :
    ∃ u, StdMap.find (runEvents fromJson s es).trades_ k = some u
      ∧ (t.initiatorCommissionPaid_ = true → u.initiatorCommissionPaid_ = true)
      ∧ (t.participantCommissionPaid_ = true → u.participantCommissionPaid_ = true) := by
  obtain ⟨u, hu, _, _, _, h4, h5⟩ :=
    (runEvents_evolves fromJson s es hr.storeInv).2.2.2.2 k t ht
  exact ⟨u, hu, h4, h5⟩

/-- C4, at a concrete execution: the log holds an order, its trade and an
update that sets the initiator flag; after restart a client sends an
update_trade carrying false for that flag; the flag is still true. -/
theorem C4_commission_flags_monotonic_witness :
    StdMap.find ((AtomEngineServer.new
        [sampleCreateOrder, sampleCreateTrade, sampleUpdateTradePaid]).load true).2.trades_ 1
      = some { TradeInfo.make 1 (OrderInfo.make 1 (QJsonObject.get sampleCreateOrder.toObject "order").toObject) "addrB" with
          secretHash_ := "h", initiatorCommissionPaid_ := true }
    ∧ ∃ u, StdMap.find (runEvents sampleFromJson
          ((AtomEngineServer.new
            [sampleCreateOrder, sampleCreateTrade, sampleUpdateTradePaid]).load true).2
          [Event.newConnection ⟨7⟩,
           Event.readyRead ⟨7⟩ (bytesOf "\x7b\"command\":\"update_trade\",\"trade\":\x7b\"id\":1,\"commissionInitiatorPaid\":false\x7d\x7d\n") (fun _ => true)]).trades_ 1
        = some u
      ∧ (true = true → u.initiatorCommissionPaid_ = true)
      ∧ (false = true → u.participantCommissionPaid_ = true) :=
  ⟨by rfl, C4_commission_flags_monotonic sampleFromJson
    ((AtomEngineServer.new [sampleCreateOrder, sampleCreateTrade, sampleUpdateTradePaid]).load true).2
    [Event.newConnection ⟨7⟩,
     Event.readyRead ⟨7⟩ (bytesOf "\x7b\"command\":\"update_trade\",\"trade\":\x7b\"id\":1,\"commissionInitiatorPaid\":false\x7d\x7d\n") (fun _ => true)]
    1
    { TradeInfo.make 1 (OrderInfo.make 1 (QJsonObject.get sampleCreateOrder.toObject "order").toObject) "addrB" with
          secretHash_ := "h", initiatorCommissionPaid_ := true }
    (Reachable.run _ true) (by rfl)⟩

/-- C6. A create_trade for an order id that has left the order table fails,
whenever it comes. If id k was a key of the order table in a reachable state
and is no longer one after some events, then after any further events a
create_trade command for k from any socket writes exactly one frame,
create_trade_failed (text: reasone "order out of date"), to the sender and
nothing to anyone else, appends nothing to the log and leaves the order
table, the trade table and both counters as they were. -/
theorem C6_stale_create_trade_fails (fromJson : QByteArray → QJsonValue)
    (s0 : AtomEngineServer) (es1 es2 : List Event) (k : Int) (o : OrderInfo)
    (sock : QTcpSocket) (doc : QJsonValue) (opens : Bool)
    (hr : Reachable fromJson s0)
    (hin : StdMap.find s0.orders_ k = some o)
    (hout : StdMap.find (runEvents fromJson s0 es1).orders_ k = none)
    (hobj : doc.isObject = true)
    (hcmd : (QJsonObject.get doc.toObject "command").toQString = "create_trade")
    (hid : (QJsonObject.get doc.toObject "orderId").toLongLong = k) :
    (processCommand (runEvents fromJson (runEvents fromJson s0 es1) es2) sock doc opens).2
        = [Effect.write sock Reply.create_trade_failed]
    ∧ received sock
        (processCommand (runEvents fromJson (runEvents fromJson s0 es1) es2) sock doc opens).2
        = [Reply.create_trade_failed]
    ∧ (∀ other, other ≠ sock → received other
        (processCommand (runEvents fromJson (runEvents fromJson s0 es1) es2) sock doc opens).2
        = [])
    ∧ (∀ oj tj, Reply.text oj tj Reply.create_trade_failed
        = "\x7b\"reply\": \"create_trade_failed\", \"reasone\": \"order out of date\"\x7d\n")
    ∧ (processCommand (runEvents fromJson (runEvents fromJson s0 es1) es2) sock doc opens).1.backupFile_
        = (runEvents fromJson (runEvents fromJson s0 es1) es2).backupFile_
    ∧ sameStore
        (processCommand (runEvents fromJson (runEvents fromJson s0 es1) es2) sock doc opens).1
        (runEvents fromJson (runEvents fromJson s0 es1) es2) := by
  have hi0 := hr.storeInv
  have hk : k ≤ s0.curOrderId_ := (hi0.2.2.1 k o hin).2.1
  have h1 := runEvents_evolves fromJson s0 es1 hi0
  have h2 := runEvents_evolves fromJson (runEvents fromJson s0 es1) es2 h1.1
  have hgone : StdMap.find (runEvents fromJson (runEvents fromJson s0 es1) es2).orders_ k = none :=
    h2.2.2.2.1 k (le_trans hk h1.2.1) hout
  rw [processCommand_create_trade _ sock doc opens hobj hcmd]
  have hb : createTradeBlock (runEvents fromJson (runEvents fromJson s0 es1) es2) sock doc
      doc.toObject opens
      = ({ (runEvents fromJson (runEvents fromJson s0 es1) es2) with
            addrs_ := StdMap.put (runEvents fromJson (runEvents fromJson s0 es1) es2).addrs_
              (QJsonObject.get doc.toObject "address").toQString sock.socketDescriptor },
         [Effect.write sock Reply.create_trade_failed]) := by
    simp [createTradeBlock, AtomEngineServer.createTrade, hid, hgone]
  rw [hb]
  refine ⟨rfl, by simp [received], ?_, fun _ _ => rfl, rfl, ⟨rfl, rfl, rfl, rfl⟩⟩
  intro other hne
  have : ¬ sock = other := fun h => hne h.symm
  simp [received, this]

/-- C6, at a concrete execution: client 7 publishes order 1 and deletes it;
client 8 connects, and later asks for a trade on order 1. -/
theorem C6_stale_create_trade_fails_witness :
    StdMap.find ((AtomEngineServer.new [sampleCreateOrder]).load true).2.orders_ 1
      = some (OrderInfo.make 1 (QJsonObject.get sampleCreateOrder.toObject "order").toObject)
    ∧ StdMap.find (runEvents sampleFromJson ((AtomEngineServer.new [sampleCreateOrder]).load true).2
        [Event.newConnection ⟨7⟩,
         Event.readyRead ⟨7⟩ (bytesOf "\x7b\"command\":\"delete_order\",\"id\":1\x7d\n") (fun _ => true)]).orders_ 1
      = none
    ∧ (processCommand
        (runEvents sampleFromJson
          (runEvents sampleFromJson ((AtomEngineServer.new [sampleCreateOrder]).load true).2
            [Event.newConnection ⟨7⟩,
             Event.readyRead ⟨7⟩ (bytesOf "\x7b\"command\":\"delete_order\",\"id\":1\x7d\n") (fun _ => true)])
          [Event.newConnection ⟨8⟩]) ⟨8⟩ sampleCreateTrade true).2
        = [Effect.write ⟨8⟩ Reply.create_trade_failed] :=
  ⟨by rfl, by rfl,
    (C6_stale_create_trade_fails sampleFromJson _
      [Event.newConnection ⟨7⟩,
       Event.readyRead ⟨7⟩ (bytesOf "\x7b\"command\":\"delete_order\",\"id\":1\x7d\n") (fun _ => true)]
      [Event.newConnection ⟨8⟩] 1 _ ⟨8⟩ sampleCreateTrade true
      (Reachable.run [sampleCreateOrder] true) (by rfl) (by rfl) (by rfl) (by rfl) (by rfl)).1⟩

/-! ## The session registry -/

theorem StdMap.mem_put {K V : Type} [DecidableEq K] (m : StdMap K V) (k : K) (v : V)
    (e : K × V) (h : e ∈ StdMap.put m k v) : e ∈ m ∨ e = (k, v) := by
  induction m with
  | nil =>
    simp only [StdMap.put, List.mem_singleton] at h
    exact Or.inr h
  | cons e0 rest ih =>
    obtain ⟨k0, v0⟩ := e0
    unfold StdMap.put at h
    split_ifs at h with hk
    · rcases List.mem_cons.mp h with h1 | h1
      · exact Or.inr h1
      · exact Or.inl (List.mem_cons_of_mem _ h1)
    · rcases List.mem_cons.mp h with h1 | h1
      · exact Or.inl (h1 ▸ List.mem_cons_self _ _)
      · rcases ih h1 with h2 | h2
        · exact Or.inl (List.mem_cons_of_mem _ h2)
        · exact Or.inr h2

theorem StdMap.mem_assign {K V : Type} [LinearOrder K] (m : StdMap K V) (k : K) (v : V)
    (e : K × V) (h : e ∈ StdMap.assign m k v) : e ∈ m ∨ e = (k, v) := by
  induction m with
  | nil =>
    simp only [StdMap.assign, List.mem_singleton] at h
    exact Or.inr h
  | cons e0 rest ih =>
    obtain ⟨k0, v0⟩ := e0
    unfold StdMap.assign at h
    split_ifs at h with h1 h2
    · rcases List.mem_cons.mp h with h3 | h3
      · exact Or.inr h3
      · exact Or.inl h3
    · rcases List.mem_cons.mp h with h3 | h3
      · exact Or.inr h3
      · exact Or.inl (List.mem_cons_of_mem _ h3)
    · rcases List.mem_cons.mp h with h3 | h3
      · exact Or.inl (h3 ▸ List.mem_cons_self _ _)
      · rcases ih h3 with h4 | h4
        · exact Or.inl (List.mem_cons_of_mem _ h4)
        · exact Or.inr h4

theorem StdMap.mem_erase {K V : Type} [DecidableEq K] (m : StdMap K V) (k : K)
    (e : K × V) (h : e ∈ StdMap.erase m k) : e ∈ m ∧ e.1 ≠ k := by
  induction m with
  | nil => simp [StdMap.erase] at h
  | cons e0 rest ih =>
    obtain ⟨k0, v0⟩ := e0
    unfold StdMap.erase at h
    split_ifs at h with hk
    · exact ⟨List.mem_cons_of_mem _ (ih h).1, (ih h).2⟩
    · rcases List.mem_cons.mp h with h1 | h1
      · subst h1
        exact ⟨List.mem_cons_self _ _, hk⟩
      · exact ⟨List.mem_cons_of_mem _ (ih h1).1, (ih h1).2⟩

theorem StdMap.mem_eraseValue {K V : Type} [DecidableEq V] (m : StdMap K V) (val : V)
    (e : K × V) (h : e ∈ StdMap.eraseValue m val) : e ∈ m ∧ e.2 ≠ val := by
  induction m with
  | nil => simp [StdMap.eraseValue] at h
  | cons e0 rest ih =>
    obtain ⟨k0, v0⟩ := e0
    unfold StdMap.eraseValue at h
    split_ifs at h with hk
    · exact ⟨List.mem_cons_of_mem _ (ih h).1, (ih h).2⟩
    · rcases List.mem_cons.mp h with h1 | h1
      · subst h1
        exact ⟨List.mem_cons_self _ _, hk⟩
      · exact ⟨List.mem_cons_of_mem _ (ih h1).1, (ih h1).2⟩

theorem StdMap.WF_assign {K V : Type} [LinearOrder K] (m : StdMap K V) (k : K) (v : V)
    (h : StdMap.WF m) : StdMap.WF (StdMap.assign m k v) := by
  induction m with
  | nil => simp [StdMap.assign, StdMap.WF, StdMap.keys]
  | cons e0 rest ih =>
    obtain ⟨k0, v0⟩ := e0
    unfold StdMap.WF StdMap.keys at h ih ⊢
    simp only [List.map_cons, List.pairwise_cons] at h
    unfold StdMap.assign
    split_ifs with h1 h2
    · simp only [List.map_cons, List.pairwise_cons, List.mem_cons]
      refine ⟨?_, h.1, h.2⟩
      intro a ha
      rcases ha with ha | ha
      · exact ha ▸ h1
      · exact lt_trans h1 (h.1 a ha)
    · simp only [List.map_cons, List.pairwise_cons]
      exact ⟨fun a ha => h2 ▸ h.1 a ha, h.2⟩
    · simp only [List.map_cons, List.pairwise_cons]
      refine ⟨?_, ih h.2⟩
      intro a ha
      obtain ⟨e, he, rfl⟩ := List.mem_map.mp ha
      rcases StdMap.mem_assign rest k v e he with h3 | h3
      · exact h.1 e.1 (List.mem_map_of_mem _ h3)
      · rw [h3]
        exact lt_of_le_of_ne (not_lt.mp h1) (fun h4 => h2 h4.symm)

theorem StdMap.WF_erase {K V : Type} [LinearOrder K] (m : StdMap K V) (k : K)
    (h : StdMap.WF m) : StdMap.WF (StdMap.erase m k) := by
  induction m with
  | nil => simp [StdMap.erase, StdMap.WF, StdMap.keys]
  | cons e0 rest ih =>
    obtain ⟨k0, v0⟩ := e0
    unfold StdMap.WF StdMap.keys at h ih ⊢
    simp only [List.map_cons, List.pairwise_cons] at h
    unfold StdMap.erase
    split_ifs with h1
    · exact ih h.2
    · simp only [List.map_cons, List.pairwise_cons]
      refine ⟨?_, ih h.2⟩
      intro a ha
      obtain ⟨e, he, rfl⟩ := List.mem_map.mp ha
      exact h.1 e.1 (List.mem_map_of_mem _ (StdMap.mem_erase rest k e he).1)

/-- In a well-formed map an entry is found under its key. -/
theorem StdMap.find_of_mem {K V : Type} [LinearOrder K] (m : StdMap K V) (e : K × V)
    (h : StdMap.WF m) (he : e ∈ m) : StdMap.find m e.1 = some e.2 := by
  induction m with
  | nil => simp at he
  | cons e0 rest ih =>
    obtain ⟨k0, v0⟩ := e0
    unfold StdMap.WF StdMap.keys at h ih
    simp only [List.map_cons, List.pairwise_cons] at h
    rcases List.mem_cons.mp he with h1 | h1
    · subst h1
      simp [StdMap.find]
    · have hlt : k0 < e.1 := h.1 e.1 (List.mem_map_of_mem _ h1)
      have hne : ¬ k0 = e.1 := ne_of_lt hlt
      simp only [StdMap.find, hne, if_false]
      exact ih h.2 h1

theorem StdMap.mem_of_find {K V : Type} [DecidableEq K] (m : StdMap K V) (k : K) (v : V)
    (h : StdMap.find m k = some v) : (k, v) ∈ m := by
  induction m with
  | nil => simp [StdMap.find] at h
  | cons e0 rest ih =>
    obtain ⟨k0, v0⟩ := e0
    unfold StdMap.find at h
    split_ifs at h with h1
    · cases h
      subst h1
      exact List.mem_cons_self _ _
    · exact List.mem_cons_of_mem _ (ih h)

theorem StoreOp.run_registry (s : AtomEngineServer) (op : StoreOp) :
    (op.run s).connections_ = s.connections_ ∧ (op.run s).addrs_ = s.addrs_
    ∧ (op.run s).buffers_ = s.buffers_ ∧ (op.run s).backupFile_ = s.backupFile_ := by
  cases op with
  | createOrder orderJson => simp [StoreOp.run, AtomEngineServer.createOrder]
  | deleteOrder oid =>
    simp only [StoreOp.run, AtomEngineServer.deleteOrder]
    cases StdMap.find s.orders_ oid <;> simp
  | createTrade orderId addr =>
    simp only [StoreOp.run, AtomEngineServer.createTrade]
    cases StdMap.find s.orders_ orderId <;> simp
  | updateTrade tradeJson =>
    simp only [StoreOp.run, AtomEngineServer.updateTrade]
    cases StdMap.find s.trades_ (QJsonObject.get tradeJson "id").toLongLong <;> simp

theorem runOps_registry (s : AtomEngineServer) (ops : List StoreOp) :
    (runOps s ops).connections_ = s.connections_ ∧ (runOps s ops).addrs_ = s.addrs_
    ∧ (runOps s ops).buffers_ = s.buffers_ ∧ (runOps s ops).backupFile_ = s.backupFile_ := by
  induction ops generalizing s with
  | nil => exact ⟨rfl, rfl, rfl, rfl⟩
  | cons op ops ih =>
    have h1 := ih (op.run s)
    have h2 := StoreOp.run_registry s op
    exact ⟨h1.1.trans h2.1, h1.2.1.trans h2.2.1, h1.2.2.1.trans h2.2.2.1,
      h1.2.2.2.trans h2.2.2.2⟩

theorem claimAddrs_mem (addrs : StdMap String Int) (descr : Int) (l : List String)
    (e : String × Int) (h : e ∈ claimAddrs addrs descr l) : e ∈ addrs ∨ e.2 = descr := by
  induction l generalizing addrs with
  | nil => exact Or.inl h
  | cons a rest ih =>
    rcases ih _ h with h1 | h1
    · rcases StdMap.mem_put addrs a descr e h1 with h2 | h2
      · exact Or.inl h2
      · exact Or.inr (by rw [h2])
    · exact Or.inr h1

/-- The only entries a command adds to `addrs_` point to the sender. -/
theorem processCommand_addrs (s : AtomEngineServer) (sock : QTcpSocket) (doc : QJsonValue)
    (opens : Bool) (e : String × Int) (he : e ∈ (processCommand s sock doc opens).1.addrs_) :
    e ∈ s.addrs_ ∨ e.2 = sock.socketDescriptor := by
  by_cases h : doc.isObject = true
  swap
  · have h2 : doc.isObject = false := by simpa using h
    rw [processCommand_not_object s sock doc opens h2] at he
    exact Or.inl he
  by_cases h1 : (QJsonObject.get doc.toObject "command").toQString = "init"
  · rw [processCommand_init s sock doc opens h h1] at he
    exact claimAddrs_mem _ _ _ e he
  by_cases h2 : (QJsonObject.get doc.toObject "command").toQString = "request_swap_commission"
  · rw [processCommand_request_swap_commission s sock doc opens h h2] at he
    exact claimAddrs_mem _ _ _ e he
  by_cases h3 : (QJsonObject.get doc.toObject "command").toQString = "create_order"
  · rw [processCommand_create_order s sock doc opens h h3] at he
    have he2 : e ∈ StdMap.put s.addrs_
        (s.createOrder (QJsonObject.get doc.toObject "order").toObject).1.getAddress_
        sock.socketDescriptor := by
      cases opens <;>
        simpa [createOrderBlock, AtomEngineServer.saveCommand, AtomEngineServer.createOrder]
          using he
    rcases StdMap.mem_put _ _ _ e he2 with h5 | h5
    · exact Or.inl h5
    · exact Or.inr (by rw [h5])
  by_cases h4 : (QJsonObject.get doc.toObject "command").toQString = "delete_order"
  · rw [processCommand_delete_order s sock doc opens h h4] at he
    have he2 : e ∈ s.addrs_ := by
      cases hf : StdMap.find s.orders_ (QJsonObject.get doc.toObject "id").toLongLong <;>
      cases opens <;>
        simpa [deleteOrderBlock, AtomEngineServer.saveCommand, AtomEngineServer.deleteOrder, hf]
          using he
    exact Or.inl he2
  by_cases h5 : (QJsonObject.get doc.toObject "command").toQString = "create_trade"
  · rw [processCommand_create_trade s sock doc opens h h5] at he
    have he2 : e ∈ StdMap.put s.addrs_ (QJsonObject.get doc.toObject "address").toQString
        sock.socketDescriptor := by
      cases hf : StdMap.find s.orders_ (QJsonObject.get doc.toObject "orderId").toLongLong <;>
      cases opens <;>
        simpa [createTradeBlock, AtomEngineServer.saveCommand, AtomEngineServer.createTrade, hf]
          using he
    rcases StdMap.mem_put _ _ _ e he2 with h6 | h6
    · exact Or.inl h6
    · exact Or.inr (by rw [h6])
  by_cases h6 : (QJsonObject.get doc.toObject "command").toQString = "update_trade"
  · rw [processCommand_update_trade s sock doc opens h h6] at he
    have he2 : e ∈ s.addrs_ := by
      cases hf : StdMap.find s.trades_
          (QJsonObject.get (QJsonObject.get doc.toObject "trade").toObject "id").toLongLong <;>
      cases opens <;>
        simpa [updateTradeBlock, AtomEngineServer.saveCommand, AtomEngineServer.updateTrade, hf]
          using he
    exact Or.inl he2
  · rw [processCommand_other s sock doc opens h1 h2 h3 h4 h5 h6] at he
    exact Or.inl he

theorem processLines_addrs (fromJson : QByteArray → QJsonValue) (sock : QTcpSocket)
    (opens : Nat → Bool) (s : AtomEngineServer) (i : Nat) (commands : List QByteArray)
    (e : String × Int) (he : e ∈ (processLines fromJson sock opens s i commands).1.addrs_) :
    e ∈ s.addrs_ ∨ e.2 = sock.socketDescriptor := by
  induction commands generalizing s i with
  | nil => exact Or.inl he
  | cons c rest ih =>
    unfold processLines at he
    by_cases hc : c.length = 0
    · simp only [hc, if_true] at he
      exact ih s (i + 1) he
    · simp only [hc, if_false] at he
      rcases ih _ (i + 1) he with h1 | h1
      · exact processCommand_addrs s sock (fromJson c) (opens i) e h1
      · exact Or.inr h1

theorem onReadyRead_addrs (fromJson : QByteArray → QJsonValue) (s : AtomEngineServer)
    (sock : QTcpSocket) (answer : QByteArray) (opens : Nat → Bool) (e : String × Int)
    (he : e ∈ (s.onReadyRead fromJson sock answer opens).1.addrs_) :
    e ∈ s.addrs_ ∨ e.2 = sock.socketDescriptor := by
  unfold AtomEngineServer.onReadyRead at he
  simp only [] at he
  split at he
  · exact Or.inl he
  · rename_i commands remainder _
    exact processLines_addrs fromJson sock opens
      { s with buffers_ := StdMap.assign s.buffers_ sock.socketDescriptor remainder } 0 commands
      e he

theorem dropConnection_addrsOK (sock : QTcpSocket) (s : AtomEngineServer) (e : Int × QTcpSocket)
    (h : AddrsOK s) : AddrsOK (dropConnection sock s e) := by
  unfold dropConnection
  split_ifs with hs
  · intro a ha
    have h1 := StdMap.mem_eraseValue s.addrs_ e.1 a ha
    obtain ⟨socket, h2⟩ := h a h1.1
    exact ⟨socket, by
      show StdMap.find (StdMap.erase s.connections_ e.1) a.2 = some socket
      rw [StdMap.find_erase_ne _ _ _ h1.2]
      exact h2⟩
  · exact h

theorem foldl_dropConnection_addrsOK (sock : QTcpSocket) (conns : List (Int × QTcpSocket))
    (s : AtomEngineServer) (h : AddrsOK s) : AddrsOK (conns.foldl (dropConnection sock) s) := by
  induction conns generalizing s with
  | nil => exact h
  | cons e rest ih => exact ih _ (dropConnection_addrsOK sock s e h)

theorem handle_addrsOK (fromJson : QByteArray → QJsonValue) (s : AtomEngineServer) (e : Event)
    (h : AddrsOK s) (hen : e.enabled s) : AddrsOK (handle fromJson s e).1 := by
  cases e with
  | newConnection sock =>
    intro a ha
    obtain ⟨socket, h2⟩ := h a ha
    by_cases hk : a.2 = sock.socketDescriptor
    · exact ⟨sock, by
        show StdMap.find (StdMap.assign s.connections_ sock.socketDescriptor sock) a.2 = some sock
        rw [hk]
        exact StdMap.find_assign_self _ _ _⟩
    · exact ⟨socket, by
        show StdMap.find (StdMap.assign s.connections_ sock.socketDescriptor sock) a.2
          = some socket
        rw [StdMap.find_assign_ne _ _ _ _ hk]
        exact h2⟩
  | readyRead sock answer opens =>
    intro a ha
    have hc := (onReadyRead_frame fromJson s sock answer opens).1
    show ∃ socket, StdMap.find (s.onReadyRead fromJson sock answer opens).1.connections_ a.2
      = some socket
    rw [hc]
    rcases onReadyRead_addrs fromJson s sock answer opens a ha with h1 | h1
    · exact h a h1
    · exact ⟨sock, by rw [h1]; exact hen⟩
  | disconnected sock => exact foldl_dropConnection_addrsOK sock s.connections_ s h

/-- C8. In every reachable state (the server started, then connections
opened, bytes arrived on open connections, connections closed, in any order),
every entry of `addrs_` maps its address to a connection id that is a key of
`connections_`. -/
theorem C8_addrs_point_to_open_connections (fromJson : QByteArray → QJsonValue)
    (s : AtomEngineServer) (hr : Reachable fromJson s) :
    ∀ e ∈ s.addrs_, ∃ socket, StdMap.find s.connections_ e.2 = some socket := by
  induction hr with
  | run file opens =>
    obtain ⟨ops, h⟩ := load_store (AtomEngineServer.new file) opens
    rw [h, (runOps_registry _ ops).2.1]
    intro e he
    simp [AtomEngineServer.new] at he
  | step s e _ hen ih => exact handle_addrsOK fromJson s e ih hen


theorem sampleSession_reachable : Reachable sampleFromJson sampleSession :=
  Reachable.step _ (Event.newConnection ⟨8⟩)
    (Reachable.step _ (Event.readyRead ⟨7⟩ _ _)
      (Reachable.step _ (Event.newConnection ⟨7⟩) (Reachable.run [] true)
        (show (0 : Int) ≤ 7 by decide))
      (by rfl))
    (show (0 : Int) ≤ 8 by decide)

theorem sampleSession_eq :
    sampleSession =
      { curOrderId_ := 1
        curTradeId_ := 0
        orders_ := [(1, OrderInfo.make 1
          [("getAddress_", QJsonValue.string "addrA"), ("amt", QJsonValue.double 10)])]
        trades_ := []
        connections_ := [(7, ⟨7⟩), (8, ⟨8⟩)]
        buffers_ := [(7, [])]
        addrs_ := [("addrA", 7)]
        backupFile_ := [sampleCreateOrder] } := by
  rfl

/-- C8, at a concrete reachable state: after client 7 published an order from
`addrA` and client 8 connected, the one entry of `addrs_` points to 7, which
is open. -/
theorem C8_addrs_point_to_open_connections_witness :
    Reachable sampleFromJson sampleSession
    ∧ sampleSession.addrs_ = [("addrA", 7)]
    ∧ ∀ e ∈ sampleSession.addrs_, ∃ socket, StdMap.find sampleSession.connections_ e.2 = some socket :=
  ⟨sampleSession_reachable, by rfl,
    C8_addrs_point_to_open_connections sampleFromJson sampleSession sampleSession_reachable⟩

theorem dropConnection_registryOK (sock : QTcpSocket) (s : AtomEngineServer) (e : Int × QTcpSocket)
    (h : RegistryOK s) : RegistryOK (dropConnection sock s e) := by
  unfold dropConnection
  split_ifs with hs
  · exact ⟨StdMap.WF_erase _ _ h.1, fun a ha => h.2 a (StdMap.mem_erase _ _ a ha).1⟩
  · exact h

theorem foldl_dropConnection_registryOK (sock : QTcpSocket) (conns : List (Int × QTcpSocket))
    (s : AtomEngineServer) (h : RegistryOK s) :
    RegistryOK (conns.foldl (dropConnection sock) s) := by
  induction conns generalizing s with
  | nil => exact h
  | cons e rest ih => exact ih _ (dropConnection_registryOK sock s e h)

theorem handle_registryOK (fromJson : QByteArray → QJsonValue) (s : AtomEngineServer) (e : Event)
    (h : RegistryOK s) : RegistryOK (handle fromJson s e).1 := by
  cases e with
  | newConnection sock =>
    refine ⟨StdMap.WF_assign _ _ _ h.1, ?_⟩
    intro a ha
    rcases StdMap.mem_assign s.connections_ sock.socketDescriptor sock a ha with h1 | h1
    · exact h.2 a h1
    · rw [h1]
  | readyRead sock answer opens =>
    have hc := (onReadyRead_frame fromJson s sock answer opens).1
    unfold RegistryOK
    show StdMap.WF (s.onReadyRead fromJson sock answer opens).1.connections_
      ∧ ∀ e ∈ (s.onReadyRead fromJson sock answer opens).1.connections_, e.2.socketDescriptor = e.1
    rw [hc]
    exact h
  | disconnected sock => exact foldl_dropConnection_registryOK sock s.connections_ s h

/-- In every reachable state `connections_` is well formed and holds each
socket under its own descriptor. -/
theorem Reachable.registryOK {fromJson : QByteArray → QJsonValue} {s : AtomEngineServer}
    (h : Reachable fromJson s) : RegistryOK s := by
  induction h with
  | run file opens =>
    obtain ⟨ops, h⟩ := load_store (AtomEngineServer.new file) opens
    unfold RegistryOK
    rw [h, (runOps_registry _ ops).1]
    simp [AtomEngineServer.new, StdMap.WF, StdMap.keys]
  | step s e _ _ ih => exact handle_registryOK fromJson s e ih


/-! ## Fan-out -/

theorem received_writeToAll (conns : StdMap Int QTcpSocket) (keep : Int → Bool) (rep : Reply)
    (hwf : StdMap.WF conns) (hd : ∀ e ∈ conns, e.2.socketDescriptor = e.1) (x : QTcpSocket) :
    received x (writeToAll conns keep rep)
      = if (x.socketDescriptor, x) ∈ conns ∧ keep x.socketDescriptor = true then [rep] else [] := by
  induction conns with
  | nil => simp [writeToAll, received]
  | cons e0 rest ih =>
    obtain ⟨k0, s0⟩ := e0
    have hk0 : s0.socketDescriptor = k0 := hd (k0, s0) (List.mem_cons_self _ _)
    unfold StdMap.WF StdMap.keys at hwf ih
    simp only [List.map_cons, List.pairwise_cons] at hwf
    have ih2 := ih hwf.2 (fun e he => hd e (List.mem_cons_of_mem _ he))
    have hstep : received x (writeToAll ((k0, s0) :: rest) keep rep)
        = (if keep k0 = true then (if s0 = x then [rep] else []) else [])
          ++ received x (writeToAll rest keep rep) := by
      unfold writeToAll
      by_cases hkeep : keep k0 = true
      · by_cases hx : s0 = x <;> simp [List.filter, hkeep, received, hx]
      · simp [List.filter, hkeep]
    rw [hstep, ih2]
    by_cases hx : s0 = x
    · subst hx
      have hnot : (k0, s0) ∉ rest := by
        intro hmem
        exact lt_irrefl _ (hwf.1 k0 (List.mem_map_of_mem Prod.fst hmem))
      simp [hk0, hnot]
    · have hne : ¬ ((x.socketDescriptor, x) = (k0, s0)) := by
        intro h
        exact hx (Prod.mk.inj h).2.symm
      simp [hx, List.mem_cons, hne]

/-- C7 (amended). delete_order dispatch. For a reachable state, a sender
`sock` and a delete_order command for id: the sender receives exactly
delete_order_success carrying id; the order is removed when it was in the
table and nothing else changes in the order table; every other open
connection receives exactly one delete_order frame carrying id when the id
was in the order table and nothing otherwise; the log grows by exactly the
command line when the id was in the table and the log file opens for append,
and is unchanged otherwise. A second delete_order for the same id, right
after, only replies delete_order_success. -/
theorem C7_delete_order_dispatch (fromJson : QByteArray → QJsonValue) (s : AtomEngineServer)
    (sock : QTcpSocket) (doc : QJsonValue) (opens : Bool)
    (hr : Reachable fromJson s) (hobj : doc.isObject = true)
    (hcmd : (QJsonObject.get doc.toObject "command").toQString = "delete_order") :
    received sock (processCommand s sock doc opens).2
        = [Reply.delete_order_success (QJsonObject.get doc.toObject "id").toLongLong]
    ∧ (∀ e ∈ s.connections_, e.1 ≠ sock.socketDescriptor →
        received e.2 (processCommand s sock doc opens).2
          = if (StdMap.find s.orders_ (QJsonObject.get doc.toObject "id").toLongLong).isSome
            then [Reply.delete_order (QJsonObject.get doc.toObject "id").toLongLong] else [])
    ∧ appended (processCommand s sock doc opens).2
        = (if (StdMap.find s.orders_ (QJsonObject.get doc.toObject "id").toLongLong).isSome
              && opens then [doc] else [])
    ∧ (processCommand s sock doc opens).1.backupFile_
        = s.backupFile_ ++
          (if (StdMap.find s.orders_ (QJsonObject.get doc.toObject "id").toLongLong).isSome
              && opens then [doc] else [])
    ∧ StdMap.find (processCommand s sock doc opens).1.orders_
        (QJsonObject.get doc.toObject "id").toLongLong = none
    ∧ (∀ k, k ≠ (QJsonObject.get doc.toObject "id").toLongLong →
        StdMap.find (processCommand s sock doc opens).1.orders_ k = StdMap.find s.orders_ k)
    ∧ (∀ sock2 opens2,
        (processCommand (processCommand s sock doc opens).1 sock2 doc opens2).2
          = [Effect.write sock2
              (Reply.delete_order_success (QJsonObject.get doc.toObject "id").toLongLong)]) := by
  have hreg := hr.registryOK
  have hframe := processCommand_frame s sock doc opens
  have hnotin : ∀ e ∈ s.connections_, e.1 ≠ sock.socketDescriptor → ¬ e.2 = sock := by
    intro e he hne h
    exact hne (by rw [← hreg.2 e he, h])
  have hmem : ∀ e ∈ s.connections_, (e.2.socketDescriptor, e.2) ∈ s.connections_ := by
    intro e he
    have : (e.2.socketDescriptor, e.2) = e := by rw [hreg.2 e he]
    rw [this]
    exact he
  have hsecond : ∀ (s2 : AtomEngineServer) sock2 opens2,
      StdMap.find s2.orders_ (QJsonObject.get doc.toObject "id").toLongLong = none →
      (processCommand s2 sock2 doc opens2).2
        = [Effect.write sock2
            (Reply.delete_order_success (QJsonObject.get doc.toObject "id").toLongLong)] := by
    intro s2 sock2 opens2 hnone
    rw [processCommand_delete_order s2 sock2 doc opens2 hobj hcmd]
    simp [deleteOrderBlock, AtomEngineServer.deleteOrder, hnone]
  have hbf := hframe.2.2.1
  rw [processCommand_delete_order s sock doc opens hobj hcmd] at hbf ⊢
  cases hf : StdMap.find s.orders_ (QJsonObject.get doc.toObject "id").toLongLong with
  | none =>
    have hb : deleteOrderBlock s sock doc doc.toObject opens
        = (s, [Effect.write sock
            (Reply.delete_order_success (QJsonObject.get doc.toObject "id").toLongLong)]) := by
      simp [deleteOrderBlock, AtomEngineServer.deleteOrder, hf]
    rw [hb]
    refine ⟨by simp [received], ?_, by simp [appended], by simp, hf, fun _ _ => rfl, ?_⟩
    · intro e he hne
      have := hnotin e he hne
      have h2 : ¬ sock = e.2 := fun h => this h.symm
      simp [received, h2]
    · intro sock2 opens2
      exact hsecond s sock2 opens2 hf
  | some o =>
    have hb : deleteOrderBlock s sock doc doc.toObject opens
        = ({ s with
              orders_ := StdMap.erase s.orders_ (QJsonObject.get doc.toObject "id").toLongLong,
              backupFile_ := s.backupFile_ ++ (if opens then [doc] else []) },
           [Effect.write sock
              (Reply.delete_order_success (QJsonObject.get doc.toObject "id").toLongLong)]
            ++ (if opens then [Effect.append doc] else [])
            ++ writeToAll s.connections_ (fun k => decide (k ≠ sock.socketDescriptor))
                (Reply.delete_order (QJsonObject.get doc.toObject "id").toLongLong)) := by
      cases opens <;>
        simp [deleteOrderBlock, AtomEngineServer.deleteOrder, hf, AtomEngineServer.saveCommand]
    rw [hb]
    refine ⟨?_, ?_, ?_, ?_, StdMap.find_erase_self _ _,
      fun k hk => StdMap.find_erase_ne _ _ _ hk, ?_⟩
    · rw [received_append, received_append, received_writeToAll _ _ _ hreg.1 hreg.2]
      cases opens <;> simp [received]
    · intro e he hne
      have h2 : ¬ sock = e.2 := fun h => hnotin e he hne h.symm
      rw [received_append, received_append, received_writeToAll _ _ _ hreg.1 hreg.2]
      have h3 := hmem e he
      have h4 : ¬ e.2.socketDescriptor = sock.socketDescriptor := by
        rw [hreg.2 e he]; exact hne
      cases opens <;> simp [received, h2, h3, h4]
    · rw [appended_append, appended_append, appended_writeToAll]
      cases opens <;> simp [appended]
    · cases opens <;> simp
    · intro sock2 opens2
      exact hsecond _ sock2 opens2 (StdMap.find_erase_self _ _)


/-- C7, at a concrete state: clients 7, 8 and 9 are connected, order 1 is in
the table, the log file opens; client 7 deletes order 1. -/
theorem C7_delete_order_dispatch_witness :
    Reachable sampleFromJson sampleSession3
    ∧ sampleDeleteOrder.isObject = true
    ∧ (QJsonObject.get sampleDeleteOrder.toObject "command").toQString = "delete_order"
    ∧ received ⟨7⟩ (processCommand sampleSession3 ⟨7⟩ sampleDeleteOrder true).2
        = [Reply.delete_order_success 1]
    ∧ (processCommand sampleSession3 ⟨7⟩ sampleDeleteOrder true).1.backupFile_
        = [sampleCreateOrder, sampleDeleteOrder] :=
  ⟨Reachable.step _ (Event.newConnection ⟨9⟩) sampleSession_reachable
      (show (0 : Int) ≤ 9 by decide), rfl, rfl,
    (C7_delete_order_dispatch sampleFromJson sampleSession3 ⟨7⟩ sampleDeleteOrder true
      (Reachable.step _ (Event.newConnection ⟨9⟩) sampleSession_reachable
      (show (0 : Int) ≤ 9 by decide)) rfl rfl).1,
    (C7_delete_order_dispatch sampleFromJson sampleSession3 ⟨7⟩ sampleDeleteOrder true
      (Reachable.step _ (Event.newConnection ⟨9⟩) sampleSession_reachable
      (show (0 : Int) ≤ 9 by decide)) rfl rfl).2.2.2.1⟩

/-- C7 as stated fails when the log file cannot be opened for append: with
clients 7, 8, 9 connected and order 1 in the table, client 7 deletes order 1;
the id was in the table, 8 and 9 get the delete_order frame, yet no line is
appended. So "broadcast and one line appended iff the id was present" is
false. -/
theorem C7_counterexample :
    ¬ (((∀ e ∈ sampleSession3.connections_, e.1 ≠ 7 →
            received e.2 (processCommand sampleSession3 ⟨7⟩ sampleDeleteOrder false).2
              = [Reply.delete_order 1])
          ∧ (processCommand sampleSession3 ⟨7⟩ sampleDeleteOrder false).1.backupFile_
              = sampleSession3.backupFile_ ++ [sampleDeleteOrder])
        ↔ (StdMap.find sampleSession3.orders_ 1).isSome = true) := by
  intro h
  have h2 : ([sampleCreateOrder] : List QJsonValue) = [sampleCreateOrder, sampleDeleteOrder] :=
    (h.mpr rfl).2
  exact absurd (congrArg List.length h2) (by decide)

/-- C10 (amended). create_trade fan-out. In a reachable state, let a
create_trade from `sock` name an order o that is in the table, with the maker
address of o mapped in `addrs_` to connection m, m open and not the sender,
and let the command's address differ from the maker address. Then the sender
receives exactly create_trade_success, m receives exactly one frame, the
create_trade frame, and every other open connection receives exactly one
delete_order frame carrying the order id; all frames carry the new trade. -/
theorem C10_create_trade_fanout (fromJson : QByteArray → QJsonValue) (s : AtomEngineServer)
    (sock : QTcpSocket) (doc : QJsonValue) (opens : Bool) (o : OrderInfo) (m : Int)
    (msock : QTcpSocket)
    (hr : Reachable fromJson s) (hobj : doc.isObject = true)
    (hcmd : (QJsonObject.get doc.toObject "command").toQString = "create_trade")
    (ho : StdMap.find s.orders_ (QJsonObject.get doc.toObject "orderId").toLongLong = some o)
    (hm : StdMap.find s.addrs_ o.getAddress_ = some m)
    (hopen : StdMap.find s.connections_ m = some msock)
    (hms : m ≠ sock.socketDescriptor)
    (haddr : (QJsonObject.get doc.toObject "address").toQString ≠ o.getAddress_) :
    received sock (processCommand s sock doc opens).2
        = [Reply.create_trade_success (TradeInfo.make (s.curTradeId_ + 1) o
            (QJsonObject.get doc.toObject "address").toQString)]
    ∧ received msock (processCommand s sock doc opens).2
        = [Reply.create_trade (TradeInfo.make (s.curTradeId_ + 1) o
            (QJsonObject.get doc.toObject "address").toQString)]
    ∧ (∀ e ∈ s.connections_, e.1 ≠ sock.socketDescriptor → e.1 ≠ m →
        received e.2 (processCommand s sock doc opens).2
          = [Reply.delete_order (QJsonObject.get doc.toObject "orderId").toLongLong]) := by
  have hreg := hr.registryOK
  have hmd : msock.socketDescriptor = m := hreg.2 (m, msock) (StdMap.mem_of_find _ _ _ hopen)
  have hmsock : ¬ msock = sock := fun h => hms (by rw [← hmd, h])
  have hmsock2 : ¬ sock = msock := fun h => hmsock h.symm
  have hmmem : (msock.socketDescriptor, msock) ∈ s.connections_ := by
    rw [hmd]; exact StdMap.mem_of_find _ _ _ hopen
  have hfind : StdMap.find (StdMap.put s.addrs_ (QJsonObject.get doc.toObject "address").toQString
      sock.socketDescriptor) o.getAddress_ = some m := by
    rw [StdMap.find_put_ne _ _ _ _ (fun h => haddr h.symm)]
    exact hm
  rw [processCommand_create_trade s sock doc opens hobj hcmd]
  have hb : (createTradeBlock s sock doc doc.toObject opens).2
      = (if opens then [Effect.append doc] else [])
        ++ [Effect.write sock (Reply.create_trade_success (TradeInfo.make (s.curTradeId_ + 1) o
            (QJsonObject.get doc.toObject "address").toQString))]
        ++ [Effect.write msock (Reply.create_trade (TradeInfo.make (s.curTradeId_ + 1) o
            (QJsonObject.get doc.toObject "address").toQString))]
        ++ writeToAll s.connections_
            (fun k => decide (k ≠ sock.socketDescriptor) && decide (k ≠ m))
            (Reply.delete_order (QJsonObject.get doc.toObject "orderId").toLongLong) := by
    cases opens <;>
      simp [createTradeBlock, AtomEngineServer.createTrade, ho, AtomEngineServer.saveCommand,
        makerDelivery, TradeInfo.make, hfind, hopen, hms]
  rw [hb]
  simp only [received_append, received_writeToAll _ _ _ hreg.1 hreg.2]
  refine ⟨?_, ?_, ?_⟩
  · cases opens <;> simp [received, hmsock]
  · cases opens <;> simp [received, hmsock2, hmd]
  · intro e he hne1 hne2
    have hd := hreg.2 e he
    have h1 : ¬ sock = e.2 := fun h => hne1 (by rw [← hd, ← h])
    have h2 : ¬ msock = e.2 := fun h => hne2 (by rw [← hd, ← h, hmd])
    have h3 : (e.2.socketDescriptor, e.2) ∈ s.connections_ := by
      have : (e.2.socketDescriptor, e.2) = e := by rw [hd]
      rw [this]; exact he
    have h4 : ¬ e.2.socketDescriptor = sock.socketDescriptor := by rw [hd]; exact hne1
    have h5 : ¬ e.2.socketDescriptor = m := by rw [hd]; exact hne2
    cases opens <;> simp [received, h1, h2, h3, h4, h5]

/-- C10, at a concrete state: clients 7, 8, 9 are connected, order 1 was
published by 7 from `addrA`; client 8 accepts it from `addrB`. -/
theorem C10_create_trade_fanout_witness :
    Reachable sampleFromJson sampleSession3
    ∧ StdMap.find sampleSession3.addrs_ "addrA" = some 7
    ∧ StdMap.find sampleSession3.connections_ 7 = some ⟨7⟩
    ∧ received ⟨8⟩ (processCommand sampleSession3 ⟨8⟩ sampleCreateTrade true).2
        = [Reply.create_trade_success (TradeInfo.make 1 (OrderInfo.make 1
            [("getAddress_", QJsonValue.string "addrA"), ("amt", QJsonValue.double 10)]) "addrB")]
    ∧ received ⟨7⟩ (processCommand sampleSession3 ⟨8⟩ sampleCreateTrade true).2
        = [Reply.create_trade (TradeInfo.make 1 (OrderInfo.make 1
            [("getAddress_", QJsonValue.string "addrA"), ("amt", QJsonValue.double 10)]) "addrB")]
    ∧ received ⟨9⟩ (processCommand sampleSession3 ⟨8⟩ sampleCreateTrade true).2
        = [Reply.delete_order 1] :=
  ⟨Reachable.step _ (Event.newConnection ⟨9⟩) sampleSession_reachable
      (show (0 : Int) ≤ 9 by decide), rfl, rfl,
    (C10_create_trade_fanout sampleFromJson sampleSession3 ⟨8⟩ sampleCreateTrade true
      (OrderInfo.make 1 [("getAddress_", QJsonValue.string "addrA"), ("amt", QJsonValue.double 10)])
      7 ⟨7⟩ (Reachable.step _ (Event.newConnection ⟨9⟩) sampleSession_reachable
      (show (0 : Int) ≤ 9 by decide))
      rfl rfl rfl rfl rfl (by decide) (by decide)).1,
    (C10_create_trade_fanout sampleFromJson sampleSession3 ⟨8⟩ sampleCreateTrade true
      (OrderInfo.make 1 [("getAddress_", QJsonValue.string "addrA"), ("amt", QJsonValue.double 10)])
      7 ⟨7⟩ (Reachable.step _ (Event.newConnection ⟨9⟩) sampleSession_reachable
      (show (0 : Int) ≤ 9 by decide))
      rfl rfl rfl rfl rfl (by decide) (by decide)).2.1,
    (C10_create_trade_fanout sampleFromJson sampleSession3 ⟨8⟩ sampleCreateTrade true
      (OrderInfo.make 1 [("getAddress_", QJsonValue.string "addrA"), ("amt", QJsonValue.double 10)])
      7 ⟨7⟩ (Reachable.step _ (Event.newConnection ⟨9⟩) sampleSession_reachable
      (show (0 : Int) ≤ 9 by decide))
      rfl rfl rfl rfl rfl (by decide) (by decide)).2.2 (9, ⟨9⟩) (by simp [sampleSession3, sampleSession_eq, handle, AtomEngineServer.onNewConnection, StdMap.assign]) (by decide) (by decide)⟩

/-- C10 as stated fails when the taker names the maker's own address: order 1
was published by client 7 from `addrA`, which `addrs_` maps to 7 when the
command arrives, 7 is open and is not the sender 8; the create_trade succeeds
(8 receives create_trade_success), yet 7 receives delete_order and no
create_trade frame, because the command first claims `addrA` for 8. -/
theorem C10_counterexample :
    StdMap.find sampleSession3.addrs_ "addrA" = some 7
    ∧ StdMap.find sampleSession3.connections_ 7 = some ⟨7⟩
    ∧ (StdMap.find sampleSession3.orders_ 1).map (fun o => o.getAddress_) = some "addrA"
    ∧ received ⟨8⟩ (processCommand sampleSession3 ⟨8⟩ sampleCreateTradeMakerAddr true).2
        = [Reply.create_trade_success (TradeInfo.make 1 (OrderInfo.make 1
            [("getAddress_", QJsonValue.string "addrA"), ("amt", QJsonValue.double 10)]) "addrA")]
    ∧ received ⟨7⟩ (processCommand sampleSession3 ⟨8⟩ sampleCreateTradeMakerAddr true).2
        = [Reply.delete_order 1]
    ∧ ∀ t, received ⟨7⟩ (processCommand sampleSession3 ⟨8⟩ sampleCreateTradeMakerAddr true).2
        ≠ [Reply.create_trade t] := by
  refine ⟨rfl, rfl, rfl, rfl, rfl, ?_⟩
  intro t h
  have h2 : [Reply.delete_order 1] = [Reply.create_trade t] := h
  cases h2


/-! ## Framing -/

theorem split_ne_nil (x : QByteArray) : split x ≠ [] := by
  cases x with
  | nil => simp [split]
  | cons c rest =>
    unfold split
    split_ifs
    · simp
    · split <;> simp

theorem split_cons_LF (x : QByteArray) : split (LF :: x) = [] :: split x := by
  simp [split]

theorem split_cons_ne (c : UInt8) (x : QByteArray) (h : c ≠ LF) :
    ∃ p ps, split x = p :: ps ∧ split (c :: x) = (c :: p) :: ps := by
  cases hs : split x with
  | nil => exact absurd hs (split_ne_nil x)
  | cons p ps =>
    refine ⟨p, ps, rfl, ?_⟩
    rw [split]
    simp [h, hs]

/-- Splitting at a line feed: the pieces of what precedes it, then the
pieces of what follows it. -/
theorem split_append_LF (a b : QByteArray) : split (a ++ LF :: b) = split a ++ split b := by
  induction a with
  | nil => simp [split]
  | cons c rest ih =>
    by_cases h : c = LF
    · subst h
      rw [List.cons_append, split_cons_LF, split_cons_LF, ih, List.cons_append]
    · obtain ⟨p, ps, h1, h2⟩ := split_cons_ne c rest h
      obtain ⟨q, qs, h3, h4⟩ := split_cons_ne c (rest ++ LF :: b) h
      rw [List.cons_append, h4, h2]
      rw [ih, h1, List.cons_append] at h3
      cases h3
      rfl

theorem split_no_LF (b : QByteArray) (h : LF ∉ b) : split b = [b] := by
  induction b with
  | nil => rfl
  | cons c rest ih =>
    have hc : c ≠ LF := fun h2 => h (h2 ▸ List.mem_cons_self _ _)
    have hr : LF ∉ rest := fun h2 => h (List.mem_cons_of_mem _ h2)
    obtain ⟨p, ps, h1, h2⟩ := split_cons_ne c rest hc
    rw [ih hr] at h1
    cases h1
    exact h2

/-- Appending bytes only touches the last piece. -/
theorem split_append (x y : QByteArray) :
    split (x ++ y) = (split x).dropLast ++ split (lastPiece (split x) ++ y) := by
  induction x with
  | nil => simp [split, lastPiece]
  | cons c rest ih =>
    by_cases h : c = LF
    · subst h
      rw [List.cons_append, split_cons_LF, split_cons_LF, ih]
      cases hs : split rest with
      | nil => exact absurd hs (split_ne_nil rest)
      | cons p ps => simp [List.dropLast, lastPiece]
    · obtain ⟨p, ps, h1, h2⟩ := split_cons_ne c rest h
      obtain ⟨q, qs, h3, h4⟩ := split_cons_ne c (rest ++ y) h
      rw [List.cons_append, h4, h2]
      rw [ih, h1] at h3
      cases ps with
      | nil =>
        simp only [List.dropLast, lastPiece, List.nil_append] at h3 ⊢
        obtain ⟨q2, qs2, h5, h6⟩ := split_cons_ne c (p ++ y) h
        rw [List.cons_append, h6]
        rw [h5] at h3
        cases h3
        rfl
      | cons p2 ps2 =>
        simp only [List.dropLast, lastPiece, List.cons_append] at h3 ⊢
        cases h3
        rfl

theorem lastPiece_concat (l : List QByteArray) (b : QByteArray) :
    lastPiece (l ++ [b]) = b := by
  induction l with
  | nil => rfl
  | cons p rest ih =>
    cases rest with
    | nil => rfl
    | cons q r => simpa [lastPiece] using ih

theorem lastIndexOf_spec (x : QByteArray) :
    (LF ∉ x ∧ lastIndexOf x = -1)
    ∨ ∃ a b, x = a ++ LF :: b ∧ LF ∉ b ∧ lastIndexOf x = (a.length : Int) := by
  induction x with
  | nil => exact Or.inl ⟨by simp, rfl⟩
  | cons c rest ih =>
    rcases ih with ⟨h1, h2⟩ | ⟨a, b, h1, h2, h3⟩
    · by_cases hc : c = LF
      · subst hc
        exact Or.inr ⟨[], rest, rfl, h1, by simp [lastIndexOf, h2]⟩
      · refine Or.inl ⟨?_, by simp [lastIndexOf, h2, hc]⟩
        intro hm
        rcases List.mem_cons.mp hm with h | h
        · exact hc h.symm
        · exact h1 h
    · refine Or.inr ⟨c :: a, b, by rw [h1]; rfl, h2, ?_⟩
      have hnn : (0 : Int) ≤ (a.length : Int) := Int.natCast_nonneg _
      simp [lastIndexOf, h3, hnn]

/-- What `frame` computes: nothing without a line feed; otherwise the pieces
before the last line feed and the bytes after it. -/
theorem frame_spec (x : QByteArray) :
    (LF ∉ x ∧ frame x = none)
    ∨ ∃ a b, x = a ++ LF :: b ∧ LF ∉ b ∧ frame x = some (split a, b) := by
  rcases lastIndexOf_spec x with ⟨h1, h2⟩ | ⟨a, b, h1, h2, h3⟩
  · exact Or.inl ⟨h1, by simp [frame, h2]⟩
  · refine Or.inr ⟨a, b, h1, h2, ?_⟩
    have hnn : ¬ ((a.length : Int) < 0) := by omega
    have hlen : x.length = a.length + (b.length + 1) := by rw [h1]; simp
    unfold frame
    simp only [h3, hnn, if_false]
    have hleft : left x (a.length : Int) = a := by
      simp [left, h1]
    have hcount : ((x.length : Int) - (a.length : Int) - 1) = (b.length : Int) := by
      rw [hlen]; push_cast; ring
    rw [hleft, hcount]
    cases b with
    | nil => simp
    | cons c bs =>
      have hpos : ((c :: bs).length : Int) > 0 := by
        have : (0 : Int) ≤ (bs.length : Int) := Int.natCast_nonneg _
        simp only [List.length_cons]
        push_cast
        omega
      simp only [hpos, if_true]
      have : right x ((c :: bs).length : Int) = c :: bs := by
        unfold right
        rw [hlen, h1]
        have e : a ++ LF :: c :: bs = (a ++ [LF]) ++ (c :: bs) := by simp
        rw [e]
        have hidx : a.length + ((c :: bs).length + 1) - ((c :: bs).length : Int).toNat
            = (a ++ [LF]).length := by
          simp only [Int.toNat_ofNat, List.length_append, List.length_cons, List.length_nil]
          omega
        rw [hidx, List.drop_left]
      rw [this]

/-- One arrival, in terms of the pieces of the buffer after the append. -/
theorem arrive_spec (buffer answer : QByteArray) :
    arrive buffer answer
      = (((split (buffer ++ answer)).dropLast).filter (fun c => decide (c.length ≠ 0)),
         lastPiece (split (buffer ++ answer))) := by
  unfold arrive
  rcases frame_spec (buffer ++ answer) with ⟨h1, h2⟩ | ⟨a, b, h1, h2, h3⟩
  · rw [h2, split_no_LF _ h1]
    simp [List.dropLast, lastPiece]
  · rw [h3]
    simp only []
    rw [h1, split_append_LF, split_no_LF b h2, List.dropLast_concat, lastPiece_concat]


theorem lastPiece_append (l l2 : List QByteArray) (h : l2 ≠ []) :
    lastPiece (l ++ l2) = lastPiece l2 := by
  induction l with
  | nil => rfl
  | cons p rest ih =>
    cases hr : rest ++ l2 with
    | nil =>
      have : l2 = [] := (List.append_eq_nil.mp hr).2
      exact absurd this h
    | cons q r =>
      rw [List.cons_append, hr]
      rw [hr] at ih
      simpa [lastPiece] using ih

theorem lastPiece_split_no_LF (x : QByteArray) : LF ∉ lastPiece (split x) := by
  rcases lastIndexOf_spec x with ⟨h1, _⟩ | ⟨a, b, h1, h2, _⟩
  · rw [split_no_LF x h1]
    exact h1
  · rw [h1, split_append_LF, split_no_LF b h2, lastPiece_concat]
    exact h2

theorem arriveAll_spec (chunks : List QByteArray) (buffer : QByteArray) (h : LF ∉ buffer) :
    arriveAll buffer chunks
      = (((split (buffer ++ chunks.flatten)).dropLast).filter (fun c => decide (c.length ≠ 0)),
         lastPiece (split (buffer ++ chunks.flatten))) := by
  induction chunks generalizing buffer with
  | nil =>
    simp only [arriveAll, List.flatten_nil, List.append_nil]
    rw [split_no_LF buffer h]
    simp [List.dropLast, lastPiece]
  | cons c rest ih =>
    simp only [arriveAll, arrive_spec, List.flatten_cons]
    rw [ih _ (lastPiece_split_no_LF (buffer ++ c))]
    rw [← List.append_assoc buffer c rest.flatten, split_append (buffer ++ c) rest.flatten]
    have hne := split_ne_nil (lastPiece (split (buffer ++ c)) ++ rest.flatten)
    rw [List.dropLast_append_of_ne_nil _ hne, lastPiece_append _ _ hne, List.filter_append]

/-- Empty lines are skipped: the loop of `onReadyRead` does the same on the
list of commands and on its non-empty members (log file state constant). -/
theorem processLines_filter (fromJson : QByteArray → QJsonValue) (sock : QTcpSocket)
    (opens : Bool) (s : AtomEngineServer) (i j : Nat) (commands : List QByteArray) :
    processLines fromJson sock (fun _ => opens) s i commands
      = processLines fromJson sock (fun _ => opens) s j
          (commands.filter (fun c => decide (c.length ≠ 0))) := by
  induction commands generalizing s i j with
  | nil => rfl
  | cons c rest ih =>
    by_cases hc : c.length = 0
    · have hf : List.filter (fun c => decide (c.length ≠ 0)) (c :: rest)
          = List.filter (fun c => decide (c.length ≠ 0)) rest := by
        simp [List.filter, hc]
      rw [hf]
      conv_lhs => unfold processLines
      simp only [hc, if_true]
      exact ih s (i + 1) j
    · have hf : List.filter (fun c => decide (c.length ≠ 0)) (c :: rest)
          = c :: List.filter (fun c => decide (c.length ≠ 0)) rest := by
        simp [List.filter, hc]
      rw [hf]
      conv_lhs => unfold processLines
      conv_rhs => unfold processLines
      simp only [hc, if_false]
      rw [ih _ (i + 1) (j + 1)]

/-- The slot `onReadyRead` hands to the parser exactly the lines of `arrive`, in
order, and leaves the buffer of `arrive`. -/
theorem onReadyRead_arrive (fromJson : QByteArray → QJsonValue) (s : AtomEngineServer)
    (sock : QTcpSocket) (answer : QByteArray) (opens : Bool) :
    s.onReadyRead fromJson sock answer (fun _ => opens)
      = processLines fromJson sock (fun _ => opens)
          { s with buffers_ := (StdMap.assign s.buffers_ sock.socketDescriptor
              (arrive ((StdMap.find s.buffers_ sock.socketDescriptor).getD []) answer).2) }
          0 (arrive ((StdMap.find s.buffers_ sock.socketDescriptor).getD []) answer).1 := by
  unfold AtomEngineServer.onReadyRead arrive
  simp only []
  cases hf : frame ((StdMap.find s.buffers_ sock.socketDescriptor).getD [] ++ answer) with
  | none => simp [processLines]
  | some r =>
    obtain ⟨commands, remainder⟩ := r
    simp only []
    exact processLines_filter fromJson sock opens _ 0 0 commands

/-- After `onReadyRead` the buffer of the connection is the one `arrive`
leaves, whatever the commands of the lines do. -/
theorem onReadyRead_buffer (fromJson : QByteArray → QJsonValue) (s : AtomEngineServer)
    (sock : QTcpSocket) (answer : QByteArray) (opens : Nat → Bool) :
    StdMap.find (s.onReadyRead fromJson sock answer opens).1.buffers_ sock.socketDescriptor
      = some (arrive ((StdMap.find s.buffers_ sock.socketDescriptor).getD []) answer).2 := by
  unfold AtomEngineServer.onReadyRead arrive
  simp only []
  cases hf : frame ((StdMap.find s.buffers_ sock.socketDescriptor).getD [] ++ answer) with
  | none => exact StdMap.find_assign_self _ _ _
  | some r =>
    obtain ⟨commands, remainder⟩ := r
    simp only []
    rw [(processLines_frame fromJson sock opens _ 0 commands).2.1]
    exact StdMap.find_assign_self _ _ _

/-- C9. Framing does not depend on how the bytes are chunked. For every list
of successive arrivals on a fresh connection (empty buffer), the non-empty
lines handed to the parser, in order, and the buffer left at the end are the
same as when the concatenation of the arrivals comes at once: if the whole
string has no line feed, no line is handed over and the buffer is the whole
string; if it is a ++ LF ++ b with no line feed in b, the lines are the
non-empty pieces of a between line feeds and the buffer is b. -/
theorem C9_framing_independent_of_chunking (chunks : List QByteArray) :
    arriveAll [] chunks = arrive [] chunks.flatten
    ∧ (LF ∉ chunks.flatten → arriveAll [] chunks = ([], chunks.flatten))
    ∧ (∀ a b, chunks.flatten = a ++ LF :: b → LF ∉ b →
        arriveAll [] chunks = ((split a).filter (fun c => decide (c.length ≠ 0)), b)) := by
  have h := arriveAll_spec chunks [] (by simp)
  rw [List.nil_append] at h
  refine ⟨?_, ?_, ?_⟩
  · rw [h, arrive_spec, List.nil_append]
  · intro hno
    rw [h, split_no_LF _ hno]
    simp [List.dropLast, lastPiece]
  · intro a b hab hb
    rw [h, hab, split_append_LF, split_no_LF b hb, List.dropLast_concat, lastPiece_concat]

/-- C9, at a concrete input: the string "ab\n\ncd\nef" arriving as "a",
"b\n\nc", "d\ne", "f" hands over the lines "ab" and "cd" and leaves "ef". -/
theorem C9_framing_independent_of_chunking_witness :
    ([[97], [98, 10, 10, 99], [100, 10, 101], [102]] : List QByteArray).flatten
      = [97, 98, 10, 10, 99, 100] ++ LF :: [101, 102]
    ∧ LF ∉ ([101, 102] : QByteArray)
    ∧ arriveAll [] [[97], [98, 10, 10, 99], [100, 10, 101], [102]]
      = ((split [97, 98, 10, 10, 99, 100]).filter (fun c => decide (c.length ≠ 0)), [101, 102])
    ∧ (split [97, 98, 10, 10, 99, 100]).filter (fun c => decide (c.length ≠ 0))
      = [[97, 98], [99, 100]] :=
  ⟨by decide, by decide,
    (C9_framing_independent_of_chunking [[97], [98, 10, 10, 99], [100, 10, 101], [102]]).2.2
      [97, 98, 10, 10, 99, 100] [101, 102] (by decide) (by decide),
    by decide⟩


/-! ## Recovery -/

/-- With the log file open, a command either appends its own line, or appends
nothing and leaves the Entity Store as it was. -/
theorem processCommand_logged (s : AtomEngineServer) (sock : QTcpSocket) (doc : QJsonValue) :
    appended (processCommand s sock doc true).2 = [doc]
    ∨ (appended (processCommand s sock doc true).2 = []
        ∧ sameStore (runOps s (storeOps doc)) s) := by
  by_cases h : doc.isObject = true
  swap
  · have h2 : doc.isObject = false := by simpa using h
    rw [processCommand_not_object s sock doc true h2]
    exact Or.inr ⟨rfl, by simp [storeOps, h2, runOps, sameStore_refl]⟩
  by_cases h1 : (QJsonObject.get doc.toObject "command").toQString = "init"
  · rw [processCommand_init s sock doc true h h1]
    exact Or.inr ⟨by simp [initBlock, appended], by simp [storeOps, h, h1, runOps, sameStore_refl]⟩
  by_cases h2 : (QJsonObject.get doc.toObject "command").toQString = "request_swap_commission"
  · rw [processCommand_request_swap_commission s sock doc true h h2]
    exact Or.inr ⟨by simp [requestSwapCommissionBlock, appended],
      by simp [storeOps, h, h2, runOps, sameStore_refl]⟩
  by_cases h3 : (QJsonObject.get doc.toObject "command").toQString = "create_order"
  · rw [processCommand_create_order s sock doc true h h3]
    exact Or.inl (by
      simp [createOrderBlock, AtomEngineServer.saveCommand, appended, appended_append,
        appended_writeToAll])
  by_cases h4 : (QJsonObject.get doc.toObject "command").toQString = "delete_order"
  · rw [processCommand_delete_order s sock doc true h h4]
    cases hf : StdMap.find s.orders_ (QJsonObject.get doc.toObject "id").toLongLong with
    | none =>
      exact Or.inr ⟨by simp [deleteOrderBlock, AtomEngineServer.deleteOrder, hf, appended],
        by simp [storeOps, h, h4, runOps, StoreOp.run, AtomEngineServer.deleteOrder, hf,
          sameStore_refl]⟩
    | some o =>
      exact Or.inl (by
        simp [deleteOrderBlock, AtomEngineServer.deleteOrder, hf, AtomEngineServer.saveCommand,
          appended, appended_append, appended_writeToAll])
  by_cases h5 : (QJsonObject.get doc.toObject "command").toQString = "create_trade"
  · rw [processCommand_create_trade s sock doc true h h5]
    cases hf : StdMap.find s.orders_ (QJsonObject.get doc.toObject "orderId").toLongLong with
    | none =>
      exact Or.inr ⟨by simp [createTradeBlock, AtomEngineServer.createTrade, hf, appended],
        by simp [storeOps, h, h5, runOps, StoreOp.run, AtomEngineServer.createTrade, hf,
          sameStore_refl]⟩
    | some o =>
      exact Or.inl (by
        simp [createTradeBlock, AtomEngineServer.createTrade, hf, AtomEngineServer.saveCommand,
          appended, appended_append, appended_writeToAll, appended_makerDelivery])
  by_cases h6 : (QJsonObject.get doc.toObject "command").toQString = "update_trade"
  · rw [processCommand_update_trade s sock doc true h h6]
    cases hf : StdMap.find s.trades_
        (QJsonObject.get (QJsonObject.get doc.toObject "trade").toObject "id").toLongLong with
    | none =>
      exact Or.inr ⟨by simp [updateTradeBlock, AtomEngineServer.updateTrade, hf, appended],
        by simp [storeOps, h, h6, runOps, StoreOp.run, AtomEngineServer.updateTrade, hf,
          sameStore_refl]⟩
    | some t =>
      refine Or.inl ?_
      simp only [updateTradeBlock, AtomEngineServer.updateTrade, hf,
        AtomEngineServer.saveCommand, if_true, appended_append, appended]
      split_ifs
      · split <;> simp [appended]
      · simp [appended]
  · rw [processCommand_other s sock doc true h1 h2 h3 h4 h5 h6]
    exact Or.inr ⟨rfl, by simp [storeOps, h, h1, h2, h3, h4, h5, h6, runOps, sameStore_refl]⟩

theorem replayStore_append (lines : List QJsonValue) (doc : QJsonValue) :
    replayStore (lines ++ [doc])
      = runOps (replayStore lines) (storeOps (QJsonValue.viaLatin1 doc)) := by
  simp [replayStore, List.flatMap_append, runOps_append]

/-- One command keeps "the log replays to the live store", when the log file
opens and the lines of the log come back from the file as they were. -/
theorem processCommand_replay (s : AtomEngineServer) (sock : QTcpSocket) (doc : QJsonValue)
    (hinv : sameStore (replayStore s.backupFile_) s)
    (hfix : ∀ d ∈ (processCommand s sock doc true).1.backupFile_, QJsonValue.viaLatin1 d = d) :
    sameStore (replayStore (processCommand s sock doc true).1.backupFile_)
      (processCommand s sock doc true).1 := by
  obtain ⟨_, _, hlog, hstore⟩ := processCommand_frame s sock doc true
  rcases processCommand_logged s sock doc with h | ⟨h, hsame⟩
  · rw [h] at hlog
    have hd : QJsonValue.viaLatin1 doc = doc := hfix doc (by rw [hlog]; simp)
    rw [hlog, replayStore_append, hd]
    exact sameStore_trans (runOps_sameStore hinv _) (sameStore_symm hstore)
  · rw [h, List.append_nil] at hlog
    rw [hlog]
    exact sameStore_trans hinv (sameStore_trans (sameStore_symm hsame) (sameStore_symm hstore))

theorem processLines_replay (fromJson : QByteArray → QJsonValue) (sock : QTcpSocket)
    (opens : Nat → Bool) (hopens : ∀ i, opens i = true) (s : AtomEngineServer) (i : Nat)
    (commands : List QByteArray)
    (hinv : sameStore (replayStore s.backupFile_) s)
    (hfix : ∀ d ∈ (processLines fromJson sock opens s i commands).1.backupFile_,
      QJsonValue.viaLatin1 d = d) :
    sameStore (replayStore (processLines fromJson sock opens s i commands).1.backupFile_)
      (processLines fromJson sock opens s i commands).1 := by
  induction commands generalizing s i with
  | nil => exact hinv
  | cons c rest ih =>
    unfold processLines at hfix ⊢
    by_cases hc : c.length = 0
    · simp only [hc, if_true] at hfix ⊢
      exact ih s (i + 1) hinv hfix
    · simp only [hc, if_false] at hfix ⊢
      rw [hopens i] at hfix ⊢
      have hpre := (processLines_frame fromJson sock opens
        (processCommand s sock (fromJson c) true).1 (i + 1) rest).2.2.1
      apply ih _ (i + 1) _ hfix
      apply processCommand_replay s sock (fromJson c) hinv
      intro d hd
      apply hfix d
      rw [hpre]
      exact List.mem_append_left _ hd

theorem handle_replay (fromJson : QByteArray → QJsonValue) (s : AtomEngineServer) (e : Event)
    (hopens : appendsSucceed [e])
    (hinv : sameStore (replayStore s.backupFile_) s)
    (hfix : ∀ d ∈ (handle fromJson s e).1.backupFile_, QJsonValue.viaLatin1 d = d) :
    sameStore (replayStore (handle fromJson s e).1.backupFile_) (handle fromJson s e).1 := by
  cases e with
  | newConnection sock => exact hinv
  | readyRead sock answer opens =>
    simp only [handle, AtomEngineServer.onReadyRead] at hfix ⊢
    cases hf : frame ((StdMap.find s.buffers_ sock.socketDescriptor).getD [] ++ answer) with
    | none => exact hinv
    | some r =>
      obtain ⟨commands, remainder⟩ := r
      rw [hf] at hfix
      exact processLines_replay fromJson sock opens hopens.1
        { s with buffers_ := StdMap.assign s.buffers_ sock.socketDescriptor remainder } 0
        commands hinv hfix
  | disconnected sock =>
    have h := foldl_dropConnection_store sock s.connections_ s
    simp only [handle, AtomEngineServer.onClientDisconnected]
    rw [h.2]
    exact sameStore_trans hinv (sameStore_symm h.1)

theorem runEvents_log (fromJson : QByteArray → QJsonValue) (s : AtomEngineServer)
    (es : List Event) : ∃ l, (runEvents fromJson s es).backupFile_ = s.backupFile_ ++ l := by
  induction es generalizing s with
  | nil => exact ⟨[], by simp [runEvents]⟩
  | cons e es ih =>
    obtain ⟨l, hl⟩ := ih (handle fromJson s e).1
    exact ⟨appended (handle fromJson s e).2 ++ l, by
      rw [runEvents, hl, (handle_frame fromJson s e).1, List.append_assoc]⟩

theorem runEvents_replay (fromJson : QByteArray → QJsonValue) (s : AtomEngineServer)
    (es : List Event) (hopens : appendsSucceed es)
    (hinv : sameStore (replayStore s.backupFile_) s)
    (hfix : ∀ d ∈ (runEvents fromJson s es).backupFile_, QJsonValue.viaLatin1 d = d) :
    sameStore (replayStore (runEvents fromJson s es).backupFile_) (runEvents fromJson s es) := by
  induction es generalizing s with
  | nil => exact hinv
  | cons e es ih =>
    have h1 : appendsSucceed [e] ∧ appendsSucceed es := by
      cases e <;> simp_all [appendsSucceed]
    obtain ⟨l, hl⟩ := runEvents_log fromJson (handle fromJson s e).1 es
    apply ih _ h1.2 _ hfix
    apply handle_replay fromJson s e h1.1 hinv
    intro d hd
    apply hfix d
    rw [runEvents, hl]
    exact List.mem_append_left _ hd

/-- Recovery round trip, for logs that the file gives back as written. For
every sequence of events served from an empty engine and an empty log, with
every log append succeeding: if every line of the resulting log is read back
from the file as the document that was saved (true when its strings have no
character above U+007F), then `load` on a fresh engine over that log yields
the order table, the trade table and the two counters of the live engine;
and the next order and trade ids issued after recovery are those the live
engine would issue. -/
theorem load_recovers_live (fromJson : QByteArray → QJsonValue) (es : List Event)
    (hopens : appendsSucceed es)
    (hfix : ∀ d ∈ (runEvents fromJson (AtomEngineServer.new []) es).backupFile_,
      QJsonValue.viaLatin1 d = d) :
    sameStore
      ((AtomEngineServer.new (runEvents fromJson (AtomEngineServer.new []) es).backupFile_).load
        true).2
      (runEvents fromJson (AtomEngineServer.new []) es) := by
  have h := runEvents_replay fromJson (AtomEngineServer.new []) es hopens
    (by simp [replayStore, AtomEngineServer.new, runOps, sameStore_refl]) hfix
  refine sameStore_trans ?_ h
  simp only [AtomEngineServer.load, if_true]
  rw [foldl_replay_eq]
  have hs : sameStore
      (AtomEngineServer.new (runEvents fromJson (AtomEngineServer.new []) es).backupFile_)
      (AtomEngineServer.new []) := ⟨rfl, rfl, rfl, rfl⟩
  exact runOps_sameStore hs _

/-- The round trip at a concrete execution: client 7 publishes an order from
`addrA`, client 8 connects; the log replays to the live store. -/
theorem load_recovers_live_witness :
    sameStore ((AtomEngineServer.new sampleSession.backupFile_).load true).2 sampleSession :=
  load_recovers_live sampleFromJson
    [Event.newConnection ⟨7⟩,
     Event.readyRead ⟨7⟩
        (bytesOf "\x7b\"command\":\"create_order\",\"order\":\x7b\"getAddress_\":\"addrA\",\"amt\":10\x7d\x7d\n")
        (fun _ => true),
     Event.newConnection ⟨8⟩]
    ⟨fun _ => rfl, trivial⟩
    (by
      intro d hd
      have h2 : d ∈ [sampleCreateOrder] := hd
      rw [List.mem_singleton] at h2
      subst h2
      rfl)

/-- C1 fails on the code for a payload with a character above U+007F. Client
7 publishes an order whose address is "é" on an empty engine and log; every
append succeeds. The live order 1 has address "é"; `load` on a fresh engine
over the resulting log has order 1 with address "Ã©" (the two UTF-8 bytes of
"é" read as Latin-1), so the recovered order table differs from the live
one. The counters are recovered. -/
theorem C1_recovery_differs_on_non_ascii :
    sampleAccentSession.backupFile_ = [sampleCreateOrderAccent]
    ∧ (StdMap.find sampleAccentSession.orders_ 1).map (fun o => o.getAddress_) = some "é"
    ∧ (StdMap.find ((AtomEngineServer.new sampleAccentSession.backupFile_).load true).2.orders_ 1).map
        (fun o => o.getAddress_) = some "Ã©"
    ∧ ((AtomEngineServer.new sampleAccentSession.backupFile_).load true).2.orders_
        ≠ sampleAccentSession.orders_
    ∧ ((AtomEngineServer.new sampleAccentSession.backupFile_).load true).2.curOrderId_
        = sampleAccentSession.curOrderId_ := by
  refine ⟨rfl, rfl, rfl, ?_, rfl⟩
  intro h
  have h2 : (StdMap.find ((AtomEngineServer.new sampleAccentSession.backupFile_).load true).2.orders_
      1).map (fun o => o.getAddress_)
      = (StdMap.find sampleAccentSession.orders_ 1).map (fun o => o.getAddress_) := by rw [h]
  have h3 : (some "Ã©" : Option String) = some "é" := h2
  exact absurd h3 (by decide)


/-! ## Concrete instances of the primitive postconditions -/

/-- C3, at a concrete state: order 1 (from `addrA`) is in the table and is
accepted from `addrB`; the trade gets id 1 and order 1 leaves the table. -/
theorem C3_createTrade_postcondition_witness :
    StdMap.find sampleSession.orders_ 1
      = some (OrderInfo.make 1
          [("getAddress_", QJsonValue.string "addrA"), ("amt", QJsonValue.double 10)])
    ∧ ∃ t, (sampleSession.createTrade 1 "addrB").1 = some t
        ∧ t.id_ = sampleSession.curTradeId_ + 1
        ∧ t.order_ = OrderInfo.make 1
            [("getAddress_", QJsonValue.string "addrA"), ("amt", QJsonValue.double 10)]
        ∧ t.initiatorAddress_ = "addrB"
        ∧ t = TradeInfo.make (sampleSession.curTradeId_ + 1) (OrderInfo.make 1
            [("getAddress_", QJsonValue.string "addrA"), ("amt", QJsonValue.double 10)]) "addrB"
        ∧ StdMap.find (sampleSession.createTrade 1 "addrB").2.orders_ 1 = none
        ∧ (∀ k, k ≠ 1 →
            StdMap.find (sampleSession.createTrade 1 "addrB").2.orders_ k
              = StdMap.find sampleSession.orders_ k)
        ∧ (sampleSession.createTrade 1 "addrB").2.curTradeId_ = sampleSession.curTradeId_ + 1
        ∧ (sampleSession.createTrade 1 "addrB").2.curOrderId_ = sampleSession.curOrderId_
        ∧ StdMap.find (sampleSession.createTrade 1 "addrB").2.trades_
            (sampleSession.curTradeId_ + 1) = some t
        ∧ (∀ k, k ≠ sampleSession.curTradeId_ + 1 →
            StdMap.find (sampleSession.createTrade 1 "addrB").2.trades_ k
              = StdMap.find sampleSession.trades_ k) :=
  ⟨rfl, (C3_createTrade_postcondition sampleSession 1 "addrB").1 _ rfl⟩

/-- C5, at a concrete state: trade 1 has its secret hash set and the
initiator flag true; an update that carries only the flag, false, erases the
hash and keeps the flag. -/
theorem C5_updateTrade_postcondition_witness :
    ∃ u, (((AtomEngineServer.new
          [sampleCreateOrder, sampleCreateTrade, sampleUpdateTradePaid]).load true).2.updateTrade
          [("id", QJsonValue.double 1), ("commissionInitiatorPaid", QJsonValue.bool false)]).1
        = some u
      ∧ u.secretHash_ = "" ∧ u.initiatorCommissionPaid_ = true
      ∧ u.participantCommissionPaid_ = false ∧ u.initiatorAddress_ = "addrB" := by
  obtain ⟨u, h1, _, h3, _, _, _, _, _, _, h10, h11, _, _, h14, _⟩ :=
    (C5_updateTrade_postcondition
      ((AtomEngineServer.new
        [sampleCreateOrder, sampleCreateTrade, sampleUpdateTradePaid]).load true).2
      [("id", QJsonValue.double 1), ("commissionInitiatorPaid", QJsonValue.bool false)]).1
      { TradeInfo.make 1 (OrderInfo.make 1
          [("getAddress_", QJsonValue.string "addrA"), ("amt", QJsonValue.double 10)]) "addrB" with
        secretHash_ := "h", initiatorCommissionPaid_ := true }
      rfl
  exact ⟨u, h1, h3, h10, h11, h14⟩


/-! ## Induction over executions -/

/-- A property of the Entity Store that holds on a fresh engine and is kept
by every primitive call holds in every reachable state. -/
theorem Reachable.store_induction {fromJson : QByteArray → QJsonValue} {s : AtomEngineServer}
    (P : AtomEngineServer → Prop) (hnew : ∀ file, P (AtomEngineServer.new file))
    (hcongr : ∀ a b, sameStore a b → P a → P b)
    (hop : ∀ a (op : StoreOp), P a → P (op.run a))
    (h : Reachable fromJson s) : P s := by
  have hops : ∀ (ops : List StoreOp) a, P a → P (runOps a ops) := by
    intro ops
    induction ops with
    | nil => exact fun a ha => ha
    | cons op ops ih => exact fun a ha => ih (op.run a) (hop a op ha)
  induction h with
  | run file opens =>
    obtain ⟨ops, h⟩ := load_store (AtomEngineServer.new file) opens
    rw [h]
    exact hops ops _ (hnew file)
  | step s e _ _ ih =>
    obtain ⟨ops, h⟩ := (handle_frame fromJson s e).2
    exact hcongr _ _ (sameStore_symm h) (hops ops s ih)

/-- A property of the Entity Store that is kept by every primitive call is
kept by every sequence of events. -/
theorem runEvents_store_induction (fromJson : QByteArray → QJsonValue) (s : AtomEngineServer)
    (es : List Event) (P : AtomEngineServer → Prop)
    (hcongr : ∀ a b, sameStore a b → P a → P b)
    (hop : ∀ a (op : StoreOp), P a → P (op.run a))
    (h : P s) : P (runEvents fromJson s es) := by
  have hops : ∀ (ops : List StoreOp) a, P a → P (runOps a ops) := by
    intro ops
    induction ops with
    | nil => exact fun a ha => ha
    | cons op ops ih => exact fun a ha => ih (op.run a) (hop a op ha)
  obtain ⟨ops, hs⟩ := runEvents_store fromJson s es
  exact hcongr _ _ (sameStore_symm hs) (hops ops s h)

theorem StoreOK_congr (a b : AtomEngineServer) (h : sameStore a b) (hi : StoreOK a) :
    StoreOK b := by
  obtain ⟨h1, h2, h3, h4⟩ := h
  unfold StoreOK StoreInv StoreWF TradeInv TradesFull at *
  rw [← h1, ← h2, ← h3, ← h4]
  exact hi

theorem StoreOK_new (file : List QJsonValue) : StoreOK (AtomEngineServer.new file) := by
  refine ⟨StoreInv_new file, ?_, ?_, ?_⟩
  · simp [StoreWF, AtomEngineServer.new, StdMap.WF, StdMap.keys]
  · refine ⟨?_, ?_⟩
    · intro j t h
      simp [AtomEngineServer.new, StdMap.find] at h
    · intro j1 j2 t1 t2 h
      simp [AtomEngineServer.new, StdMap.find] at h
  · intro k h1 h2
    simp only [AtomEngineServer.new] at h2
    omega

theorem find_erase_none {V : Type} (m : StdMap Int V) (k x : Int)
    (h : StdMap.find m x = none) : StdMap.find (StdMap.erase m k) x = none := by
  by_cases hx : x = k
  · subst hx
    exact StdMap.find_erase_self _ _
  · rw [StdMap.find_erase_ne _ _ _ hx]
    exact h

theorem StoreOp.run_storeOK (s : AtomEngineServer) (op : StoreOp) (hi : StoreOK s) :
    StoreOK (op.run s) := by
  obtain ⟨hinv, hwf, htr, hfull⟩ := hi
  refine ⟨(StoreOp.run_inv s op hinv).1, ?_, ?_, ?_⟩
  · -- both tables stay well formed
    cases op with
    | createOrder orderJson =>
      exact ⟨StdMap.WF_assign _ _ _ hwf.1, hwf.2⟩
    | deleteOrder oid =>
      simp only [StoreOp.run, AtomEngineServer.deleteOrder]
      cases hf : StdMap.find s.orders_ oid with
      | none => exact hwf
      | some o => exact ⟨StdMap.WF_erase _ _ hwf.1, hwf.2⟩
    | createTrade orderId addr =>
      simp only [StoreOp.run, AtomEngineServer.createTrade]
      cases hf : StdMap.find s.orders_ orderId with
      | none => exact hwf
      | some o => exact ⟨StdMap.WF_erase _ _ hwf.1, StdMap.WF_assign _ _ _ hwf.2⟩
    | updateTrade tradeJson =>
      simp only [StoreOp.run, AtomEngineServer.updateTrade]
      cases hf : StdMap.find s.trades_ (QJsonObject.get tradeJson "id").toLongLong with
      | none => exact hwf
      | some t => exact ⟨hwf.1, StdMap.WF_assign _ _ _ hwf.2⟩
  · -- orders and trades do not overlap
    obtain ⟨hgone, huniq⟩ := htr
    cases op with
    | createOrder orderJson =>
      refine ⟨?_, huniq⟩
      intro j t h
      have h1 := hgone j t h
      have hne : t.order_.id_ ≠ s.curOrderId_ + 1 := by omega
      refine ⟨?_, ?_⟩
      · show t.order_.id_ ≤ s.curOrderId_ + 1
        omega
      · show StdMap.find (StdMap.assign s.orders_ _ _) t.order_.id_ = none
        rw [StdMap.find_assign_ne _ _ _ _ hne]
        exact h1.2
    | deleteOrder oid =>
      simp only [StoreOp.run, AtomEngineServer.deleteOrder]
      cases hf : StdMap.find s.orders_ oid with
      | none => exact ⟨hgone, huniq⟩
      | some o =>
        refine ⟨?_, huniq⟩
        intro j t h
        exact ⟨(hgone j t h).1, find_erase_none _ _ _ (hgone j t h).2⟩
    | createTrade orderId addr =>
      simp only [StoreOp.run, AtomEngineServer.createTrade]
      cases hf : StdMap.find s.orders_ orderId with
      | none => exact ⟨hgone, huniq⟩
      | some o =>
        have hoid : o.id_ = orderId := (hinv.2.2.1 orderId o hf).2.2
        have hole : orderId ≤ s.curOrderId_ := (hinv.2.2.1 orderId o hf).2.1
        have hold : ∀ j t, j ≠ s.curTradeId_ + 1 →
            StdMap.find (StdMap.assign s.trades_ (s.curTradeId_ + 1)
              (TradeInfo.make (s.curTradeId_ + 1) o addr)) j = some t →
            StdMap.find s.trades_ j = some t := by
          intro j t hj h
          rw [StdMap.find_assign_ne _ _ _ _ hj] at h
          exact h
        have hnew : ∀ t, StdMap.find (StdMap.assign s.trades_ (s.curTradeId_ + 1)
              (TradeInfo.make (s.curTradeId_ + 1) o addr)) (s.curTradeId_ + 1) = some t →
            t.order_.id_ = orderId := by
          intro t h
          rw [StdMap.find_assign_self] at h
          cases h
          exact hoid
        have hnot : ∀ j t, StdMap.find s.trades_ j = some t → t.order_.id_ ≠ orderId := by
          intro j t h heq
          have := (hgone j t h).2
          rw [heq, hf] at this
          cases this
        refine ⟨?_, ?_⟩
        · intro j t h
          by_cases hj : j = s.curTradeId_ + 1
          · subst hj
            rw [hnew t h]
            exact ⟨hole, StdMap.find_erase_self _ _⟩
          · have h1 := hgone j t (hold j t hj h)
            exact ⟨h1.1, find_erase_none _ _ _ h1.2⟩
        · intro j1 j2 t1 t2 h1 h2 heq
          by_cases hj1 : j1 = s.curTradeId_ + 1
          · by_cases hj2 : j2 = s.curTradeId_ + 1
            · rw [hj1, hj2]
            · subst hj1
              have := hnot j2 t2 (hold j2 t2 hj2 h2)
              rw [← heq, hnew t1 h1] at this
              exact absurd rfl this
          · by_cases hj2 : j2 = s.curTradeId_ + 1
            · subst hj2
              have := hnot j1 t1 (hold j1 t1 hj1 h1)
              rw [heq, hnew t2 h2] at this
              exact absurd rfl this
            · exact huniq j1 j2 t1 t2 (hold j1 t1 hj1 h1) (hold j2 t2 hj2 h2) heq
    | updateTrade tradeJson =>
      simp only [StoreOp.run, AtomEngineServer.updateTrade]
      cases hf : StdMap.find s.trades_ (QJsonObject.get tradeJson "id").toLongLong with
      | none => exact ⟨hgone, huniq⟩
      | some t0 =>
        have hold : ∀ j t, StdMap.find (StdMap.assign s.trades_
              (QJsonObject.get tradeJson "id").toLongLong (TradeInfo.update t0 tradeJson)) j
              = some t →
            ∃ u, StdMap.find s.trades_ j = some u ∧ u.order_ = t.order_ := by
          intro j t h
          by_cases hj : j = (QJsonObject.get tradeJson "id").toLongLong
          · subst hj
            rw [StdMap.find_assign_self] at h
            cases h
            exact ⟨t0, hf, rfl⟩
          · rw [StdMap.find_assign_ne _ _ _ _ hj] at h
            exact ⟨t, h, rfl⟩
        refine ⟨?_, ?_⟩
        · intro j t h
          obtain ⟨u, hu, he⟩ := hold j t h
          rw [← he]
          exact hgone j u hu
        · intro j1 j2 t1 t2 h1 h2 heq
          obtain ⟨u1, hu1, he1⟩ := hold j1 t1 h1
          obtain ⟨u2, hu2, he2⟩ := hold j2 t2 h2
          exact huniq j1 j2 u1 u2 hu1 hu2 (by rw [he1, he2]; exact heq)
  · -- the trade table has no gap
    cases op with
    | createOrder orderJson => exact hfull
    | deleteOrder oid =>
      simp only [StoreOp.run, AtomEngineServer.deleteOrder]
      cases hf : StdMap.find s.orders_ oid <;> exact hfull
    | createTrade orderId addr =>
      simp only [StoreOp.run, AtomEngineServer.createTrade]
      cases hf : StdMap.find s.orders_ orderId with
      | none => exact hfull
      | some o =>
        intro k h1 h2
        by_cases hk : k = s.curTradeId_ + 1
        · exact ⟨_, by rw [hk]; exact StdMap.find_assign_self _ _ _⟩
        · obtain ⟨t, ht⟩ := hfull k h1 (by
            have : k ≤ s.curTradeId_ + 1 := h2
            omega)
          exact ⟨t, by
            show StdMap.find (StdMap.assign s.trades_ _ _) k = some t
            rw [StdMap.find_assign_ne _ _ _ _ hk]
            exact ht⟩
    | updateTrade tradeJson =>
      simp only [StoreOp.run, AtomEngineServer.updateTrade]
      cases hf : StdMap.find s.trades_ (QJsonObject.get tradeJson "id").toLongLong with
      | none => exact hfull
      | some t0 =>
        intro k h1 h2
        by_cases hk : k = (QJsonObject.get tradeJson "id").toLongLong
        · exact ⟨_, by rw [hk]; exact StdMap.find_assign_self _ _ _⟩
        · obtain ⟨t, ht⟩ := hfull k h1 h2
          exact ⟨t, by
            show StdMap.find (StdMap.assign s.trades_ _ _) k = some t
            rw [StdMap.find_assign_ne _ _ _ _ hk]
            exact ht⟩

/-- In every reachable state the invariants of the Entity Store hold. -/
theorem Reachable.storeOK {fromJson : QByteArray → QJsonValue} {s : AtomEngineServer}
    (h : Reachable fromJson s) : StoreOK s :=
  Reachable.store_induction StoreOK StoreOK_new StoreOK_congr StoreOp.run_storeOK h


/-! ## Keys, counters, orders and trades -/

theorem sampleSession3_reachable : Reachable sampleFromJson sampleSession3 :=
  Reachable.step _ (Event.newConnection ⟨9⟩) sampleSession_reachable
    (show (0 : Int) ≤ 9 by decide)

theorem sampleLoaded_reachable : Reachable sampleFromJson sampleLoaded :=
  Reachable.run _ true

theorem StdMap.mem_keys_iff {K V : Type} [DecidableEq K] (m : StdMap K V) (k : K) :
    k ∈ StdMap.keys m ↔ ∃ v, StdMap.find m k = some v := by
  induction m with
  | nil => simp [StdMap.keys, StdMap.find]
  | cons e rest ih =>
    obtain ⟨k0, v0⟩ := e
    unfold StdMap.keys at ih ⊢
    by_cases h : k0 = k
    · simp [StdMap.find, h]
    · have h2 : ¬ k = k0 := fun h3 => h h3.symm
      simp only [List.map_cons, List.mem_cons, h2, false_or, StdMap.find, h, if_false]
      exact ih

/-- C20. Key/counter invariant. In every reachable state every key k of the
order table lies in 1..curOrderId_ and holds an order whose id is k; the keys
of the trade table are exactly the integers 1..curTradeId_, and the trade
under key k has id k. -/
theorem C20_key_counter_invariant (fromJson : QByteArray → QJsonValue) (s : AtomEngineServer)
    (hr : Reachable fromJson s) :
    (∀ k o, StdMap.find s.orders_ k = some o → 1 ≤ k ∧ k ≤ s.curOrderId_ ∧ o.id_ = k)
    ∧ (∀ k ∈ StdMap.keys s.orders_, 1 ≤ k ∧ k ≤ s.curOrderId_)
    ∧ (∀ k, k ∈ StdMap.keys s.trades_ ↔ 1 ≤ k ∧ k ≤ s.curTradeId_)
    ∧ (∀ k t, StdMap.find s.trades_ k = some t → t.id_ = k) := by
  obtain ⟨hinv, _, _, hfull⟩ := hr.storeOK
  refine ⟨hinv.2.2.1, ?_, ?_, fun k t h => (hinv.2.2.2 k t h).2.2⟩
  · intro k hk
    obtain ⟨o, ho⟩ := (StdMap.mem_keys_iff _ _).mp hk
    exact ⟨(hinv.2.2.1 k o ho).1, (hinv.2.2.1 k o ho).2.1⟩
  · intro k
    rw [StdMap.mem_keys_iff]
    constructor
    · rintro ⟨t, ht⟩
      exact ⟨(hinv.2.2.2 k t ht).1, (hinv.2.2.2 k t ht).2.1⟩
    · rintro ⟨h1, h2⟩
      exact hfull k h1 h2

/-- C20, at concrete reachable states: with one order published the order
keys are [1] and the counter is 1; after a restart on a log with one order
and its trade the trade keys are [1] and curTradeId_ is 1. -/
theorem C20_key_counter_invariant_witness :
    Reachable sampleFromJson sampleLoaded
    ∧ StdMap.keys sampleLoaded.trades_ = [1] ∧ sampleLoaded.curTradeId_ = 1
    ∧ (∀ k, k ∈ StdMap.keys sampleLoaded.trades_ ↔ 1 ≤ k ∧ k ≤ sampleLoaded.curTradeId_)
    ∧ StdMap.keys sampleSession.orders_ = [1]
    ∧ (∀ k ∈ StdMap.keys sampleSession.orders_, 1 ≤ k ∧ k ≤ sampleSession.curOrderId_) :=
  ⟨sampleLoaded_reachable, rfl, rfl,
    (C20_key_counter_invariant sampleFromJson sampleLoaded sampleLoaded_reachable).2.2.1,
    rfl,
    (C20_key_counter_invariant sampleFromJson sampleSession sampleSession_reachable).2.1⟩

theorem Unembedded_congr (k : Int) (a b : AtomEngineServer) (h : sameStore a b)
    (hi : StoreInv a ∧ Unembedded k a) : StoreInv b ∧ Unembedded k b := by
  refine ⟨StoreInv_congr h hi.1, ?_⟩
  obtain ⟨h1, h2, h3, h4⟩ := h
  have hu := hi.2
  unfold Unembedded at *
  rw [← h1, ← h3, ← h4]
  exact hu

theorem StoreOp.run_unembedded (k : Int) (s : AtomEngineServer) (op : StoreOp)
    (hi : StoreInv s ∧ Unembedded k s) : StoreInv (op.run s) ∧ Unembedded k (op.run s) := by
  obtain ⟨hinv, hk, hgone, hno⟩ := hi
  refine ⟨(StoreOp.run_inv s op hinv).1, ?_⟩
  cases op with
  | createOrder orderJson =>
    have hne : k ≠ s.curOrderId_ + 1 := by omega
    refine ⟨?_, ?_, hno⟩
    · show k ≤ s.curOrderId_ + 1
      omega
    · show StdMap.find (StdMap.assign s.orders_ _ _) k = none
      rw [StdMap.find_assign_ne _ _ _ _ hne]
      exact hgone
  | deleteOrder oid =>
    simp only [StoreOp.run, AtomEngineServer.deleteOrder]
    cases hf : StdMap.find s.orders_ oid with
    | none => exact ⟨hk, hgone, hno⟩
    | some o => exact ⟨hk, find_erase_none _ _ _ hgone, hno⟩
  | createTrade orderId addr =>
    simp only [StoreOp.run, AtomEngineServer.createTrade]
    cases hf : StdMap.find s.orders_ orderId with
    | none => exact ⟨hk, hgone, hno⟩
    | some o =>
      refine ⟨hk, find_erase_none _ _ _ hgone, ?_⟩
      intro j t h
      by_cases hj : j = s.curTradeId_ + 1
      · subst hj
        have h2 : StdMap.find (StdMap.assign s.trades_ (s.curTradeId_ + 1)
            (TradeInfo.make (s.curTradeId_ + 1) o addr)) (s.curTradeId_ + 1) = some t := h
        rw [StdMap.find_assign_self] at h2
        cases h2
        show o.id_ ≠ k
        rw [(hinv.2.2.1 orderId o hf).2.2]
        intro heq
        rw [heq, hgone] at hf
        cases hf
      · have h2 : StdMap.find (StdMap.assign s.trades_ (s.curTradeId_ + 1)
            (TradeInfo.make (s.curTradeId_ + 1) o addr)) j = some t := h
        rw [StdMap.find_assign_ne _ _ _ _ hj] at h2
        exact hno j t h2
  | updateTrade tradeJson =>
    simp only [StoreOp.run, AtomEngineServer.updateTrade]
    cases hf : StdMap.find s.trades_ (QJsonObject.get tradeJson "id").toLongLong with
    | none => exact ⟨hk, hgone, hno⟩
    | some t0 =>
      refine ⟨hk, hgone, ?_⟩
      intro j t h
      by_cases hj : j = (QJsonObject.get tradeJson "id").toLongLong
      · subst hj
        have h2 : StdMap.find (StdMap.assign s.trades_ _ (TradeInfo.update t0 tradeJson)) _
            = some t := h
        rw [StdMap.find_assign_self] at h2
        cases h2
        exact hno _ t0 hf
      · have h2 : StdMap.find (StdMap.assign s.trades_ _ (TradeInfo.update t0 tradeJson)) j
            = some t := h
        rw [StdMap.find_assign_ne _ _ _ _ hj] at h2
        exact hno j t h2

/-- C15. In every reachable state no trade embeds an order whose id is a key
of the order table, and two trades stored under different ids embed orders
with different ids (at most one trade per order). Moreover, when a
delete_order command removes order k, no trade of any later state embeds an
order with id k. -/
theorem C15_orders_and_trades_disjoint (fromJson : QByteArray → QJsonValue)
    (s : AtomEngineServer) (hr : Reachable fromJson s) :
    (∀ j t, StdMap.find s.trades_ j = some t → StdMap.find s.orders_ t.order_.id_ = none)
    ∧ (∀ j1 j2 t1 t2, StdMap.find s.trades_ j1 = some t1 → StdMap.find s.trades_ j2 = some t2 →
        j1 ≠ j2 → t1.order_.id_ ≠ t2.order_.id_)
    ∧ (∀ sock doc opens o es, doc.isObject = true →
        (QJsonObject.get doc.toObject "command").toQString = "delete_order" →
        StdMap.find s.orders_ (QJsonObject.get doc.toObject "id").toLongLong = some o →
        ∀ j t, StdMap.find (runEvents fromJson (processCommand s sock doc opens).1 es).trades_ j
            = some t →
          t.order_.id_ ≠ (QJsonObject.get doc.toObject "id").toLongLong) := by
  obtain ⟨hinv, _, htr, _⟩ := hr.storeOK
  refine ⟨fun j t h => (htr.1 j t h).2, ?_, ?_⟩
  · intro j1 j2 t1 t2 h1 h2 hne heq
    exact hne (htr.2 j1 j2 t1 t2 h1 h2 heq)
  · intro sock doc opens o es hobj hcmd ho j t ht
    have hstore := (processCommand_frame s sock doc opens).2.2.2
    have hops : runOps s (storeOps doc)
        = (s.deleteOrder (QJsonObject.get doc.toObject "id").toLongLong).2 := by
      simp [storeOps, hobj, hcmd, runOps, StoreOp.run]
    rw [hops] at hstore
    have hdel : StoreInv (s.deleteOrder (QJsonObject.get doc.toObject "id").toLongLong).2
        ∧ Unembedded (QJsonObject.get doc.toObject "id").toLongLong
            (s.deleteOrder (QJsonObject.get doc.toObject "id").toLongLong).2 := by
      refine ⟨(StoreOp.run_inv s (StoreOp.deleteOrder _) hinv).1, ?_⟩
      simp only [AtomEngineServer.deleteOrder, ho]
      refine ⟨(hinv.2.2.1 _ o ho).2.1, StdMap.find_erase_self _ _, ?_⟩
      intro j2 t2 h2 heq
      have := (htr.1 j2 t2 h2).2
      rw [heq, ho] at this
      cases this
    have hafter := Unembedded_congr _ _ _ (sameStore_symm hstore) hdel
    have hlater := runEvents_store_induction fromJson _ es
      (fun a => StoreInv a ∧ Unembedded (QJsonObject.get doc.toObject "id").toLongLong a)
      (Unembedded_congr _) (StoreOp.run_unembedded _) hafter
    exact hlater.2.2.2 j t ht

/-- C15, at a concrete execution: after a restart on a log with an order and
its trade, trade 1 embeds order 1 and the order table is empty; and with
clients 7, 8, 9 connected and order 1 in the table, client 7 deletes order 1,
then client 8 asks for a trade on it. -/
theorem C15_orders_and_trades_disjoint_witness :
    Reachable sampleFromJson sampleLoaded
    ∧ (StdMap.find sampleLoaded.trades_ 1).map (fun t => t.order_.id_) = some 1
    ∧ (∀ j t, StdMap.find sampleLoaded.trades_ j = some t →
        StdMap.find sampleLoaded.orders_ t.order_.id_ = none)
    ∧ (∀ j t, StdMap.find (runEvents sampleFromJson
          (processCommand sampleSession3 ⟨7⟩ sampleDeleteOrder true).1
          [Event.readyRead ⟨8⟩
            (bytesOf "\x7b\"command\":\"create_trade\",\"orderId\":1,\"address\":\"addrB\"\x7d\n")
            (fun _ => true)]).trades_ j = some t →
        t.order_.id_ ≠ 1) :=
  ⟨sampleLoaded_reachable, rfl,
    (C15_orders_and_trades_disjoint sampleFromJson sampleLoaded sampleLoaded_reachable).1,
    (C15_orders_and_trades_disjoint sampleFromJson sampleSession3 sampleSession3_reachable).2.2
      ⟨7⟩ sampleDeleteOrder true
      (OrderInfo.make 1 [("getAddress_", QJsonValue.string "addrA"), ("amt", QJsonValue.double 10)])
      _ rfl rfl rfl⟩


/-! ## Trades stay -/

theorem StoreOp.run_trade_unchanged (s : AtomEngineServer) (op : StoreOp) (k : Int)
    (t : TradeInfo) (hinv : StoreInv s) (ht : StdMap.find s.trades_ k = some t)
    (hno : ∀ json, op = StoreOp.updateTrade json → (QJsonObject.get json "id").toLongLong ≠ k) :
    StdMap.find (op.run s).trades_ k = some t := by
  cases op with
  | createOrder orderJson => exact ht
  | deleteOrder oid =>
    simp only [StoreOp.run, AtomEngineServer.deleteOrder]
    cases hf : StdMap.find s.orders_ oid <;> exact ht
  | createTrade orderId addr =>
    simp only [StoreOp.run, AtomEngineServer.createTrade]
    cases hf : StdMap.find s.orders_ orderId with
    | none => exact ht
    | some o =>
      have hk : k ≠ s.curTradeId_ + 1 := by
        have := (hinv.2.2.2 k t ht).2.1
        omega
      show StdMap.find (StdMap.assign s.trades_ _ _) k = some t
      rw [StdMap.find_assign_ne _ _ _ _ hk]
      exact ht
  | updateTrade tradeJson =>
    have hk : k ≠ (QJsonObject.get tradeJson "id").toLongLong :=
      fun h => hno tradeJson rfl h.symm
    simp only [StoreOp.run, AtomEngineServer.updateTrade]
    cases hf : StdMap.find s.trades_ (QJsonObject.get tradeJson "id").toLongLong with
    | none => exact ht
    | some t0 =>
      show StdMap.find (StdMap.assign s.trades_ _ _) k = some t
      rw [StdMap.find_assign_ne _ _ _ _ hk]
      exact ht

theorem storeOps_updateTrade (doc : QJsonValue) (op : StoreOp) (json : QJsonObject)
    (hop : op ∈ storeOps doc) (hu : op = StoreOp.updateTrade json) :
    updatesTrade ((QJsonObject.get json "id").toLongLong) doc := by
  subst hu
  unfold storeOps at hop
  by_cases h : doc.isObject = true
  swap
  · simp [h] at hop
  simp only [h, if_true] at hop
  split_ifs at hop with h3 h4 h5 h6
  · simp at hop
  · simp at hop
  · simp at hop
  · simp only [List.mem_singleton, StoreOp.updateTrade.injEq] at hop
    exact ⟨h, h6, by rw [hop]⟩
  · simp at hop

/-- A command that is not an update_trade for trade `k` leaves the trade
stored under `k` as it is. -/
theorem processCommand_trade_unchanged (s : AtomEngineServer) (sock : QTcpSocket)
    (doc : QJsonValue) (opens : Bool) (k : Int) (t : TradeInfo) (hinv : StoreInv s)
    (ht : StdMap.find s.trades_ k = some t) (hno : ¬ updatesTrade k doc) :
    StdMap.find (processCommand s sock doc opens).1.trades_ k = some t
    ∧ StoreInv (processCommand s sock doc opens).1 := by
  have hstore := (processCommand_frame s sock doc opens).2.2.2
  have hcases : storeOps doc = [] ∨ ∃ op, storeOps doc = [op] := by
    unfold storeOps
    by_cases h : doc.isObject = true
    · simp only [h, if_true]
      split_ifs <;> simp
    · simp [h]
  refine ⟨?_, StoreInv_congr (sameStore_symm hstore) (runOps_inv s _ hinv).1⟩
  rw [hstore.2.2.2]
  rcases hcases with h | ⟨op, h⟩
  · rw [h]
    exact ht
  · rw [h]
    apply StoreOp.run_trade_unchanged s op k t hinv ht
    intro json hu heq
    have := storeOps_updateTrade doc op json (by rw [h]; simp) hu
    rw [heq] at this
    exact hno this

theorem processLines_trade_unchanged (fromJson : QByteArray → QJsonValue) (sock : QTcpSocket)
    (opens : Nat → Bool) (k : Int) (t : TradeInfo) (s : AtomEngineServer) (i : Nat)
    (commands : List QByteArray) (hinv : StoreInv s)
    (ht : StdMap.find s.trades_ k = some t)
    (hno : ∀ c ∈ commands, ¬ updatesTrade k (fromJson c)) :
    StdMap.find (processLines fromJson sock opens s i commands).1.trades_ k = some t := by
  induction commands generalizing s i with
  | nil => exact ht
  | cons c rest ih =>
    unfold processLines
    by_cases hc : c.length = 0
    · simp only [hc, if_true]
      exact ih s (i + 1) hinv ht (fun c2 h2 => hno c2 (List.mem_cons_of_mem _ h2))
    · simp only [hc, if_false]
      have h1 := processCommand_trade_unchanged s sock (fromJson c) (opens i) k t hinv ht
        (hno c (List.mem_cons_self _ _))
      exact ih _ (i + 1) h1.2 h1.1 (fun c2 h2 => hno c2 (List.mem_cons_of_mem _ h2))

/-- C18. Trades are never deleted and their identity is fixed. In a reachable
state, a trade t stored under id k is still stored under k after any sequence
of events, with the same id, the same embedded order and the same initiator
address. It is unchanged in every field by a connection opening or closing,
by every command that is not an update_trade whose payload id is k, and by
every arrival of bytes none of whose lines parses to such an update_trade. -/
theorem C18_trades_never_deleted (fromJson : QByteArray → QJsonValue) (s : AtomEngineServer)
    (k : Int) (t : TradeInfo) (hr : Reachable fromJson s)
    (ht : StdMap.find s.trades_ k = some t) :
    (∀ es, ∃ u, StdMap.find (runEvents fromJson s es).trades_ k = some u
        ∧ u.id_ = t.id_ ∧ u.order_ = t.order_ ∧ u.initiatorAddress_ = t.initiatorAddress_)
    ∧ (∀ sock doc opens, ¬ updatesTrade k doc →
        StdMap.find (processCommand s sock doc opens).1.trades_ k = some t)
    ∧ (∀ sock answer opens, (∀ line, ¬ updatesTrade k (fromJson line)) →
        StdMap.find (s.onReadyRead fromJson sock answer opens).1.trades_ k = some t)
    ∧ (∀ sock, StdMap.find (s.onNewConnection sock).trades_ k = some t)
    ∧ (∀ sock, StdMap.find (s.onClientDisconnected sock).trades_ k = some t) := by
  have hinv := hr.storeInv
  refine ⟨?_, ?_, ?_, fun _ => ht, ?_⟩
  · intro es
    obtain ⟨u, hu, h1, h2, h3, _, _⟩ := (runEvents_evolves fromJson s es hinv).2.2.2.2 k t ht
    exact ⟨u, hu, h1, h2, h3⟩
  · intro sock doc opens hno
    exact (processCommand_trade_unchanged s sock doc opens k t hinv ht hno).1
  · intro sock answer opens hno
    unfold AtomEngineServer.onReadyRead
    simp only []
    split
    · exact ht
    · exact processLines_trade_unchanged fromJson sock opens k t _ 0 _ hinv ht
        (fun c _ => hno c)
  · intro sock
    have h := (foldl_dropConnection_store sock s.connections_ s).1
    show StdMap.find (s.connections_.foldl (dropConnection sock) s).trades_ k = some t
    rw [h.2.2.2]
    exact ht

/-- C18, at a concrete state: trade 1 is in the table after a restart; an
init command leaves it as it is. -/
theorem C18_trades_never_deleted_witness :
    Reachable sampleFromJson sampleLoaded
    ∧ StdMap.find sampleLoaded.trades_ 1
      = some { TradeInfo.make 1 (OrderInfo.make 1
          [("getAddress_", QJsonValue.string "addrA"), ("amt", QJsonValue.double 10)]) "addrB" with
          secretHash_ := "h", initiatorCommissionPaid_ := true }
    ∧ StdMap.find (processCommand sampleLoaded ⟨7⟩ sampleInit true).1.trades_ 1
      = some { TradeInfo.make 1 (OrderInfo.make 1
          [("getAddress_", QJsonValue.string "addrA"), ("amt", QJsonValue.double 10)]) "addrB" with
          secretHash_ := "h", initiatorCommissionPaid_ := true } :=
  ⟨sampleLoaded_reachable, rfl,
    (C18_trades_never_deleted sampleFromJson sampleLoaded 1 _ sampleLoaded_reachable rfl).2.1
      ⟨7⟩ sampleInit true (fun h => absurd h.2.1 (by decide))⟩

/-- C19. A failed create_trade still claims its address. For every state and
every create_trade command from `sock` whose order id is not a key of the
order table: afterwards `addrs_` maps the command's address to the sender
(whatever it held before), the counters, the order table, the trade table,
the log and `connections_` are unchanged, and the only effect is the frame
create_trade_failed written to the sender. -/
theorem C19_failed_create_trade_claims_address (s : AtomEngineServer) (sock : QTcpSocket)
    (doc : QJsonValue) (opens : Bool) (hobj : doc.isObject = true)
    (hcmd : (QJsonObject.get doc.toObject "command").toQString = "create_trade")
    (habsent : StdMap.find s.orders_ (QJsonObject.get doc.toObject "orderId").toLongLong = none) :
    StdMap.find (processCommand s sock doc opens).1.addrs_
        (QJsonObject.get doc.toObject "address").toQString = some sock.socketDescriptor
    ∧ (processCommand s sock doc opens).1.addrs_
        = StdMap.put s.addrs_ (QJsonObject.get doc.toObject "address").toQString
            sock.socketDescriptor
    ∧ sameStore (processCommand s sock doc opens).1 s
    ∧ (processCommand s sock doc opens).1.backupFile_ = s.backupFile_
    ∧ (processCommand s sock doc opens).1.connections_ = s.connections_
    ∧ (processCommand s sock doc opens).2 = [Effect.write sock Reply.create_trade_failed] := by
  rw [processCommand_create_trade s sock doc opens hobj hcmd]
  have hb : createTradeBlock s sock doc doc.toObject opens
      = ({ s with addrs_ := (StdMap.put s.addrs_
            (QJsonObject.get doc.toObject "address").toQString sock.socketDescriptor) },
         [Effect.write sock Reply.create_trade_failed]) := by
    simp [createTradeBlock, AtomEngineServer.createTrade, habsent]
  rw [hb]
  exact ⟨StdMap.find_put_self _ _ _, rfl, ⟨rfl, rfl, rfl, rfl⟩, rfl, rfl, rfl⟩

/-- C19, at a concrete state: `addrA` is claimed by client 7; client 8 asks
for a trade on order 2, which does not exist, naming `addrA`; afterwards
`addrA` is mapped to 8. -/
theorem C19_failed_create_trade_claims_address_witness :
    StdMap.find sampleSession3.addrs_ "addrA" = some 7
    ∧ StdMap.find sampleSession3.orders_ 2 = none
    ∧ StdMap.find (processCommand sampleSession3 ⟨8⟩ sampleCreateTradeStale true).1.addrs_ "addrA"
      = some 8
    ∧ (processCommand sampleSession3 ⟨8⟩ sampleCreateTradeStale true).2
      = [Effect.write ⟨8⟩ Reply.create_trade_failed] :=
  ⟨rfl, rfl,
    (C19_failed_create_trade_claims_address sampleSession3 ⟨8⟩ sampleCreateTradeStale true
      rfl rfl rfl).1,
    (C19_failed_create_trade_claims_address sampleSession3 ⟨8⟩ sampleCreateTradeStale true
      rfl rfl rfl).2.2.2.2.2⟩


/-! ## The log and the replies -/

/-- The `update_trade` block when the trade is found. -/
theorem updateTradeBlock_found (s : AtomEngineServer) (sock : QTcpSocket) (doc : QJsonValue)
    (opens : Bool) (t : TradeInfo)
    (ht : StdMap.find s.trades_ (QJsonObject.get
      (QJsonObject.get doc.toObject "trade").toObject "id").toLongLong = some t) :
    updateTradeBlock s sock doc doc.toObject opens
      = ({ s with
            trades_ := (StdMap.assign s.trades_ (QJsonObject.get
              (QJsonObject.get doc.toObject "trade").toObject "id").toLongLong
              (TradeInfo.update t (QJsonObject.get doc.toObject "trade").toObject)),
            backupFile_ := s.backupFile_ ++ (if opens then [doc] else []) },
         [Effect.write sock Reply.update_trade_success]
          ++ (if opens then [Effect.append doc] else [])
          ++ (if anotherConnectionDescr s sock.socketDescriptor
                (TradeInfo.update t (QJsonObject.get doc.toObject "trade").toObject) ≠ -1 then
              match StdMap.find s.connections_ (anotherConnectionDescr s sock.socketDescriptor
                (TradeInfo.update t (QJsonObject.get doc.toObject "trade").toObject)) with
              | some socket => [Effect.write socket (Reply.update_trade
                  (TradeInfo.update t (QJsonObject.get doc.toObject "trade").toObject))]
              | none => []
            else [])) := by
  cases opens <;>
    simp [updateTradeBlock, AtomEngineServer.updateTrade, ht, AtomEngineServer.saveCommand,
      anotherConnectionDescr]

theorem appended_updateDelivery (s : AtomEngineServer) (d : Int) (u : TradeInfo) :
    appended (if d ≠ -1 then
        match StdMap.find s.connections_ d with
        | some socket => [Effect.write socket (Reply.update_trade u)]
        | none => []
      else []) = [] := by
  split_ifs
  · split <;> rfl
  · rfl

/-- C16 (amended). create_order dispatch. In a reachable state, for every
create_order command from `sock`: the order o built from the payload with id
curOrderId_ + 1 is stored under that id (other keys of the order table and
the trade table unchanged); the sender receives exactly create_order_success
carrying o; every other open connection receives exactly one frame,
create_order carrying o; afterwards `addrs_` maps the address of o to the
sender; the log grows by exactly the command line when the log file opens for
append, and is unchanged when it does not. -/
theorem C16_create_order_dispatch (fromJson : QByteArray → QJsonValue) (s : AtomEngineServer)
    (sock : QTcpSocket) (doc : QJsonValue) (opens : Bool)
    (hr : Reachable fromJson s) (hobj : doc.isObject = true)
    (hcmd : (QJsonObject.get doc.toObject "command").toQString = "create_order") :
    StdMap.find (processCommand s sock doc opens).1.orders_ (s.curOrderId_ + 1)
        = some (OrderInfo.make (s.curOrderId_ + 1) (QJsonObject.get doc.toObject "order").toObject)
    ∧ (processCommand s sock doc opens).1.curOrderId_ = s.curOrderId_ + 1
    ∧ (∀ k, k ≠ s.curOrderId_ + 1 →
        StdMap.find (processCommand s sock doc opens).1.orders_ k = StdMap.find s.orders_ k)
    ∧ (processCommand s sock doc opens).1.trades_ = s.trades_
    ∧ received sock (processCommand s sock doc opens).2
        = [Reply.create_order_success
            (OrderInfo.make (s.curOrderId_ + 1) (QJsonObject.get doc.toObject "order").toObject)]
    ∧ (∀ e ∈ s.connections_, e.1 ≠ sock.socketDescriptor →
        received e.2 (processCommand s sock doc opens).2
          = [Reply.create_order
              (OrderInfo.make (s.curOrderId_ + 1)
                (QJsonObject.get doc.toObject "order").toObject)])
    ∧ StdMap.find (processCommand s sock doc opens).1.addrs_
        (OrderInfo.make (s.curOrderId_ + 1)
          (QJsonObject.get doc.toObject "order").toObject).getAddress_
        = some sock.socketDescriptor
    ∧ appended (processCommand s sock doc opens).2 = (if opens then [doc] else [])
    ∧ (processCommand s sock doc opens).1.backupFile_
        = s.backupFile_ ++ (if opens then [doc] else []) := by
  have hreg := hr.registryOK
  rw [processCommand_create_order s sock doc opens hobj hcmd]
  have hb : createOrderBlock s sock doc doc.toObject opens
      = ({ s with
            curOrderId_ := s.curOrderId_ + 1,
            orders_ := (StdMap.assign s.orders_ (s.curOrderId_ + 1)
              (OrderInfo.make (s.curOrderId_ + 1)
                (QJsonObject.get doc.toObject "order").toObject)),
            backupFile_ := s.backupFile_ ++ (if opens then [doc] else []),
            addrs_ := (StdMap.put s.addrs_
              (OrderInfo.make (s.curOrderId_ + 1)
                (QJsonObject.get doc.toObject "order").toObject).getAddress_
              sock.socketDescriptor) },
         (if opens then [Effect.append doc] else [])
          ++ [Effect.write sock (Reply.create_order_success
              (OrderInfo.make (s.curOrderId_ + 1)
                (QJsonObject.get doc.toObject "order").toObject))]
          ++ writeToAll s.connections_ (fun k => decide (k ≠ sock.socketDescriptor))
              (Reply.create_order (OrderInfo.make (s.curOrderId_ + 1)
                (QJsonObject.get doc.toObject "order").toObject))) := by
    cases opens <;>
      simp [createOrderBlock, AtomEngineServer.createOrder, AtomEngineServer.saveCommand]
  rw [hb]
  refine ⟨StdMap.find_assign_self _ _ _, rfl, fun k hk => StdMap.find_assign_ne _ _ _ _ hk, rfl,
    ?_, ?_, StdMap.find_put_self _ _ _, ?_, rfl⟩
  · rw [received_append, received_append, received_writeToAll _ _ _ hreg.1 hreg.2]
    cases opens <;> simp [received]
  · intro e he hne
    have hd := hreg.2 e he
    have h2 : ¬ sock = e.2 := fun h => hne (by rw [← hd, ← h])
    have h3 : (e.2.socketDescriptor, e.2) ∈ s.connections_ := by
      have : (e.2.socketDescriptor, e.2) = e := by rw [hd]
      rw [this]; exact he
    have h4 : ¬ e.2.socketDescriptor = sock.socketDescriptor := by rw [hd]; exact hne
    rw [received_append, received_append, received_writeToAll _ _ _ hreg.1 hreg.2]
    cases opens <;> simp [received, h2, h3, h4]
  · rw [appended_append, appended_append, appended_writeToAll]
    cases opens <;> simp [appended]

/-- C16, at a concrete state: clients 7, 8, 9 are connected, one order is in
the table, the log file opens; client 8 publishes an order from `addrA`. -/
theorem C16_create_order_dispatch_witness :
    Reachable sampleFromJson sampleSession3
    ∧ sampleCreateOrder.isObject = true
    ∧ (QJsonObject.get sampleCreateOrder.toObject "command").toQString = "create_order"
    ∧ received ⟨8⟩ (processCommand sampleSession3 ⟨8⟩ sampleCreateOrder true).2
        = [Reply.create_order_success (OrderInfo.make 2
            [("getAddress_", QJsonValue.string "addrA"), ("amt", QJsonValue.double 10)])]
    ∧ StdMap.find (processCommand sampleSession3 ⟨8⟩ sampleCreateOrder true).1.addrs_ "addrA"
        = some 8
    ∧ (processCommand sampleSession3 ⟨8⟩ sampleCreateOrder true).1.backupFile_
        = [sampleCreateOrder, sampleCreateOrder] :=
  ⟨sampleSession3_reachable, rfl, rfl,
    (C16_create_order_dispatch sampleFromJson sampleSession3 ⟨8⟩ sampleCreateOrder true
      sampleSession3_reachable rfl rfl).2.2.2.2.1,
    (C16_create_order_dispatch sampleFromJson sampleSession3 ⟨8⟩ sampleCreateOrder true
      sampleSession3_reachable rfl rfl).2.2.2.2.2.2.1,
    (C16_create_order_dispatch sampleFromJson sampleSession3 ⟨8⟩ sampleCreateOrder true
      sampleSession3_reachable rfl rfl).2.2.2.2.2.2.2.2⟩

/-- C16 as stated fails when the log file cannot be opened for append: client
8 publishes an order, order 2 is created and announced to 7 and 9, yet the
log is unchanged, so it is not true that exactly one line is appended. -/
theorem C16_counterexample :
    (processCommand sampleSession3 ⟨8⟩ sampleCreateOrder false).1.curOrderId_ = 2
    ∧ received ⟨7⟩ (processCommand sampleSession3 ⟨8⟩ sampleCreateOrder false).2
        = [Reply.create_order (OrderInfo.make 2
            [("getAddress_", QJsonValue.string "addrA"), ("amt", QJsonValue.double 10)])]
    ∧ appended (processCommand sampleSession3 ⟨8⟩ sampleCreateOrder false).2 = []
    ∧ (processCommand sampleSession3 ⟨8⟩ sampleCreateOrder false).1.backupFile_
        = sampleSession3.backupFile_
    ∧ (processCommand sampleSession3 ⟨8⟩ sampleCreateOrder false).1.backupFile_
        ≠ sampleSession3.backupFile_ ++ [sampleCreateOrder] := by
  refine ⟨rfl, rfl, rfl, rfl, ?_⟩
  intro h
  have h2 : ([sampleCreateOrder] : List QJsonValue) = [sampleCreateOrder, sampleCreateOrder] := h
  exact absurd (congrArg List.length h2) (by decide)

/-- C14 (amended). Log growth. Processing one parsed command appends exactly
the command line to the log when the command is a create_order, a
delete_order whose id is in the order table, a create_trade whose order is in
the order table or an update_trade whose trade id is in the trade table, and
the log file opens for append; it appends nothing in every other case. When
the command is none of these four (init, request_swap_commission, unknown
name, no object, absent id), the order table, the trade table and both
counters are unchanged too. The log always grows by exactly the lines
appended. -/
theorem C14_log_growth (s : AtomEngineServer) (sock : QTcpSocket) (doc : QJsonValue)
    (opens : Bool) :
    (mutates s doc → appended (processCommand s sock doc opens).2 = (if opens then [doc] else []))
    ∧ (¬ mutates s doc → appended (processCommand s sock doc opens).2 = []
        ∧ sameStore (processCommand s sock doc opens).1 s)
    ∧ (processCommand s sock doc opens).1.backupFile_
        = s.backupFile_ ++ appended (processCommand s sock doc opens).2 := by
  refine ⟨?_, ?_, (processCommand_frame s sock doc opens).2.2.1⟩
  · rintro ⟨hobj, h | ⟨hcmd, hf⟩ | ⟨hcmd, hf⟩ | ⟨hcmd, hf⟩⟩
    · rw [processCommand_create_order s sock doc opens hobj h]
      cases opens <;>
        simp [createOrderBlock, AtomEngineServer.saveCommand, appended, appended_append,
          appended_writeToAll]
    · obtain ⟨o, ho⟩ := Option.isSome_iff_exists.mp hf
      rw [processCommand_delete_order s sock doc opens hobj hcmd]
      cases opens <;>
        simp [deleteOrderBlock, AtomEngineServer.deleteOrder, ho, AtomEngineServer.saveCommand,
          appended, appended_append, appended_writeToAll]
    · obtain ⟨o, ho⟩ := Option.isSome_iff_exists.mp hf
      rw [processCommand_create_trade s sock doc opens hobj hcmd]
      cases opens <;>
        simp [createTradeBlock, AtomEngineServer.createTrade, ho, AtomEngineServer.saveCommand,
          appended, appended_append, appended_writeToAll, appended_makerDelivery]
    · obtain ⟨t, ht⟩ := Option.isSome_iff_exists.mp hf
      rw [processCommand_update_trade s sock doc opens hobj hcmd,
        updateTradeBlock_found s sock doc opens t ht]
      simp only [appended_append, appended_updateDelivery, List.append_nil]
      cases opens <;> simp [appended]
  · intro hno
    unfold mutates at hno
    have hstore := (processCommand_frame s sock doc opens).2.2.2
    by_cases h : doc.isObject = true
    swap
    · have h2 : doc.isObject = false := by simpa using h
      rw [processCommand_not_object s sock doc opens h2]
      exact ⟨rfl, sameStore_refl s⟩
    simp only [h, true_and, not_or, not_and] at hno
    obtain ⟨n3, n4, n5, n6⟩ := hno
    by_cases h1 : (QJsonObject.get doc.toObject "command").toQString = "init"
    · rw [processCommand_init s sock doc opens h h1]
      exact ⟨by simp [initBlock, appended], ⟨rfl, rfl, rfl, rfl⟩⟩
    by_cases h2 : (QJsonObject.get doc.toObject "command").toQString = "request_swap_commission"
    · rw [processCommand_request_swap_commission s sock doc opens h h2]
      exact ⟨by simp [requestSwapCommissionBlock, appended], ⟨rfl, rfl, rfl, rfl⟩⟩
    by_cases h4 : (QJsonObject.get doc.toObject "command").toQString = "delete_order"
    · have hf : StdMap.find s.orders_ (QJsonObject.get doc.toObject "id").toLongLong = none := by
        have := n4 h4
        cases hx : StdMap.find s.orders_ (QJsonObject.get doc.toObject "id").toLongLong with
        | none => rfl
        | some o => rw [hx] at this; simp at this
      rw [processCommand_delete_order s sock doc opens h h4]
      simp [deleteOrderBlock, AtomEngineServer.deleteOrder, hf, appended, sameStore_refl]
    by_cases h5 : (QJsonObject.get doc.toObject "command").toQString = "create_trade"
    · have hf : StdMap.find s.orders_ (QJsonObject.get doc.toObject "orderId").toLongLong
          = none := by
        have := n5 h5
        cases hx : StdMap.find s.orders_ (QJsonObject.get doc.toObject "orderId").toLongLong with
        | none => rfl
        | some o => rw [hx] at this; simp at this
      rw [processCommand_create_trade s sock doc opens h h5]
      simp [createTradeBlock, AtomEngineServer.createTrade, hf, appended, sameStore]
    by_cases h6 : (QJsonObject.get doc.toObject "command").toQString = "update_trade"
    · have hf : StdMap.find s.trades_ (QJsonObject.get
          (QJsonObject.get doc.toObject "trade").toObject "id").toLongLong = none := by
        have := n6 h6
        cases hx : StdMap.find s.trades_ (QJsonObject.get
          (QJsonObject.get doc.toObject "trade").toObject "id").toLongLong with
        | none => rfl
        | some o => rw [hx] at this; simp at this
      rw [processCommand_update_trade s sock doc opens h h6]
      simp [updateTradeBlock, AtomEngineServer.updateTrade, hf, appended, sameStore_refl]
    · rw [processCommand_other s sock doc opens h1 h2 n3 h4 h5 h6]
      exact ⟨rfl, sameStore_refl s⟩

/-- C14, at a concrete state: order 1 is in the table and the log file opens;
a create_trade on order 1 appends its line, an init command appends nothing
and leaves the store as it is. -/
theorem C14_log_growth_witness :
    mutates sampleSession3 sampleCreateTrade
    ∧ ¬ mutates sampleSession3 sampleInit
    ∧ appended (processCommand sampleSession3 ⟨8⟩ sampleCreateTrade true).2 = [sampleCreateTrade]
    ∧ (appended (processCommand sampleSession3 ⟨8⟩ sampleInit true).2 = []
        ∧ sameStore (processCommand sampleSession3 ⟨8⟩ sampleInit true).1 sampleSession3) :=
  ⟨⟨rfl, Or.inr (Or.inr (Or.inl ⟨rfl, rfl⟩))⟩,
    (by
      rintro ⟨_, h | ⟨h, _⟩ | ⟨h, _⟩ | ⟨h, _⟩⟩ <;> exact absurd h (by decide)),
    (C14_log_growth sampleSession3 ⟨8⟩ sampleCreateTrade true).1
      ⟨rfl, Or.inr (Or.inr (Or.inl ⟨rfl, rfl⟩))⟩,
    (C14_log_growth sampleSession3 ⟨8⟩ sampleInit true).2.1
      (by
        rintro ⟨_, h | ⟨h, _⟩ | ⟨h, _⟩ | ⟨h, _⟩⟩ <;> exact absurd h (by decide))⟩

/-- C14 as stated fails when the log file cannot be opened for append: order
1 is in the table, client 8 sends a create_trade on it, the order is consumed
and trade 1 is created, yet nothing is appended to the log. -/
theorem C14_counterexample :
    (StdMap.find sampleSession3.orders_ 1).isSome = true
    ∧ (processCommand sampleSession3 ⟨8⟩ sampleCreateTrade false).1.curTradeId_ = 1
    ∧ StdMap.find (processCommand sampleSession3 ⟨8⟩ sampleCreateTrade false).1.orders_ 1 = none
    ∧ appended (processCommand sampleSession3 ⟨8⟩ sampleCreateTrade false).2 = []
    ∧ (processCommand sampleSession3 ⟨8⟩ sampleCreateTrade false).1.backupFile_
        = sampleSession3.backupFile_ := by
  refine ⟨rfl, rfl, rfl, rfl, rfl⟩


/-- Where the log append stands among the effects of the four mutating
blocks when the log file opens. In the create_order block and in the
create_trade block that consumes an order, the append is the first effect and
the reply to the sender is written right after it. In the delete_order block
that removes an order and in the update_trade block that finds its trade, the
reply to the sender is written first and the append comes right after it. In
all four cases nothing else is appended. -/
theorem append_and_reply_order (s : AtomEngineServer) (sock : QTcpSocket)
    (doc : QJsonValue) (hobj : doc.isObject = true) :
    ((QJsonObject.get doc.toObject "command").toQString = "create_order" →
      ∃ rest, (processCommand s sock doc true).2
          = Effect.append doc
            :: Effect.write sock (Reply.create_order_success
                (OrderInfo.make (s.curOrderId_ + 1)
                  (QJsonObject.get doc.toObject "order").toObject))
            :: rest
        ∧ appended rest = [])
    ∧ ((QJsonObject.get doc.toObject "command").toQString = "create_trade" →
      ∀ o, StdMap.find s.orders_ (QJsonObject.get doc.toObject "orderId").toLongLong = some o →
      ∃ rest, (processCommand s sock doc true).2
          = Effect.append doc
            :: Effect.write sock (Reply.create_trade_success
                (TradeInfo.make (s.curTradeId_ + 1) o
                  (QJsonObject.get doc.toObject "address").toQString))
            :: rest
        ∧ appended rest = [])
    ∧ ((QJsonObject.get doc.toObject "command").toQString = "delete_order" →
      ∀ o, StdMap.find s.orders_ (QJsonObject.get doc.toObject "id").toLongLong = some o →
      ∃ rest, (processCommand s sock doc true).2
          = Effect.write sock
              (Reply.delete_order_success (QJsonObject.get doc.toObject "id").toLongLong)
            :: Effect.append doc :: rest
        ∧ appended rest = [])
    ∧ ((QJsonObject.get doc.toObject "command").toQString = "update_trade" →
      ∀ t, StdMap.find s.trades_ (QJsonObject.get
          (QJsonObject.get doc.toObject "trade").toObject "id").toLongLong = some t →
      ∃ rest, (processCommand s sock doc true).2
          = Effect.write sock Reply.update_trade_success :: Effect.append doc :: rest
        ∧ appended rest = []) := by
  refine ⟨?_, ?_, ?_, ?_⟩
  · intro hcmd
    rw [processCommand_create_order s sock doc true hobj hcmd]
    exact ⟨_, by
      simp only [createOrderBlock, AtomEngineServer.createOrder, AtomEngineServer.saveCommand,
        if_true, List.cons_append, List.nil_append]
      rfl, appended_writeToAll _ _ _⟩
  · intro hcmd o ho
    rw [processCommand_create_trade s sock doc true hobj hcmd]
    refine ⟨(makerDelivery
        { s with addrs_ := (StdMap.put s.addrs_ (QJsonObject.get doc.toObject "address").toQString
            sock.socketDescriptor) }
        sock.socketDescriptor
        (TradeInfo.make (s.curTradeId_ + 1) o
          (QJsonObject.get doc.toObject "address").toQString)).2
      ++ writeToAll s.connections_
          (fun k => decide (k ≠ sock.socketDescriptor)
            && decide (k ≠ (makerDelivery
              { s with addrs_ := (StdMap.put s.addrs_
                  (QJsonObject.get doc.toObject "address").toQString sock.socketDescriptor) }
              sock.socketDescriptor
              (TradeInfo.make (s.curTradeId_ + 1) o
                (QJsonObject.get doc.toObject "address").toQString)).1))
          (Reply.delete_order (QJsonObject.get doc.toObject "orderId").toLongLong), ?_, ?_⟩
    · simp [createTradeBlock, AtomEngineServer.createTrade, ho, AtomEngineServer.saveCommand,
        makerDelivery]
    · rw [appended_append, appended_makerDelivery, appended_writeToAll]
      rfl
  · intro hcmd o ho
    rw [processCommand_delete_order s sock doc true hobj hcmd]
    exact ⟨_, by
      simp only [deleteOrderBlock, AtomEngineServer.deleteOrder, ho,
        AtomEngineServer.saveCommand, if_true, List.cons_append, List.nil_append]
      rfl, appended_writeToAll _ _ _⟩
  · intro hcmd t ht
    rw [processCommand_update_trade s sock doc true hobj hcmd,
      updateTradeBlock_found s sock doc true t ht]
    exact ⟨_, by
      simp only [if_true, List.cons_append, List.nil_append]
      rfl, appended_updateDelivery _ _ _⟩

/-- The create_order block at a concrete state: client 8 publishes an order
with the log file open; the append is the first effect, the reply the second. -/
theorem append_and_reply_order_witness :
    sampleCreateOrder.isObject = true
    ∧ (QJsonObject.get sampleCreateOrder.toObject "command").toQString = "create_order"
    ∧ ∃ rest, (processCommand sampleSession3 ⟨8⟩ sampleCreateOrder true).2
          = Effect.append sampleCreateOrder
            :: Effect.write ⟨8⟩ (Reply.create_order_success
                (OrderInfo.make (sampleSession3.curOrderId_ + 1)
                  (QJsonObject.get sampleCreateOrder.toObject "order").toObject))
            :: rest
        ∧ appended rest = [] :=
  ⟨rfl, rfl, (append_and_reply_order sampleSession3 ⟨8⟩ sampleCreateOrder rfl).1 rfl⟩

/-- C13. Write-ahead ordering fails in two of the four mutating blocks. With
clients 7, 8, 9 connected, order 1 in the table and the log file open, client
7 deletes order 1: the command is appended to the log, yet the first effect is
the reply delete_order_success to 7 and the append comes second. With trade 1
in the table, client 8 updates it: the command is appended, yet the first
effect is the reply update_trade_success to 8 and the append comes second.
The sibling create_order block, in the first of these states, appends first
and replies second. -/
theorem C13_reply_precedes_append :
    (StdMap.find sampleSession3.orders_ 1).isSome = true
    ∧ (processCommand sampleSession3 ⟨7⟩ sampleDeleteOrder true).2
      = [Effect.write ⟨7⟩ (Reply.delete_order_success 1),
         Effect.append sampleDeleteOrder,
         Effect.write ⟨8⟩ (Reply.delete_order 1),
         Effect.write ⟨9⟩ (Reply.delete_order 1)]
    ∧ (StdMap.find sampleTrading.trades_ 1).isSome = true
    ∧ (processCommand sampleTrading ⟨8⟩ sampleUpdateTradeUnpaid true).2
      = [Effect.write ⟨8⟩ Reply.update_trade_success,
         Effect.append sampleUpdateTradeUnpaid,
         Effect.write ⟨7⟩ (Reply.update_trade
           (TradeInfo.update
             { TradeInfo.make 1 (OrderInfo.make 1
                 [("getAddress_", QJsonValue.string "addrA"), ("amt", QJsonValue.double 10)])
                 "addrB" with secretHash_ := "h", initiatorCommissionPaid_ := true }
             (QJsonObject.get sampleUpdateTradeUnpaid.toObject "trade").toObject))]
    ∧ (processCommand sampleSession3 ⟨8⟩ sampleCreateOrder true).2
      = [Effect.append sampleCreateOrder,
         Effect.write ⟨8⟩ (Reply.create_order_success
           (OrderInfo.make 2 (QJsonObject.get sampleCreateOrder.toObject "order").toObject)),
         Effect.write ⟨7⟩ (Reply.create_order
           (OrderInfo.make 2 (QJsonObject.get sampleCreateOrder.toObject "order").toObject)),
         Effect.write ⟨9⟩ (Reply.create_order
           (OrderInfo.make 2 (QJsonObject.get sampleCreateOrder.toObject "order").toObject))] := by
  refine ⟨rfl, rfl, rfl, rfl, rfl⟩


/-! ## Routing of update_trade -/

/-- In every reachable state every entry of `addrs_` refers to a key of
`connections_`. -/
theorem Reachable.addrsOK {fromJson : QByteArray → QJsonValue} {s : AtomEngineServer}
    (h : Reachable fromJson s) : AddrsOK s := by
  induction h with
  | run file opens =>
    obtain ⟨ops, h⟩ := load_store (AtomEngineServer.new file) opens
    unfold AddrsOK
    rw [h, (runOps_registry _ ops).2.1]
    intro e he
    simp [AtomEngineServer.new] at he
  | step s e _ hen ih => exact handle_addrsOK fromJson s e ih hen

theorem foldl_dropConnection_descrOK (sock : QTcpSocket) (conns : List (Int × QTcpSocket))
    (s : AtomEngineServer) (h : DescrOK s) : DescrOK (conns.foldl (dropConnection sock) s) := by
  induction conns generalizing s with
  | nil => exact h
  | cons e rest ih =>
    apply ih
    unfold dropConnection
    split_ifs
    · exact fun a ha => h a (StdMap.mem_erase _ _ a ha).1
    · exact h

/-- In every reachable state every key of `connections_` is a valid
descriptor. -/
theorem Reachable.descrOK {fromJson : QByteArray → QJsonValue} {s : AtomEngineServer}
    (h : Reachable fromJson s) : DescrOK s := by
  induction h with
  | run file opens =>
    obtain ⟨ops, h⟩ := load_store (AtomEngineServer.new file) opens
    unfold DescrOK
    rw [h, (runOps_registry _ ops).1]
    intro e he
    simp [AtomEngineServer.new] at he
  | step s e _ hen ih =>
    cases e with
    | newConnection sock =>
      intro a ha
      rcases StdMap.mem_assign s.connections_ sock.socketDescriptor sock a ha with h1 | h1
      · exact ih a h1
      · rw [h1]
        exact hen
    | readyRead sock answer opens =>
      unfold DescrOK
      show ∀ e ∈ (s.onReadyRead fromJson sock answer opens).1.connections_, 0 ≤ e.1
      rw [(onReadyRead_frame fromJson s sock answer opens).1]
      exact ih
    | disconnected sock => exact foldl_dropConnection_descrOK sock s.connections_ s ih

/-- In a reachable state an address that `addrs_` maps leads to an open
socket, and its descriptor is not the sentinel -1. -/
theorem Reachable.addr_open {fromJson : QByteArray → QJsonValue} {s : AtomEngineServer}
    (h : Reachable fromJson s) (addr : String) (d : Int)
    (hd : StdMap.find s.addrs_ addr = some d) :
    d ≠ -1 ∧ ∃ socket, StdMap.find s.connections_ d = some socket := by
  obtain ⟨socket, hs⟩ := h.addrsOK (addr, d) (StdMap.mem_of_find _ _ _ hd)
  have h0 : 0 ≤ d := h.descrOK (d, socket) (StdMap.mem_of_find _ _ _ hs)
  exact ⟨by omega, socket, hs⟩

/-- C12. update_trade routing. In a reachable state, for an update_trade
command from `sock`: the first frame the sender receives is
update_trade_success, whether the trade is found or not, and when it is not
found nothing else happens. When the trade is found (u is the updated trade)
with a the `addrs_` entry of the maker address and b that of the initiator
address: if either is unmapped no update_trade frame is written; if a is the
sender and b is not, the update_trade frame is written only to the socket of
b; if b is the sender and a is not, only to the socket of a; if neither is
the sender, only to the socket of a. In each case the socket is open. -/
theorem C12_update_trade_routing (fromJson : QByteArray → QJsonValue) (s : AtomEngineServer)
    (sock : QTcpSocket) (doc : QJsonValue) (opens : Bool)
    (hr : Reachable fromJson s) (hobj : doc.isObject = true)
    (hcmd : (QJsonObject.get doc.toObject "command").toQString = "update_trade") :
    (received sock (processCommand s sock doc opens).2).head? = some Reply.update_trade_success
    ∧ (StdMap.find s.trades_ (QJsonObject.get
          (QJsonObject.get doc.toObject "trade").toObject "id").toLongLong = none →
        (processCommand s sock doc opens).2 = [Effect.write sock Reply.update_trade_success])
    ∧ (∀ t, StdMap.find s.trades_ (QJsonObject.get
          (QJsonObject.get doc.toObject "trade").toObject "id").toLongLong = some t →
        ((StdMap.find s.addrs_ t.order_.getAddress_ = none
            ∨ StdMap.find s.addrs_ t.initiatorAddress_ = none) →
          (processCommand s sock doc opens).2
            = [Effect.write sock Reply.update_trade_success]
              ++ (if opens then [Effect.append doc] else []))
        ∧ (∀ a b, StdMap.find s.addrs_ t.order_.getAddress_ = some a →
            StdMap.find s.addrs_ t.initiatorAddress_ = some b →
            (a = sock.socketDescriptor → b ≠ sock.socketDescriptor →
              ∃ bsock, StdMap.find s.connections_ b = some bsock
                ∧ (processCommand s sock doc opens).2
                  = [Effect.write sock Reply.update_trade_success]
                    ++ (if opens then [Effect.append doc] else [])
                    ++ [Effect.write bsock (Reply.update_trade
                        (TradeInfo.update t (QJsonObject.get doc.toObject "trade").toObject))])
            ∧ (a ≠ sock.socketDescriptor →
              ∃ asock, StdMap.find s.connections_ a = some asock
                ∧ (processCommand s sock doc opens).2
                  = [Effect.write sock Reply.update_trade_success]
                    ++ (if opens then [Effect.append doc] else [])
                    ++ [Effect.write asock (Reply.update_trade
                        (TradeInfo.update t (QJsonObject.get doc.toObject "trade").toObject))]))) := by
  rw [processCommand_update_trade s sock doc opens hobj hcmd]
  have hnone : StdMap.find s.trades_ (QJsonObject.get
        (QJsonObject.get doc.toObject "trade").toObject "id").toLongLong = none →
      (updateTradeBlock s sock doc doc.toObject opens).2
        = [Effect.write sock Reply.update_trade_success] := by
    intro hf
    simp [updateTradeBlock, AtomEngineServer.updateTrade, hf]
  refine ⟨?_, hnone, ?_⟩
  · cases hf : StdMap.find s.trades_ (QJsonObject.get
        (QJsonObject.get doc.toObject "trade").toObject "id").toLongLong with
    | none =>
      rw [hnone hf]
      simp [received]
    | some t =>
      rw [updateTradeBlock_found s sock doc opens t hf]
      simp [received_append, received]
  · intro t ht
    rw [updateTradeBlock_found s sock doc opens t ht]
    have horder : (TradeInfo.update t (QJsonObject.get doc.toObject "trade").toObject).order_
        = t.order_ := rfl
    have hinit : (TradeInfo.update t
        (QJsonObject.get doc.toObject "trade").toObject).initiatorAddress_
        = t.initiatorAddress_ := rfl
    refine ⟨?_, ?_⟩
    · intro hun
      have hanother : anotherConnectionDescr s sock.socketDescriptor
          (TradeInfo.update t (QJsonObject.get doc.toObject "trade").toObject) = -1 := by
        unfold anotherConnectionDescr
        rw [horder, hinit]
        rcases hun with h | h
        · rw [h]
        · rw [h]
          cases StdMap.find s.addrs_ t.order_.getAddress_ <;> rfl
      simp [hanother]
    · intro a b ha hb
      have hval : anotherConnectionDescr s sock.socketDescriptor
          (TradeInfo.update t (QJsonObject.get doc.toObject "trade").toObject)
          = if a = sock.socketDescriptor then b else a := by
        unfold anotherConnectionDescr
        rw [horder, hinit, ha, hb]
      refine ⟨?_, ?_⟩
      · intro has hbs
        obtain ⟨hb1, bsock, hbsock⟩ := hr.addr_open _ b hb
        refine ⟨bsock, hbsock, ?_⟩
        simp [hval, has, hb1, hbsock]
      · intro has
        obtain ⟨ha1, asock, hasock⟩ := hr.addr_open _ a ha
        refine ⟨asock, hasock, ?_⟩
        simp [hval, has, ha1, hasock]

theorem sampleTrading_reachable : Reachable sampleFromJson sampleTrading :=
  Reachable.runEvents sampleLoaded_reachable _
    ⟨show (0 : Int) ≤ 7 by decide, by rfl, show (0 : Int) ≤ 8 by decide, by rfl,
      show (0 : Int) ≤ 9 by decide, trivial⟩

theorem sampleTrading_registry :
    sampleTrading.connections_ = [(7, ⟨7⟩), (8, ⟨8⟩), (9, ⟨9⟩)]
    ∧ sampleTrading.addrs_ = [("addrA", 7), ("addrB", 8)]
    ∧ sampleTrading.orders_ = []
    ∧ StdMap.keys sampleTrading.trades_ = [1] := by
  refine ⟨rfl, rfl, rfl, rfl⟩

/-- C12, at a concrete state: trade 1 has maker address `addrA`, claimed by
client 7, and initiator address `addrB`, claimed by client 8; client 9 is
connected too. Client 8 sends an update_trade: the frame goes to 7 only. -/
theorem C12_update_trade_routing_witness :
    Reachable sampleFromJson sampleTrading
    ∧ sampleUpdateTradeUnpaid.isObject = true
    ∧ (QJsonObject.get sampleUpdateTradeUnpaid.toObject "command").toQString = "update_trade"
    ∧ (received ⟨8⟩ (processCommand sampleTrading ⟨8⟩ sampleUpdateTradeUnpaid true).2).head?
        = some Reply.update_trade_success
    ∧ ∃ asock, StdMap.find sampleTrading.connections_ 7 = some asock
        ∧ (processCommand sampleTrading ⟨8⟩ sampleUpdateTradeUnpaid true).2
          = [Effect.write ⟨8⟩ Reply.update_trade_success]
            ++ (if true then [Effect.append sampleUpdateTradeUnpaid] else [])
            ++ [Effect.write asock (Reply.update_trade
                (TradeInfo.update
                  { TradeInfo.make 1 (OrderInfo.make 1
                      [("getAddress_", QJsonValue.string "addrA"), ("amt", QJsonValue.double 10)])
                      "addrB" with secretHash_ := "h", initiatorCommissionPaid_ := true }
                  (QJsonObject.get sampleUpdateTradeUnpaid.toObject "trade").toObject))] :=
  ⟨sampleTrading_reachable, rfl, rfl,
    (C12_update_trade_routing sampleFromJson sampleTrading ⟨8⟩ sampleUpdateTradeUnpaid true
      sampleTrading_reachable rfl rfl).1,
    ((C12_update_trade_routing sampleFromJson sampleTrading ⟨8⟩ sampleUpdateTradeUnpaid true
      sampleTrading_reachable rfl rfl).2.2
      { TradeInfo.make 1 (OrderInfo.make 1
          [("getAddress_", QJsonValue.string "addrA"), ("amt", QJsonValue.double 10)])
          "addrB" with secretHash_ := "h", initiatorCommissionPaid_ := true }
      rfl).2 7 8 rfl rfl |>.2 (by decide)⟩


/-! ## The init reply -/

theorem StdMap.values_map_of_keyed {K V : Type} (m : StdMap K V) (f : V → K)
    (h : ∀ e ∈ m, f e.2 = e.1) : (StdMap.values m).map f = StdMap.keys m := by
  unfold StdMap.values StdMap.keys
  rw [List.map_map]
  exact List.map_congr_left (fun e he => h e he)

theorem StdMap.mem_values_iff {K V : Type} (m : StdMap K V) (v : V) :
    v ∈ StdMap.values m ↔ ∃ k, (k, v) ∈ m := by
  unfold StdMap.values
  simp [List.mem_map]

theorem StdMap.mem_values_iff_find {K V : Type} [LinearOrder K] (m : StdMap K V) (v : V)
    (h : StdMap.WF m) : v ∈ StdMap.values m ↔ ∃ k, StdMap.find m k = some v := by
  rw [StdMap.mem_values_iff]
  constructor
  · rintro ⟨k, hk⟩
    exact ⟨k, StdMap.find_of_mem m (k, v) h hk⟩
  · rintro ⟨k, hk⟩
    exact ⟨k, StdMap.mem_of_find m k v hk⟩

/-- C11. The init reply. For every state and every init command the sender
gets exactly one frame, init_success, and nothing is written to anyone else.
Its order list is the whole order table in iteration order, unfiltered. Its
trade list is the trade table in iteration order restricted to the trades
whose order maker address or initiator address is among the addresses listed
in this command; the addresses claimed earlier play no part: a state with the
same order and trade tables gives the same reply whatever its address map.
Counters, order table, trade table and log are unchanged, and nothing is
appended. In a state that an execution can reach, the iteration order is the
order of ids: the listed order ids and the listed trade ids are strictly
increasing, and the listed orders and trades are characterised by lookup. -/
theorem C11_init_reply (fromJson : QByteArray → QJsonValue) (s : AtomEngineServer)
    (sock : QTcpSocket) (doc : QJsonValue) (opens : Bool)
    (hobj : doc.isObject = true)
    (hcmd : (QJsonObject.get doc.toObject "command").toQString = "init") :
    ∃ orders trades,
      (processCommand s sock doc opens).2
          = [Effect.write sock (Reply.init_success orders trades)]
      ∧ orders = StdMap.values s.orders_
      ∧ (∀ o, o ∈ orders ↔ ∃ k, (k, o) ∈ s.orders_)
      ∧ List.Sublist trades (StdMap.values s.trades_)
      ∧ (∀ t, t ∈ trades ↔
          (∃ k, (k, t) ∈ s.trades_)
            ∧ (t.order_.getAddress_ ∈ listedAddrs doc.toObject
                ∨ t.initiatorAddress_ ∈ listedAddrs doc.toObject))
      ∧ (∀ s2 : AtomEngineServer, s2.orders_ = s.orders_ → s2.trades_ = s.trades_ →
          (processCommand s2 sock doc opens).2 = (processCommand s sock doc opens).2)
      ∧ sameStore s (processCommand s sock doc opens).1
      ∧ (processCommand s sock doc opens).1.backupFile_ = s.backupFile_
      ∧ appended (processCommand s sock doc opens).2 = []
      ∧ (Reachable fromJson s →
          (orders.map (fun o => o.id_)).Pairwise (fun a b => a < b)
          ∧ (trades.map (fun t => t.id_)).Pairwise (fun a b => a < b)
          ∧ (∀ o, o ∈ orders ↔ ∃ k, StdMap.find s.orders_ k = some o)
          ∧ (∀ t, t ∈ trades ↔
              (∃ k, StdMap.find s.trades_ k = some t)
                ∧ (t.order_.getAddress_ ∈ listedAddrs doc.toObject
                    ∨ t.initiatorAddress_ ∈ listedAddrs doc.toObject))) := by
  have hfilter : ∀ (m : StdMap Int TradeInfo) (t : TradeInfo),
      t ∈ (StdMap.values m).filter
          (fun t => decide (t.order_.getAddress_ ∈ listedAddrs doc.toObject)
            || decide (t.initiatorAddress_ ∈ listedAddrs doc.toObject))
        ↔ t ∈ StdMap.values m
          ∧ (t.order_.getAddress_ ∈ listedAddrs doc.toObject
              ∨ t.initiatorAddress_ ∈ listedAddrs doc.toObject) := by
    intro m t
    simp [List.mem_filter]
  refine ⟨StdMap.values s.orders_,
    (StdMap.values s.trades_).filter
      (fun t => decide (t.order_.getAddress_ ∈ listedAddrs doc.toObject)
        || decide (t.initiatorAddress_ ∈ listedAddrs doc.toObject)), ?_, rfl, ?_, ?_, ?_, ?_, ?_,
    ?_, ?_, ?_⟩
  · rw [processCommand_init s sock doc opens hobj hcmd]
    rfl
  · intro o
    exact StdMap.mem_values_iff _ o
  · exact List.filter_sublist _
  · intro t
    rw [hfilter, StdMap.mem_values_iff]
  · intro s2 h1 h2
    rw [processCommand_init s sock doc opens hobj hcmd,
      processCommand_init s2 sock doc opens hobj hcmd]
    simp only [initBlock, h1, h2]
  · rw [processCommand_init s sock doc opens hobj hcmd]
    exact ⟨rfl, rfl, rfl, rfl⟩
  · rw [processCommand_init s sock doc opens hobj hcmd]
    rfl
  · rw [processCommand_init s sock doc opens hobj hcmd]
    rfl
  · intro hr
    obtain ⟨⟨_, _, hord, htr⟩, ⟨hwo, hwt⟩, _, _⟩ := hr.storeOK
    have hko : (StdMap.values s.orders_).map (fun o => o.id_) = StdMap.keys s.orders_ :=
      StdMap.values_map_of_keyed s.orders_ (fun o => o.id_)
        (fun e he => (hord e.1 e.2 (StdMap.find_of_mem s.orders_ e hwo he)).2.2)
    have hkt : (StdMap.values s.trades_).map (fun t => t.id_) = StdMap.keys s.trades_ :=
      StdMap.values_map_of_keyed s.trades_ (fun t => t.id_)
        (fun e he => (htr e.1 e.2 (StdMap.find_of_mem s.trades_ e hwt he)).2.2)
    refine ⟨?_, ?_, ?_, ?_⟩
    · rw [hko]
      exact hwo
    · have hsub : List.Sublist
          (((StdMap.values s.trades_).filter
            (fun t => decide (t.order_.getAddress_ ∈ listedAddrs doc.toObject)
              || decide (t.initiatorAddress_ ∈ listedAddrs doc.toObject))).map (fun t => t.id_))
          ((StdMap.values s.trades_).map (fun t => t.id_)) :=
        List.Sublist.map _ (List.filter_sublist _)
      rw [hkt] at hsub
      exact List.Pairwise.sublist hsub hwt
    · intro o
      exact StdMap.mem_values_iff_find _ o hwo
    · intro t
      rw [hfilter, StdMap.mem_values_iff_find _ t hwt]

/-- C11, at a concrete state: the trade table holds trade 1 with maker
address `addrA` and initiator address `addrB`; client 9, which claimed
nothing before, sends an init command listing `addrB` and is sent the trade. -/
theorem C11_init_reply_witness :
    sampleInitB.isObject = true
    ∧ (QJsonObject.get sampleInitB.toObject "command").toQString = "init"
    ∧ listedAddrs sampleInitB.toObject = ["addrB"]
    ∧ (processCommand sampleTrading ⟨9⟩ sampleInitB true).2
        = [Effect.write ⟨9⟩ (Reply.init_success []
            [{ TradeInfo.make 1 (OrderInfo.make 1
                [("getAddress_", QJsonValue.string "addrA"), ("amt", QJsonValue.double 10)])
                "addrB" with secretHash_ := "h", initiatorCommissionPaid_ := true }])]
    ∧ ∃ orders trades,
      (processCommand sampleTrading ⟨9⟩ sampleInitB true).2
          = [Effect.write ⟨9⟩ (Reply.init_success orders trades)]
      ∧ orders = StdMap.values sampleTrading.orders_
      ∧ ∀ t, t ∈ trades ↔
          (∃ k, (k, t) ∈ sampleTrading.trades_)
            ∧ (t.order_.getAddress_ ∈ listedAddrs sampleInitB.toObject
                ∨ t.initiatorAddress_ ∈ listedAddrs sampleInitB.toObject) :=
  ⟨rfl, rfl, rfl, rfl,
    (C11_init_reply sampleFromJson sampleTrading ⟨9⟩ sampleInitB true rfl rfl).imp
      (fun _ h => h.imp (fun _ h2 => ⟨h2.1, h2.2.1, h2.2.2.2.2.1⟩))⟩


/-! ## Closing a connection -/

theorem StdMap.erase_assign {K V : Type} [LinearOrder K] (m : StdMap K V) (k : K) (v : V) :
    StdMap.erase (StdMap.assign m k v) k = StdMap.erase m k := by
  induction m with
  | nil => simp [StdMap.assign, StdMap.erase]
  | cons e rest ih =>
    obtain ⟨k2, v2⟩ := e
    unfold StdMap.assign
    by_cases h1 : k < k2
    · simp [h1, StdMap.erase]
    · by_cases h2 : k = k2
      · subst h2
        simp [StdMap.erase]
      · have h3 : ¬ k2 = k := fun h => h2 h.symm
        simp [h1, h2, h3, StdMap.erase, ih]

theorem StdMap.erase_erase {K V : Type} [DecidableEq K] (m : StdMap K V) (k : K) :
    StdMap.erase (StdMap.erase m k) k = StdMap.erase m k := by
  induction m with
  | nil => rfl
  | cons e rest ih =>
    obtain ⟨k2, v2⟩ := e
    by_cases h : k2 = k
    · simp [StdMap.erase, h, ih]
    · simp [StdMap.erase, h, ih]

theorem StdMap.eraseValue_eq_filter {K V : Type} [DecidableEq V] (m : StdMap K V) (val : V) :
    StdMap.eraseValue m val = m.filter (fun e => decide (e.2 ≠ val)) := by
  induction m with
  | nil => rfl
  | cons e rest ih =>
    obtain ⟨k2, v2⟩ := e
    by_cases h : v2 = val
    · simp [StdMap.eraseValue, h, ih]
    · simp [StdMap.eraseValue, h, ih]

theorem StdMap.eraseValue_eraseValue {K V : Type} [DecidableEq V] (m : StdMap K V) (val : V) :
    StdMap.eraseValue (StdMap.eraseValue m val) val = StdMap.eraseValue m val := by
  rw [StdMap.eraseValue_eq_filter, StdMap.eraseValue_eq_filter, List.filter_filter]
  simp

theorem dropConnection_own (sock : QTcpSocket) (s : AtomEngineServer) :
    dropConnection sock s (sock.socketDescriptor, sock)
      = { s with addrs_ := StdMap.eraseValue s.addrs_ sock.socketDescriptor
                 buffers_ := StdMap.erase s.buffers_ sock.socketDescriptor
                 connections_ := StdMap.erase s.connections_ sock.socketDescriptor } := by
  simp [dropConnection]

theorem dropConnection_eq (sock : QTcpSocket) (s : AtomEngineServer) (e : Int × QTcpSocket)
    (he : e.2.socketDescriptor = e.1) :
    dropConnection sock s e
      = if e.2 = sock then dropConnection sock s (sock.socketDescriptor, sock) else s := by
  unfold dropConnection
  by_cases h : e.2 = sock
  · have h2 : e.1 = sock.socketDescriptor := by rw [← he, h]
    simp [h, h2]
  · simp [h]

theorem dropConnection_again (sock : QTcpSocket) (s : AtomEngineServer) :
    dropConnection sock (dropConnection sock s (sock.socketDescriptor, sock))
        (sock.socketDescriptor, sock)
      = dropConnection sock s (sock.socketDescriptor, sock) := by
  rw [dropConnection_own, dropConnection_own]
  simp [StdMap.erase_erase, StdMap.eraseValue_eraseValue]

theorem foldl_dropConnection_dropped (sock : QTcpSocket) (conns : List (Int × QTcpSocket))
    (s : AtomEngineServer) (hreg : ∀ e ∈ conns, e.2.socketDescriptor = e.1) :
    conns.foldl (dropConnection sock) (dropConnection sock s (sock.socketDescriptor, sock))
      = dropConnection sock s (sock.socketDescriptor, sock) := by
  induction conns with
  | nil => rfl
  | cons e rest ih =>
    rw [List.foldl_cons, dropConnection_eq sock _ e (hreg e (List.mem_cons_self _ _))]
    by_cases h : e.2 = sock
    · rw [if_pos h, dropConnection_again]
      exact ih (fun a ha => hreg a (List.mem_cons_of_mem _ ha))
    · rw [if_neg h]
      exact ih (fun a ha => hreg a (List.mem_cons_of_mem _ ha))

theorem foldl_dropConnection_open (sock : QTcpSocket) (conns : List (Int × QTcpSocket))
    (s : AtomEngineServer) (hreg : ∀ e ∈ conns, e.2.socketDescriptor = e.1)
    (hmem : (sock.socketDescriptor, sock) ∈ conns) :
    conns.foldl (dropConnection sock) s
      = dropConnection sock s (sock.socketDescriptor, sock) := by
  induction conns generalizing s with
  | nil => simp at hmem
  | cons e rest ih =>
    rw [List.foldl_cons, dropConnection_eq sock _ e (hreg e (List.mem_cons_self _ _))]
    by_cases h : e.2 = sock
    · rw [if_pos h]
      exact foldl_dropConnection_dropped sock rest s
        (fun a ha => hreg a (List.mem_cons_of_mem _ ha))
    · rw [if_neg h]
      refine ih s (fun a ha => hreg a (List.mem_cons_of_mem _ ha)) ?_
      rcases List.mem_cons.mp hmem with h2 | h2
      · exact absurd (by rw [← h2]) h
      · exact h2

/-- Closing an open connection in a consistent registry is one removal from
each of the three maps, under the descriptor of the socket. -/
theorem onClientDisconnected_open (s : AtomEngineServer) (sock : QTcpSocket)
    (hreg : RegistryOK s)
    (hopen : StdMap.find s.connections_ sock.socketDescriptor = some sock) :
    s.onClientDisconnected sock
      = { s with addrs_ := StdMap.eraseValue s.addrs_ sock.socketDescriptor
                 buffers_ := StdMap.erase s.buffers_ sock.socketDescriptor
                 connections_ := StdMap.erase s.connections_ sock.socketDescriptor } := by
  unfold AtomEngineServer.onClientDisconnected
  rw [foldl_dropConnection_open sock s.connections_ s hreg.2
    (StdMap.mem_of_find _ _ _ hopen), dropConnection_own]

theorem onReadyRead_buffers (fromJson : QByteArray → QJsonValue) (s : AtomEngineServer)
    (sock : QTcpSocket) (answer : QByteArray) (opens : Nat → Bool) :
    (s.onReadyRead fromJson sock answer opens).1.buffers_
      = StdMap.assign s.buffers_ sock.socketDescriptor
          (arrive ((StdMap.find s.buffers_ sock.socketDescriptor).getD []) answer).2 := by
  unfold AtomEngineServer.onReadyRead arrive
  simp only []
  cases hf : frame ((StdMap.find s.buffers_ sock.socketDescriptor).getD [] ++ answer) with
  | none => rfl
  | some r =>
    obtain ⟨commands, remainder⟩ := r
    simp only []
    rw [(processLines_frame fromJson sock opens _ 0 commands).2.1]

theorem foldl_dropConnection_buffersOK (sock : QTcpSocket) (conns : List (Int × QTcpSocket))
    (s : AtomEngineServer) (h : BuffersOK s) :
    BuffersOK (conns.foldl (dropConnection sock) s) := by
  induction conns generalizing s with
  | nil => exact h
  | cons e rest ih =>
    apply ih
    unfold dropConnection
    split_ifs
    · exact fun a ha => h a (StdMap.mem_erase _ _ a ha).1
    · exact h

/-- In every reachable state no receive buffer holds a line feed. -/
theorem Reachable.buffersOK {fromJson : QByteArray → QJsonValue} {s : AtomEngineServer}
    (h : Reachable fromJson s) : BuffersOK s := by
  induction h with
  | run file opens =>
    obtain ⟨ops, h⟩ := load_store (AtomEngineServer.new file) opens
    unfold BuffersOK
    rw [h, (runOps_registry _ ops).2.2.1]
    simp [AtomEngineServer.new]
  | step s e _ _ ih =>
    cases e with
    | newConnection sock => exact ih
    | readyRead sock answer opens =>
      intro a ha
      have hb : a ∈ (s.onReadyRead fromJson sock answer opens).1.buffers_ := ha
      rw [onReadyRead_buffers] at hb
      rcases StdMap.mem_assign _ _ _ a hb with h1 | h1
      · exact ih a h1
      · rw [h1, arrive_spec]
        exact lastPiece_split_no_LF _
    | disconnected sock => exact foldl_dropConnection_buffersOK sock s.connections_ s ih

theorem frame_no_LF (x : QByteArray) (h : LF ∉ x) : frame x = none := by
  rcases frame_spec x with ⟨_, h2⟩ | ⟨a, b, h1, _, _⟩
  · exact h2
  · exact absurd (by rw [h1]; simp) h

theorem arrive_one_line (line : QByteArray) (hl : LF ∉ line) (hne : line ≠ []) :
    arrive [] (line ++ [LF]) = ([line], []) := by
  rw [arrive_spec]
  have hs : split ([] ++ (line ++ [LF])) = [line, []] := by
    rw [List.nil_append, split_append_LF, split_no_LF line hl]
    rfl
  rw [hs]
  have hlen : line.length ≠ 0 := fun h => hne (List.length_eq_zero.mp h)
  simp [List.dropLast, lastPiece, hlen, hne]

/-- C17. Closing a connection. In a state that an execution can reach, with
the socket open: (1) the close removes the socket's descriptor from
connections_ and from buffers_ and leaves every other key of both maps as it
was; addrs_ loses exactly the entries whose value is the descriptor, the other
entries stay, in the same order; counters, tables and log are unchanged.
(2) Bytes without a line feed that arrive on the connection produce no effect
and change nothing of the store, and once the connection is closed the state
is the same as if those bytes had never arrived. (3) When a connection with
the same descriptor is opened afterwards its buffer is absent, and when it
sends a full non-empty line followed by a line feed, the outcome is that of
dispatching the parsed line exactly once from an empty buffer: the earlier
bytes are no part of what is parsed. -/
theorem C17_close_drops_buffer (fromJson : QByteArray → QJsonValue) (s : AtomEngineServer)
    (sock : QTcpSocket) (fragment line : QByteArray) (opens : Nat → Bool) (opens2 : Bool)
    (hr : Reachable fromJson s)
    (hopen : StdMap.find s.connections_ sock.socketDescriptor = some sock)
    (hf : LF ∉ fragment) (hl : LF ∉ line) (hne : line ≠ []) :
    (StdMap.find (s.onClientDisconnected sock).connections_ sock.socketDescriptor = none
      ∧ (∀ k, k ≠ sock.socketDescriptor →
          StdMap.find (s.onClientDisconnected sock).connections_ k
            = StdMap.find s.connections_ k)
      ∧ StdMap.find (s.onClientDisconnected sock).buffers_ sock.socketDescriptor = none
      ∧ (∀ k, k ≠ sock.socketDescriptor →
          StdMap.find (s.onClientDisconnected sock).buffers_ k = StdMap.find s.buffers_ k)
      ∧ (s.onClientDisconnected sock).addrs_
          = s.addrs_.filter (fun e => decide (e.2 ≠ sock.socketDescriptor))
      ∧ sameStore s (s.onClientDisconnected sock)
      ∧ (s.onClientDisconnected sock).backupFile_ = s.backupFile_)
    ∧ ((s.onReadyRead fromJson sock fragment opens).2 = []
      ∧ sameStore s (s.onReadyRead fromJson sock fragment opens).1
      ∧ (s.onReadyRead fromJson sock fragment opens).1.backupFile_ = s.backupFile_
      ∧ (s.onReadyRead fromJson sock fragment opens).1.onClientDisconnected sock
          = s.onClientDisconnected sock)
    ∧ (StdMap.find (((s.onReadyRead fromJson sock fragment opens).1.onClientDisconnected
          sock).onNewConnection sock).buffers_ sock.socketDescriptor = none
      ∧ (((s.onReadyRead fromJson sock fragment opens).1.onClientDisconnected
            sock).onNewConnection sock).onReadyRead fromJson sock (line ++ [LF])
            (fun _ => opens2)
          = processCommand
              { ((s.onReadyRead fromJson sock fragment opens).1.onClientDisconnected
                  sock).onNewConnection sock with
                buffers_ := (StdMap.assign (((s.onReadyRead fromJson sock fragment
                  opens).1.onClientDisconnected sock).onNewConnection sock).buffers_
                  sock.socketDescriptor []) }
              sock (fromJson line) opens2) := by
  have hreg := hr.registryOK
  have hbuf : LF ∉ (StdMap.find s.buffers_ sock.socketDescriptor).getD [] := by
    cases hb : StdMap.find s.buffers_ sock.socketDescriptor with
    | none => simp
    | some b => exact hr.buffersOK _ (StdMap.mem_of_find _ _ _ hb)
  have hnone : frame ((StdMap.find s.buffers_ sock.socketDescriptor).getD [] ++ fragment)
      = none := by
    apply frame_no_LF
    intro h
    rcases List.mem_append.mp h with h | h
    · exact hbuf h
    · exact hf h
  have hread : s.onReadyRead fromJson sock fragment opens
      = ({ s with buffers_ := (StdMap.assign s.buffers_ sock.socketDescriptor
            ((StdMap.find s.buffers_ sock.socketDescriptor).getD [] ++ fragment)) }, []) := by
    unfold AtomEngineServer.onReadyRead
    simp only [hnone]
  have hclose := onClientDisconnected_open s sock hreg hopen
  have hclose2 : (s.onReadyRead fromJson sock fragment opens).1.onClientDisconnected sock
      = s.onClientDisconnected sock := by
    rw [hread, hclose]
    have h2 := onClientDisconnected_open
      { s with buffers_ := (StdMap.assign s.buffers_ sock.socketDescriptor
          ((StdMap.find s.buffers_ sock.socketDescriptor).getD [] ++ fragment)) } sock hreg hopen
    rw [StdMap.erase_assign] at h2
    exact h2
  have hgone : StdMap.find (s.onClientDisconnected sock).buffers_ sock.socketDescriptor
      = none := by
    rw [hclose]
    exact StdMap.find_erase_self _ _
  refine ⟨⟨?_, ?_, hgone, ?_, ?_, ?_, ?_⟩, ⟨?_, ?_, ?_, hclose2⟩, ?_, ?_⟩
  · rw [hclose]
    exact StdMap.find_erase_self _ _
  · intro k hk
    rw [hclose]
    exact StdMap.find_erase_ne _ _ _ hk
  · intro k hk
    rw [hclose]
    exact StdMap.find_erase_ne _ _ _ hk
  · rw [hclose]
    exact StdMap.eraseValue_eq_filter _ _
  · rw [hclose]
    exact ⟨rfl, rfl, rfl, rfl⟩
  · rw [hclose]
  · rw [hread]
  · rw [hread]
    exact ⟨rfl, rfl, rfl, rfl⟩
  · rw [hread]
  · rw [hclose2]
    exact hgone
  · rw [onReadyRead_arrive]
    have hb : StdMap.find (((s.onReadyRead fromJson sock fragment opens).1.onClientDisconnected
        sock).onNewConnection sock).buffers_ sock.socketDescriptor = none := by
      rw [hclose2]
      exact hgone
    rw [hb]
    simp only [Option.getD_none]
    rw [arrive_one_line line hl hne]
    have hlen : line.length ≠ 0 := fun h => hne (List.length_eq_zero.mp h)
    simp [processLines, hlen]

/-- C17, at a concrete state: clients 7, 8, 9 are connected, order 1 is in
the table and `addrA` is claimed by 7. Client 7 sends the first bytes of a
delete_order line, without a line feed, and disconnects: nothing happens and
`addrA` is released. A client connects under descriptor 7 again and sends the
whole line: order 1 is deleted once. -/
theorem C17_close_drops_buffer_witness :
    Reachable sampleFromJson sampleSession3
    ∧ StdMap.find sampleSession3.connections_ 7 = some ⟨7⟩
    ∧ LF ∉ bytesOf "\x7b\"command\":\"delete_"
    ∧ LF ∉ bytesOf "\x7b\"command\":\"delete_order\",\"id\":1\x7d"
    ∧ bytesOf "\x7b\"command\":\"delete_order\",\"id\":1\x7d" ≠ []
    ∧ (sampleSession3.onClientDisconnected ⟨7⟩).addrs_ = []
    ∧ (sampleSession3.onReadyRead sampleFromJson ⟨7⟩ (bytesOf "\x7b\"command\":\"delete_")
        (fun _ => true)).2 = []
    ∧ ((((sampleSession3.onReadyRead sampleFromJson ⟨7⟩ (bytesOf "\x7b\"command\":\"delete_")
          (fun _ => true)).1.onClientDisconnected ⟨7⟩).onNewConnection ⟨7⟩).onReadyRead
          sampleFromJson ⟨7⟩
          (bytesOf "\x7b\"command\":\"delete_order\",\"id\":1\x7d" ++ [LF]) (fun _ => true)).2
        = [Effect.write ⟨7⟩ (Reply.delete_order_success 1), Effect.append sampleDeleteOrder,
            Effect.write ⟨8⟩ (Reply.delete_order 1), Effect.write ⟨9⟩ (Reply.delete_order 1)] :=
  ⟨sampleSession3_reachable, rfl, by decide, by decide, by decide,
    (C17_close_drops_buffer sampleFromJson sampleSession3 ⟨7⟩
      (bytesOf "\x7b\"command\":\"delete_")
      (bytesOf "\x7b\"command\":\"delete_order\",\"id\":1\x7d") (fun _ => true) true
      sampleSession3_reachable rfl (by decide) (by decide) (by decide)).1.2.2.2.2.1.trans rfl,
    (C17_close_drops_buffer sampleFromJson sampleSession3 ⟨7⟩
      (bytesOf "\x7b\"command\":\"delete_")
      (bytesOf "\x7b\"command\":\"delete_order\",\"id\":1\x7d") (fun _ => true) true
      sampleSession3_reachable rfl (by decide) (by decide) (by decide)).2.1.1,
    (congrArg Prod.snd (C17_close_drops_buffer sampleFromJson sampleSession3 ⟨7⟩
      (bytesOf "\x7b\"command\":\"delete_")
      (bytesOf "\x7b\"command\":\"delete_order\",\"id\":1\x7d") (fun _ => true) true
      sampleSession3_reachable rfl (by decide) (by decide) (by decide)).2.2.2).trans rfl⟩

end AtomEngine
